import Mathlib

/-!
# Fixed-point kernels of `camry/fp`: a shallow embedding

The Go packages `fix32` (signed 16.16) and `fix64` (signed 32.32) are embedded
as Lean functions.  A Go `int32`/`int64` value is an `Int`, a `uint32`/`uint64`
value is a `Nat`; every operation that can wrap in Go wraps here through an
explicit reduction modulo `2^32` or `2^64`.
-/

/-! ## Machine integers -/

namespace GoInt

/-- Two's-complement reduction of an integer to the `int64` range. -/
def wrap64 (x : Int) : Int := (x + 2 ^ 63) % 2 ^ 64 - 2 ^ 63

/-- Two's-complement reduction of an integer to the `int32` range. -/
def wrap32 (x : Int) : Int := (x + 2 ^ 31) % 2 ^ 32 - 2 ^ 31

/-- The Go conversion `uint64(x)` of a signed value: its bit pattern. -/
def toU64 (x : Int) : Nat := (x % 2 ^ 64).toNat

/-- The Go conversion `uint32(x)` of a signed value: its bit pattern. -/
def toU32 (x : Int) : Nat := (x % 2 ^ 32).toNat

/-- The Go conversion `int64(u)` of an unsigned value. -/
def toI64 (u : Nat) : Int := wrap64 (u : Int)

/-- The Go conversion `int32(u)` of an unsigned value. -/
def toI32 (u : Nat) : Int := wrap32 (u : Int)

/-- Membership in the `int64` range. -/
def isInt64 (x : Int) : Prop := -2 ^ 63 ≤ x ∧ x < 2 ^ 63

/-- Membership in the `int32` range. -/
def isInt32 (x : Int) : Prop := -2 ^ 31 ≤ x ∧ x < 2 ^ 31

instance (x : Int) : Decidable (isInt64 x) := by unfold isInt64; infer_instance

instance (x : Int) : Decidable (isInt32 x) := by unfold isInt32; infer_instance

/-- Wrapping `uint64` addition. -/
def add64 (x y : Nat) : Nat := (x + y) % 2 ^ 64

/-- Wrapping `uint64` subtraction. -/
def sub64 (x y : Nat) : Nat := (x + (2 ^ 64 - y % 2 ^ 64)) % 2 ^ 64

/-- Wrapping `uint64` multiplication. -/
def mul64 (x y : Nat) : Nat := (x * y) % 2 ^ 64

/-- Wrapping `uint64` left shift (a count of 64 or more gives 0). -/
def shl64 (x s : Nat) : Nat := (x <<< s) % 2 ^ 64

/-- Wrapping `int64` addition. -/
def iadd64 (x y : Int) : Int := wrap64 (x + y)

/-- Wrapping `int64` multiplication. -/
def imul64 (x y : Int) : Int := wrap64 (x * y)

/-- Wrapping `int64` left shift `x << s`. -/
def ishl64 (x : Int) (s : Nat) : Int := wrap64 (x * 2 ^ s)

/-- Go `int64` division `x / y` for `y != 0`: truncation toward zero, and the one
overflowing quotient (the minimum by -1) wraps. -/
def idiv64 (x y : Int) : Int := wrap64 (Int.tdiv x y)

/-- Bitwise and of two `int64` values, taken on their bit patterns. -/
def and64 (x y : Int) : Int := toI64 (toU64 x &&& toU64 y)

/-- Wrapping `int32` multiplication. -/
def imul32 (x y : Int) : Int := wrap32 (x * y)

/-- Wrapping `int32` subtraction. -/
def isub32 (x y : Int) : Int := wrap32 (x - y)

/-- Wrapping `int64` subtraction. -/
def isub64 (x y : Int) : Int := wrap64 (x - y)

/-- Wrapping `int64` negation. -/
def ineg64 (x : Int) : Int := wrap64 (-x)

/-- Bitwise exclusive or of two `int64` values, taken on their bit patterns. -/
def xor64 (x y : Int) : Int := toI64 (toU64 x ^^^ toU64 y)

/-- Bitwise or of two `int64` values, taken on their bit patterns. -/
def or64 (x y : Int) : Int := toI64 (toU64 x ||| toU64 y)

/-- Wrapping `int32` addition. -/
def iadd32 (x y : Int) : Int := wrap32 (x + y)

/-- Wrapping `int32` negation. -/
def ineg32 (x : Int) : Int := wrap32 (-x)

/-- Wrapping `int32` left shift `x << s`. -/
def ishl32 (x : Int) (s : Nat) : Int := wrap32 (x * 2 ^ s)

/-- Bitwise and of two `int32` values, taken on their bit patterns. -/
def and32 (x y : Int) : Int := toI32 (toU32 x &&& toU32 y)

/-- Bitwise exclusive or of two `int32` values, taken on their bit patterns. -/
def xor32 (x y : Int) : Int := toI32 (toU32 x ^^^ toU32 y)

/-- Bitwise or of two `int32` values, taken on their bit patterns. -/
def or32 (x y : Int) : Int := toI32 (toU32 x ||| toU32 y)

/-- Wrapping `uint32` addition. -/
def add32 (x y : Nat) : Nat := (x + y) % 2 ^ 32

/-- Wrapping `uint32` subtraction. -/
def sub32 (x y : Nat) : Nat := (x + (2 ^ 32 - y % 2 ^ 32)) % 2 ^ 32

/-- Wrapping `uint32` left shift. -/
def shl32 (x s : Nat) : Nat := (x <<< s) % 2 ^ 32

end GoInt

open GoInt

/-! ## Package `fixutil` (its source is not part of the repository snapshot) -/

namespace fixutil

/-- Modelled from the spec: `fixutil.LogicalShiftRight(v, n)`, whose source is missing.  The
spec describes it as the logical shift right of the 64-bit pattern of `v` by a possibly
negative `n` (a negative count shifts left), a count at or beyond the width giving 0. -/
def LogicalShiftRight (v : Int) (n : Int) : Int :=
  if 0 ≤ n then toI64 (toU64 v >>> n.toNat) else toI64 (shl64 (toU64 v) (-n).toNat)

/-- The remaining `fixutil` functions called by the kernels.  Their source is missing and
the spec does not give their coefficients, so they are parameters. -/
structure Approx where
  /-- Function `fixutil.ShiftRight(v int32, shift int32) int32`. -/
  ShiftRight : Int → Int → Int
  /-- Function `fixutil.Int64ShiftRight(v int64, shift int32) int64`. -/
  Int64ShiftRight : Int → Int → Int
  /-- Function `fixutil.Qmul30(a, b int32) int32`. -/
  Qmul30 : Int → Int → Int
  /-- Function `fixutil.RcpPoly4(a int32) int32`. -/
  RcpPoly4 : Int → Int
  /-- Function `fixutil.RcpPoly6(a int32) int32`. -/
  RcpPoly6 : Int → Int
  /-- Function `fixutil.RcpPoly4Lut8(a int32) int32`. -/
  RcpPoly4Lut8 : Int → Int
  /-- Function `fixutil.SqrtPoly3Lut8(a int32) int32`. -/
  SqrtPoly3Lut8 : Int → Int
  /-- Function `fixutil.SqrtPoly4(a int32) int32`. -/
  SqrtPoly4 : Int → Int
  /-- Function `fixutil.SqrtPoly3(a int32) int32`. -/
  SqrtPoly3 : Int → Int
  /-- Function `fixutil.RSqrtPoly3Lut16(a int32) int32`. -/
  RSqrtPoly3Lut16 : Int → Int
  /-- Function `fixutil.RSqrtPoly5(a int32) int32`. -/
  RSqrtPoly5 : Int → Int
  /-- Function `fixutil.RSqrtPoly3(a int32) int32`. -/
  RSqrtPoly3 : Int → Int
  /-- Function `fixutil.Exp2Poly5(a int32) int32`. -/
  Exp2Poly5 : Int → Int
  /-- Function `fixutil.Exp2Poly4(a int32) int32`. -/
  Exp2Poly4 : Int → Int
  /-- Function `fixutil.Exp2Poly3(a int32) int32`. -/
  Exp2Poly3 : Int → Int
  /-- Function `fixutil.LogPoly5Lut8(a int32) int32`. -/
  LogPoly5Lut8 : Int → Int
  /-- Function `fixutil.LogPoly3Lut8(a int32) int32`. -/
  LogPoly3Lut8 : Int → Int
  /-- Function `fixutil.LogPoly5(a int32) int32`. -/
  LogPoly5 : Int → Int
  /-- Function `fixutil.Log2Poly4Lut16(a int32) int32`. -/
  Log2Poly4Lut16 : Int → Int
  /-- Function `fixutil.Log2Poly3Lut16(a int32) int32`. -/
  Log2Poly3Lut16 : Int → Int
  /-- Function `fixutil.Log2Poly5(a int32) int32`. -/
  Log2Poly5 : Int → Int
  /-- Function `fixutil.AtanPoly5Lut8(a int32) int32`. -/
  AtanPoly5Lut8 : Int → Int
  /-- Function `fixutil.AtanPoly3Lut8(a int32) int32`. -/
  AtanPoly3Lut8 : Int → Int
  /-- Function `fixutil.AtanPoly4(a int32) int32`. -/
  AtanPoly4 : Int → Int
  /-- Function `fixutil.SinPoly4(a int32) int32`. -/
  SinPoly4 : Int → Int

/-- A sample value of the parameters, every function returning 0.  It only serves to
instantiate statements about the kernels at concrete inputs. -/
def zeroApprox : Approx where
  ShiftRight := fun _ _ => 0
  Int64ShiftRight := fun _ _ => 0
  Qmul30 := fun _ _ => 0
  RcpPoly4 := fun _ => 0
  RcpPoly6 := fun _ => 0
  RcpPoly4Lut8 := fun _ => 0
  SqrtPoly3Lut8 := fun _ => 0
  SqrtPoly4 := fun _ => 0
  SqrtPoly3 := fun _ => 0
  RSqrtPoly3Lut16 := fun _ => 0
  RSqrtPoly5 := fun _ => 0
  RSqrtPoly3 := fun _ => 0
  Exp2Poly5 := fun _ => 0
  Exp2Poly4 := fun _ => 0
  Exp2Poly3 := fun _ => 0
  LogPoly5Lut8 := fun _ => 0
  LogPoly3Lut8 := fun _ => 0
  LogPoly5 := fun _ => 0
  Log2Poly4Lut16 := fun _ => 0
  Log2Poly3Lut16 := fun _ => 0
  Log2Poly5 := fun _ => 0
  AtanPoly5Lut8 := fun _ => 0
  AtanPoly3Lut8 := fun _ => 0
  AtanPoly4 := fun _ => 0
  SinPoly4 := fun _ => 0

/-- A sample value of the parameters, every function returning the constant `c`.  It only
serves to instantiate statements about the kernels at concrete inputs. -/
def constApprox (c : Int) : Approx where
  ShiftRight := fun _ _ => c
  Int64ShiftRight := fun _ _ => c
  Qmul30 := fun _ _ => c
  RcpPoly4 := fun _ => c
  RcpPoly6 := fun _ => c
  RcpPoly4Lut8 := fun _ => c
  SqrtPoly3Lut8 := fun _ => c
  SqrtPoly4 := fun _ => c
  SqrtPoly3 := fun _ => c
  RSqrtPoly3Lut16 := fun _ => c
  RSqrtPoly5 := fun _ => c
  RSqrtPoly3 := fun _ => c
  Exp2Poly5 := fun _ => c
  Exp2Poly4 := fun _ => c
  Exp2Poly3 := fun _ => c
  LogPoly5Lut8 := fun _ => c
  LogPoly3Lut8 := fun _ => c
  LogPoly5 := fun _ => c
  Log2Poly4Lut16 := fun _ => c
  Log2Poly3Lut16 := fun _ => c
  Log2Poly5 := fun _ => c
  AtanPoly5Lut8 := fun _ => c
  AtanPoly3Lut8 := fun _ => c
  AtanPoly4 := fun _ => c
  SinPoly4 := fun _ => c

end fixutil

/-! ## Kernel-64 (`fix64/fix64.go`) -/

namespace fix64

/-- Constant `Shift`. -/
def Shift : Nat := 32

/-- Constant `FractionMask = (1 << Shift) - 1`. -/
def FractionMask : Int := 2 ^ 32 - 1

/-- Constant `One = 1 << Shift`. -/
def One : Int := 2 ^ 32

/-- Constant `MinValue`. -/
def MinValue : Int := -9223372036854775808

/-- Constant `MaxValue`. -/
def MaxValue : Int := 9223372036854775807

/-- Function `nlz(v uint64) int32`: the branching leading-zero counter. -/
def nlz (v : Nat) : Nat :=
  let n0 : Nat := 0
  let n1 := if v ≤ 0x00000000FFFFFFFF then n0 + 32 else n0
  let v1 := if v ≤ 0x00000000FFFFFFFF then shl64 v 32 else v
  let n2 := if v1 ≤ 0x0000FFFFFFFFFFFF then n1 + 16 else n1
  let v2 := if v1 ≤ 0x0000FFFFFFFFFFFF then shl64 v1 16 else v1
  let n3 := if v2 ≤ 0x00FFFFFFFFFFFFFF then n2 + 8 else n2
  let v3 := if v2 ≤ 0x00FFFFFFFFFFFFFF then shl64 v2 8 else v2
  let n4 := if v3 ≤ 0x0FFFFFFFFFFFFFFF then n3 + 4 else n3
  let v4 := if v3 ≤ 0x0FFFFFFFFFFFFFFF then shl64 v3 4 else v3
  let n5 := if v4 ≤ 0x3FFFFFFFFFFFFFFF then n4 + 2 else n4
  let v5 := if v4 ≤ 0x3FFFFFFFFFFFFFFF then shl64 v4 2 else v4
  let n6 := if v5 ≤ 0x7FFFFFFFFFFFFFFF then n5 + 1 else n5
  if v5 = 0 then 64 else n6

/-- The quotient-digit correction loop of `DivPrecise`:
`for rHat < b { if q >= b || q*vn0 > b*rHat + un { q = q - 1; rHat = rHat + vn1 } else { break } }`,
returning the final `q` and `rHat`. -/
def qLoop (vn1 vn0 un : Nat) (q rHat : Nat) : Nat × Nat :=
  if rHat < 0x100000000 then
    if hc : q ≥ 0x100000000 ∨ mul64 q vn0 > add64 (mul64 0x100000000 rHat) un then
      qLoop vn1 vn0 un (sub64 q 1) (add64 rHat vn1)
    else (q, rHat)
  else (q, rHat)
termination_by q
decreasing_by
  have hq : 0 < q := by
    rcases hc with hc | hc
    · omega
    · rcases Nat.eq_zero_or_pos q with h0 | h0
      · subst h0
        simp [mul64] at hc
      · exact h0
  unfold sub64
  omega

/-- Function `DivPrecise(argA, argB int64) int64`.  The two divisions by `vn1` are never
reached with `vn1 = 0`: past the overflow guard the divisor is nonzero and normalised. -/
def DivPrecise (argA argB : Int) : Int :=
  let signDif := Int.xor argA argB
  let b : Nat := 0x100000000
  let absArgA : Nat := if argA < 0 then toU64 (wrap64 (-argA)) else toU64 argA
  let u1 := absArgA >>> 32
  let u0 := shl64 absArgA 32
  let v : Nat := if argB < 0 then toU64 (wrap64 (-argB)) else toU64 argB
  if u1 ≥ v then 0x7fffffffffffffff
  else
    let s := nlz v
    let v := shl64 v s
    let vn1 := v >>> 32
    let vn0 := v &&& 0xffffffff
    let un32 := (shl64 u1 s) ||| ((u0 >>> (64 - s)) &&& toU64 ((-(s : Int)) >>> (63 : Nat)))
    let un10 := shl64 u0 s
    let un1 := un10 >>> 32
    let un0 := un10 &&& 0xffffffff
    let q1 := un32 / vn1
    let rHat := sub64 un32 (mul64 q1 vn1)
    let q1 := (qLoop vn1 vn0 un1 q1 rHat).1
    let un21 := sub64 (add64 (mul64 un32 b) un1) (mul64 q1 v)
    let q0 := un21 / vn1
    let rHat := sub64 un21 (mul64 q0 vn1)
    let q0 := (qLoop vn1 vn0 un0 q0 rHat).1
    let ret := add64 (mul64 q1 b) q0
    if signDif < 0 then wrap64 (-(toI64 ret)) else toI64 ret


/-- Function `Mul(a, b int64) int64`. -/
def Mul (a b : Int) : Int :=
  let ai := a >>> (32 : Nat)
  let af := and64 a FractionMask
  let bi := b >>> (32 : Nat)
  let bf := and64 b FractionMask
  iadd64 (iadd64 (fixutil.LogicalShiftRight (imul64 af bf) 32) (imul64 ai b)) (imul64 af bi)

/-- Function `MulIntLongLong(a int32, b int64) int64`. -/
def MulIntLongLong (a b : Int) : Int :=
  let bi := b >>> (32 : Nat)
  let bf := and64 b FractionMask
  iadd64 (fixutil.LogicalShiftRight (imul64 a bf) 32) (imul64 a bi)

/-- The common body of `Div`, `DivFast` and `DivFastest`, which differ only in the reciprocal
polynomial `poly` they call. -/
def divBody (U : fixutil.Approx) (poly : Int → Int) (a b : Int) : Int :=
  if b = MinValue ∨ b = 0 then 0
  else
    let sign : Int := if b < 0 then -1 else 1
    let b := imul64 b sign
    let offset : Int := 31 - (nlz (toU64 b) : Int)
    let n := wrap32 (U.Int64ShiftRight b (offset + 2))
    let ONE : Int := 2 ^ 30
    let res := poly (isub32 n ONE)
    let y := ishl64 (MulIntLongLong res a) 2
    U.Int64ShiftRight (imul64 sign y) offset

/-- Function `Div(a, b int64) int64`. -/
def Div (U : fixutil.Approx) (a b : Int) : Int := divBody U U.RcpPoly4Lut8 a b

/-- Function `DivFast(a, b int64) int64`. -/
def DivFast (U : fixutil.Approx) (a b : Int) : Int := divBody U U.RcpPoly6 a b

/-- Function `DivFastest(a, b int64) int64`. -/
def DivFastest (U : fixutil.Approx) (a b : Int) : Int := divBody U U.RcpPoly4 a b

/-- Function `Mod(a, b int64) int64`; Go's `%` is the remainder of truncated division. -/
def Mod (a b : Int) : Int :=
  if b = 0 then 0 else Int.tmod a b

/-- The loop of `SqrtPrecise`:
`for b > 0x40 { t := q + b; if r >= t { r -= t; q = t + b }; r <<= 1; b >>= 1 }`,
returning the final `q`. -/
def sqrtLoop (r b q : Nat) : Nat :=
  if h : b > 0x40 then
    let t := add64 q b
    let r1 := if r ≥ t then sub64 r t else r
    let q1 := if r ≥ t then add64 t b else q
    sqrtLoop (shl64 r1 1) (b >>> 1) q1
  else q
termination_by b
decreasing_by
  rw [Nat.shiftRight_eq_div_pow]
  omega

/-- Function `SqrtPrecise(a int64) int64`. -/
def SqrtPrecise (a : Int) : Int :=
  if a ≤ 0 then 0
  else
    let q := sqrtLoop (toU64 a) 0x4000000000000000 0
    toI64 (q >>> 16)

/-- The common body of `Rcp`, `RcpFast` and `RcpFastest`, which differ only in the reciprocal
polynomial `poly` they call. -/
def rcpBody (U : fixutil.Approx) (poly : Int → Int) (x : Int) : Int :=
  if x = MinValue ∨ x = 0 then 0
  else
    let sign : Int := if x < 0 then -1 else 1
    let x := imul64 x sign
    let offset : Int := 31 - (nlz (toU64 x) : Int)
    let n := wrap32 (U.Int64ShiftRight x (offset + 2))
    let ONE : Int := 2 ^ 30
    let res := poly (isub32 n ONE)
    let y := ishl64 (imul32 sign res) 2
    U.Int64ShiftRight y offset

/-- Function `Rcp(x int64) int64`. -/
def Rcp (U : fixutil.Approx) (x : Int) : Int := rcpBody U U.RcpPoly4Lut8 x

/-- Function `RcpFast(x int64) int64`. -/
def RcpFast (U : fixutil.Approx) (x : Int) : Int := rcpBody U U.RcpPoly6 x

/-- Function `RcpFastest(x int64) int64`. -/
def RcpFastest (U : fixutil.Approx) (x : Int) : Int := rcpBody U U.RcpPoly4 x

end fix64

/-! ## Kernel-32 (`fix32/fix32.go`) -/

namespace fix32

/-- Constant `Shift`. -/
def Shift : Nat := 16

/-- Constant `One = 1 << Shift`. -/
def One : Int := 2 ^ 16

/-- Constant `MinValue`. -/
def MinValue : Int := -2147483648

/-- Constant `MaxValue`. -/
def MaxValue : Int := 2147483647

/-- Function `Mul(a, b int32) int32`: `int32((int64(a) * int64(b)) >> Shift)`. -/
def Mul (a b : Int) : Int :=
  wrap32 ((imul64 a b) >>> Shift)

/-- Function `Nlz(v uint32) int32`: the branching leading-zero counter. -/
def Nlz (v : Nat) : Nat :=
  let n0 : Nat := 0
  let n1 := if v ≤ 0x0000FFFF then n0 + 16 else n0
  let v1 := if v ≤ 0x0000FFFF then shl32 v 16 else v
  let n2 := if v1 ≤ 0x00FFFFFF then n1 + 8 else n1
  let v2 := if v1 ≤ 0x00FFFFFF then shl32 v1 8 else v1
  let n3 := if v2 ≤ 0x0FFFFFFF then n2 + 4 else n2
  let v3 := if v2 ≤ 0x0FFFFFFF then shl32 v2 4 else v2
  let n4 := if v3 ≤ 0x3FFFFFFF then n3 + 2 else n3
  let v4 := if v3 ≤ 0x3FFFFFFF then shl32 v3 2 else v3
  let n5 := if v4 ≤ 0x7FFFFFFF then n4 + 1 else n4
  if v4 = 0 then 32 else n5

/-- Function `DivPrecise(a, b int32) int32`: `int32((int64(a) << Shift) / int64(b))` behind
the divisor guard. -/
def DivPrecise (a b : Int) : Int :=
  if b = MinValue ∨ b = 0 then 0
  else
    let res := wrap32 (idiv64 (ishl64 a Shift) b)
    res

/-- Function `Div(a, b int32) int32`: `int32((int64(a) << 16) / int64(b))` behind the divisor
guard. -/
def Div (a b : Int) : Int :=
  if b = MinValue ∨ b = 0 then 0
  else wrap32 (idiv64 (ishl64 a 16) b)

/-- The common body of `DivFast` and `DivFastest`, which differ only in the reciprocal
polynomial `poly` they call. -/
def divBody (U : fixutil.Approx) (poly : Int → Int) (a b : Int) : Int :=
  if b = MinValue ∨ b = 0 then 0
  else
    let sign : Int := if b < 0 then -1 else 1
    let b := imul32 b sign
    let offset : Int := 29 - (Nlz (toU32 b) : Int)
    let n := U.ShiftRight b (offset - 28)
    let ONE : Int := 2 ^ 30
    let res := poly (isub32 n ONE)
    let y := U.Qmul30 res a
    U.ShiftRight (imul32 sign y) (offset - 14)

/-- Function `DivFast(a, b int32) int32`. -/
def DivFast (U : fixutil.Approx) (a b : Int) : Int := divBody U U.RcpPoly6 a b

/-- Function `DivFastest(a, b int32) int32`. -/
def DivFastest (U : fixutil.Approx) (a b : Int) : Int := divBody U U.RcpPoly4 a b

/-- Function `Mod(a, b int32) int32`; Go's `%` is the remainder of truncated division. -/
def Mod (a b : Int) : Int :=
  if b = 0 then 0 else Int.tmod a b

/-- The loop of `SqrtPrecise`:
`for b > 0x40 { t := q + b; if r >= t { r -= t; q = t + b }; r <<= 1; b >>= 1 }`,
returning the final `q`. -/
def sqrtLoop (r b q : Nat) : Nat :=
  if h : b > 0x40 then
    let t := add32 q b
    let r1 := if r ≥ t then sub32 r t else r
    let q1 := if r ≥ t then add32 t b else q
    sqrtLoop (shl32 r1 1) (b >>> 1) q1
  else q
termination_by b
decreasing_by
  rw [Nat.shiftRight_eq_div_pow]
  omega

/-- Function `SqrtPrecise(a int32) int32`. -/
def SqrtPrecise (a : Int) : Int :=
  if a ≤ 0 then 0
  else
    let q := sqrtLoop (toU32 a) 0x40000000 0
    toI32 (q >>> 8)

/-- The common body of `Rcp`, `RcpFast` and `RcpFastest`, which differ only in the reciprocal
polynomial `poly` they call. -/
def rcpBody (U : fixutil.Approx) (poly : Int → Int) (x : Int) : Int :=
  if x = MinValue ∨ x = 0 then 0
  else
    let sign : Int := if x < 0 then -1 else 1
    let x := imul32 x sign
    let offset : Int := 29 - (Nlz (toU32 x) : Int)
    let n := U.ShiftRight x (offset - 28)
    let ONE : Int := 2 ^ 30
    let res := poly (isub32 n ONE)
    U.ShiftRight (imul32 sign res) offset

/-- Function `Rcp(x int32) int32`. -/
def Rcp (U : fixutil.Approx) (x : Int) : Int := rcpBody U U.RcpPoly4Lut8 x

/-- Function `RcpFast(x int32) int32`. -/
def RcpFast (U : fixutil.Approx) (x : Int) : Int := rcpBody U U.RcpPoly6 x

/-- Function `RcpFastest(x int32) int32`. -/
def RcpFastest (U : fixutil.Approx) (x : Int) : Int := rcpBody U U.RcpPoly4 x

end fix32

/-! ## Kernel-64, continued: conversions, sign, interpolation and the approximate tiers -/

namespace fix64

/-- Constant `Half = One >> 1`. -/
def Half : Int := 2 ^ 31

/-- Constant `Pi`. -/
def Pi : Int := 13493037705

/-- Constant `PiHalf`. -/
def PiHalf : Int := 6746518852

/-- Constant `RcpLn2`. -/
def RcpLn2 : Int := 0x171547652

/-- Constant `RcpLog2E`. -/
def RcpLog2E : Int := 2977044471

/-- Function `FromInt32(v int32) int64`: `int64(v) << Shift`. -/
def FromInt32 (v : Int) : Int := ishl64 v Shift

/-- Function `CeilToInt(v int64) int32`: `int32((v + (One - 1)) >> Shift)`. -/
def CeilToInt (v : Int) : Int := wrap32 ((iadd64 v (One - 1)) >>> Shift)

/-- Function `FloorToInt(v int64) int32`: `int32(v >> Shift)`. -/
def FloorToInt (v : Int) : Int := wrap32 (v >>> Shift)

/-- Function `RoundToInt(v int64) int32`: `int32((v + Half) >> Shift)`. -/
def RoundToInt (v : Int) : Int := wrap32 ((iadd64 v Half) >>> Shift)

/-- Function `Sign(v int64) int32`: `int32((v >> 63) | int64((uint64(-v)) >> 63))`. -/
def Sign (v : Int) : Int :=
  wrap32 (or64 (v >>> (63 : Nat)) (toI64 (toU64 (ineg64 v) >>> 63)))

/-- Function `Add(a, b int64) int64`. -/
def Add (a b : Int) : Int := iadd64 a b

/-- Function `Sub(a, b int64) int64`. -/
def Sub (a b : Int) : Int := isub64 a b

/-- Function `Lerp(a, b, t int64) int64`: `Mul(a, t) + Mul(b, One-t)`. -/
def Lerp (a b t : Int) : Int := iadd64 (Mul a t) (Mul b (isub64 One t))

/-- The common body of `Sqrt`, `SqrtFast` and `SqrtFastest`, which differ only in the
polynomial `poly` they call. -/
def sqrtBody (U : fixutil.Approx) (poly : Int → Int) (x : Int) : Int :=
  if x ≤ 0 then 0
  else
    let ONE : Int := 2 ^ 30
    let SQRT2 : Int := 1518500249
    let offset : Int := 31 - (nlz (toU64 x) : Int)
    let n : Int :=
      if offset ≥ 0 then wrap32 (x >>> offset.toNat) else wrap32 (ishl64 x (ineg32 offset).toNat)
    let n := n >>> (2 : Nat)
    let y := poly (isub32 n ONE)
    let adjust : Int := if and32 offset 1 ≠ 0 then SQRT2 else ONE
    let offset := offset >>> (1 : Nat)
    let yr := ishl32 (U.Qmul30 adjust y) 2
    if offset ≥ 0 then ishl64 yr offset.toNat else yr >>> (ineg32 offset).toNat

/-- Function `Sqrt(x int64) int64`. -/
def Sqrt (U : fixutil.Approx) (x : Int) : Int := sqrtBody U U.SqrtPoly3Lut8 x

/-- Function `SqrtFast(x int64) int64`. -/
def SqrtFast (U : fixutil.Approx) (x : Int) : Int := sqrtBody U U.SqrtPoly4 x

/-- Function `SqrtFastest(x int64) int64`. -/
def SqrtFastest (U : fixutil.Approx) (x : Int) : Int := sqrtBody U U.SqrtPoly3 x

/-- The common body of `RSqrt`, `RSqrtFast` and `RSqrtFastest`, which differ only in the
polynomial `poly` they call. -/
def rsqrtBody (U : fixutil.Approx) (poly : Int → Int) (x : Int) : Int :=
  if x ≤ 0 then 0
  else
    let ONE : Int := 2 ^ 30
    let HalfSqrt2 : Int := 759250125
    let offset : Int := 31 - (nlz (toU64 x) : Int)
    let n : Int :=
      if offset ≥ 0 then wrap32 (x >>> offset.toNat) else wrap32 (ishl64 x (ineg32 offset).toNat)
    let n := n >>> (2 : Nat)
    let y := poly (isub32 n ONE)
    let adjust : Int := if and32 offset 1 ≠ 0 then HalfSqrt2 else ONE
    let offset := offset >>> (1 : Nat)
    let yr := ishl32 (U.Qmul30 adjust y) 2
    if offset ≥ 0 then yr >>> offset.toNat else ishl64 yr (ineg32 offset).toNat

/-- Function `RSqrt(x int64) int64`. -/
def RSqrt (U : fixutil.Approx) (x : Int) : Int := rsqrtBody U U.RSqrtPoly3Lut16 x

/-- Function `RSqrtFast(x int64) int64`. -/
def RSqrtFast (U : fixutil.Approx) (x : Int) : Int := rsqrtBody U U.RSqrtPoly5 x

/-- Function `RSqrtFastest(x int64) int64`. -/
def RSqrtFastest (U : fixutil.Approx) (x : Int) : Int := rsqrtBody U U.RSqrtPoly3 x

/-- The common body of `Exp2`, `Exp2Fast` and `Exp2Fastest`, which differ only in the
polynomial `poly` they call. -/
def exp2Body (poly : Int → Int) (x : Int) : Int :=
  if x ≥ 32 * One then MaxValue
  else if x ≤ -32 * One then 0
  else
    let k := wrap32 ((and64 x FractionMask) >>> (2 : Nat))
    let y := ishl64 (poly k) 2
    let intPart := wrap32 (x >>> Shift)
    if intPart ≥ 0 then ishl64 y intPart.toNat else y >>> (ineg32 intPart).toNat

/-- Function `Exp2(x int64) int64`. -/
def Exp2 (U : fixutil.Approx) (x : Int) : Int := exp2Body U.Exp2Poly5 x

/-- Function `Exp2Fast(x int64) int64`. -/
def Exp2Fast (U : fixutil.Approx) (x : Int) : Int := exp2Body U.Exp2Poly4 x

/-- Function `Exp2Fastest(x int64) int64`. -/
def Exp2Fastest (U : fixutil.Approx) (x : Int) : Int := exp2Body U.Exp2Poly3 x

/-- Function `Exp(x int64) int64`. -/
def Exp (U : fixutil.Approx) (x : Int) : Int := Exp2 U (Mul x RcpLn2)

/-- Function `ExpFast(x int64) int64`. -/
def ExpFast (U : fixutil.Approx) (x : Int) : Int := Exp2Fast U (Mul x RcpLn2)

/-- Function `ExpFastest(x int64) int64`. -/
def ExpFastest (U : fixutil.Approx) (x : Int) : Int := Exp2Fastest U (Mul x RcpLn2)

/-- The common body of `Log`, `LogFast` and `LogFastest`, which differ only in the
polynomial `poly` they call. -/
def logBody (poly : Int → Int) (x : Int) : Int :=
  if x ≤ 0 then 0
  else
    let ONE : Int := 2 ^ 30
    let offset : Int := 31 - (nlz (toU64 x) : Int)
    let n : Int :=
      if offset ≥ 0 then wrap32 (x >>> offset.toNat) else wrap32 (ishl64 x (ineg32 offset).toNat)
    let n := n >>> (2 : Nat)
    let y := ishl32 (poly (isub32 n ONE)) 2
    iadd64 (imul64 offset RcpLog2E) y

/-- Function `Log(x int64) int64`. -/
def Log (U : fixutil.Approx) (x : Int) : Int := logBody U.LogPoly5Lut8 x

/-- Function `LogFast(x int64) int64`. -/
def LogFast (U : fixutil.Approx) (x : Int) : Int := logBody U.LogPoly3Lut8 x

/-- Function `LogFastest(x int64) int64`. -/
def LogFastest (U : fixutil.Approx) (x : Int) : Int := logBody U.LogPoly5 x

/-- The common body of `Log2`, `Log2Fast` and `Log2Fastest`, which differ only in the
polynomial `poly` they call. -/
def log2Body (poly : Int → Int) (x : Int) : Int :=
  if x ≤ 0 then 0
  else
    let offset : Int := 31 - (nlz (toU64 x) : Int)
    let n : Int :=
      if offset ≥ 0 then wrap32 (x >>> offset.toNat) else wrap32 (ishl64 x (ineg32 offset).toNat)
    let n := n >>> (2 : Nat)
    let ONE : Int := 2 ^ 30
    let y := ishl32 (poly (isub32 n ONE)) 2
    iadd64 (ishl64 offset Shift) y

/-- Function `Log2(x int64) int64`. -/
def Log2 (U : fixutil.Approx) (x : Int) : Int := log2Body U.Log2Poly4Lut16 x

/-- Function `Log2Fast(x int64) int64`. -/
def Log2Fast (U : fixutil.Approx) (x : Int) : Int := log2Body U.Log2Poly3Lut16 x

/-- Function `Log2Fastest(x int64) int64`. -/
def Log2Fastest (U : fixutil.Approx) (x : Int) : Int := log2Body U.Log2Poly5 x

/-- Function `Pow(x, exponent int64) int64`. -/
def Pow (U : fixutil.Approx) (x exponent : Int) : Int :=
  if exponent = 0 then One
  else if x ≤ 0 then 0
  else Exp U (Mul exponent (Log U x))

/-- Function `PowFast(x, exponent int64) int64`. -/
def PowFast (U : fixutil.Approx) (x exponent : Int) : Int :=
  if exponent = 0 then One
  else if x ≤ 0 then 0
  else ExpFast U (Mul exponent (LogFast U x))

/-- Function `PowFastest(x, exponent int64) int64`. -/
def PowFastest (U : fixutil.Approx) (x exponent : Int) : Int :=
  if exponent = 0 then One
  else if x ≤ 0 then 0
  else ExpFastest U (Mul exponent (LogFastest U x))

/-- The common body of `atan2Div`, `atan2DivFast` and `atan2DivFastest`, which differ only in
the reciprocal polynomial `poly` they call. -/
def atan2DivBody (U : fixutil.Approx) (poly : Int → Int) (y x : Int) : Int :=
  let ONE : Int := 2 ^ 30
  let offset : Int := 31 - (nlz (toU64 x) : Int)
  let n : Int :=
    if offset ≥ 0 then wrap32 (x >>> offset.toNat) else wrap32 (ishl64 x (ineg32 offset).toNat)
  let n := n >>> (2 : Nat)
  let k := isub32 n ONE
  let oox := poly k
  let yr : Int := if offset ≥ 0 then y >>> offset.toNat else ishl64 y (ineg32 offset).toNat
  U.Qmul30 (wrap32 (yr >>> (2 : Nat))) oox

/-- Function `atan2Div(y, x int64) int32`. -/
def atan2Div (U : fixutil.Approx) (y x : Int) : Int := atan2DivBody U U.RcpPoly4Lut8 y x

/-- Function `atan2DivFast(y, x int64) int32`. -/
def atan2DivFast (U : fixutil.Approx) (y x : Int) : Int := atan2DivBody U U.RcpPoly6 y x

/-- Function `atan2DivFastest(y, x int64) int32`. -/
def atan2DivFastest (U : fixutil.Approx) (y x : Int) : Int := atan2DivBody U U.RcpPoly4 y x

/-- The common body of `Atan2`, `Atan2Fast` and `Atan2Fastest`, which differ only in the
division helper `div` and the polynomial `poly` they call. -/
def atan2Body (div : Int → Int → Int) (poly : Int → Int) (y x : Int) : Int :=
  if x = 0 then
    if y > 0 then PiHalf
    else if y < 0 then -PiHalf
    else 0
  else
    let nx := xor64 x (x >>> (63 : Nat))
    let ny := xor64 y (y >>> (63 : Nat))
    let negMask := (xor64 x y) >>> (63 : Nat)
    if nx ≥ ny then
      let k := div ny nx
      let z := poly k
      let angle := xor64 negMask (ishl64 z 2)
      if x > 0 then angle
      else if y ≥ 0 then iadd64 angle Pi
      else isub64 angle Pi
    else
      let k := div nx ny
      let z := poly k
      let angle := xor64 negMask (ishl64 z 2)
      if y > 0 then isub64 PiHalf angle else isub64 (-PiHalf) angle

/-- Function `Atan2(y, x int64) int64`. -/
def Atan2 (U : fixutil.Approx) (y x : Int) : Int := atan2Body (atan2Div U) U.AtanPoly5Lut8 y x

/-- Function `Atan2Fast(y, x int64) int64`. -/
def Atan2Fast (U : fixutil.Approx) (y x : Int) : Int :=
  atan2Body (atan2DivFast U) U.AtanPoly3Lut8 y x

/-- Function `Atan2Fastest(y, x int64) int64`. -/
def Atan2Fastest (U : fixutil.Approx) (y x : Int) : Int :=
  atan2Body (atan2DivFastest U) U.AtanPoly4 y x

/-- Function `Asin(x int64) int64`. -/
def Asin (U : fixutil.Approx) (x : Int) : Int :=
  if x < -One ∨ x > One then 0
  else Atan2 U x (Sqrt U (Mul (iadd64 One x) (isub64 One x)))

/-- Function `AsinFast(x int64) int64`. -/
def AsinFast (U : fixutil.Approx) (x : Int) : Int :=
  if x < -One ∨ x > One then 0
  else Atan2Fast U x (SqrtFast U (Mul (iadd64 One x) (isub64 One x)))

/-- Function `AsinFastest(x int64) int64`. -/
def AsinFastest (U : fixutil.Approx) (x : Int) : Int :=
  if x < -One ∨ x > One then 0
  else Atan2Fastest U x (SqrtFastest U (Mul (iadd64 One x) (isub64 One x)))

/-- Function `Acos(x int64) int64`. -/
def Acos (U : fixutil.Approx) (x : Int) : Int :=
  if x < -One ∨ x > One then 0
  else Atan2 U (Sqrt U (Mul (iadd64 One x) (isub64 One x))) x

/-- Function `AcosFast(x int64) int64`. -/
def AcosFast (U : fixutil.Approx) (x : Int) : Int :=
  if x < -One ∨ x > One then 0
  else Atan2Fast U (SqrtFast U (Mul (iadd64 One x) (isub64 One x))) x

/-- Function `AcosFastest(x int64) int64`. -/
def AcosFastest (U : fixutil.Approx) (x : Int) : Int :=
  if x < -One ∨ x > One then 0
  else Atan2Fastest U (SqrtFastest U (Mul (iadd64 One x) (isub64 One x))) x

end fix64

/-! ## Kernel-32, continued: conversions, sign, interpolation and the approximate tiers -/

namespace fix32

/-- Constant `FractionMask = (1 << Shift) - 1`. -/
def FractionMask : Int := 2 ^ 16 - 1

/-- Constant `Half = One >> 1`. -/
def Half : Int := 2 ^ 15

/-- Constant `Pi = int32(13493037705 >> 16)`. -/
def Pi : Int := 205887

/-- Constant `PiHalf = int32(6746518852 >> 16)`. -/
def PiHalf : Int := 102943

/-- Constant `RcpLn2 = int32(0x171547652 >> 16)`. -/
def RcpLn2 : Int := 94548

/-- Constant `RcpLog2E = int32(2977044471 >> 16)`. -/
def RcpLog2E : Int := 45426

/-- Function `FromInt32(v int32) int32`: `v << Shift`. -/
def FromInt32 (v : Int) : Int := ishl32 v Shift

/-- Function `CeilToInt(v int32) int32`: `int32((v + (One - 1)) >> Shift)`. -/
def CeilToInt (v : Int) : Int := wrap32 ((iadd32 v (One - 1)) >>> Shift)

/-- Function `FloorToInt(v int32) int32`: `int32(v >> Shift)`. -/
def FloorToInt (v : Int) : Int := wrap32 (v >>> Shift)

/-- Function `RoundToInt(v int32) int32`: `int32((v + Half) >> Shift)`. -/
def RoundToInt (v : Int) : Int := wrap32 ((iadd32 v Half) >>> Shift)

/-- Function `Abs(v int32) int32`: `mask := v >> 31; (v + mask) ^ mask`. -/
def Abs (v : Int) : Int :=
  let mask := v >>> (31 : Nat)
  xor32 (iadd32 v mask) mask

/-- Function `Sign(v int32) int32`: `(v >> 31) | int32((uint64(-v)) >> 31)`.  The conversion
`uint64(-v)` sign-extends the `int32` value `-v` to 64 bits. -/
def Sign (v : Int) : Int :=
  or32 (v >>> (31 : Nat)) (toI32 (toU64 (ineg32 v) >>> 31))

/-- Function `Add(a, b int32) int32`. -/
def Add (a b : Int) : Int := iadd32 a b

/-- Function `Sub(a, b int32) int32`. -/
def Sub (a b : Int) : Int := isub32 a b

/-- Function `Lerp(a, b, t int32) int32`: `ta := int64(a) * (int64(One) - int64(t))`,
`tb := int64(b) * int64(t)`, result `int32((ta + tb) >> Shift)`. -/
def Lerp (a b t : Int) : Int :=
  let ta := imul64 a (isub64 One t)
  let tb := imul64 b t
  wrap32 ((iadd64 ta tb) >>> Shift)

/-- The common body of `Sqrt`, `SqrtFast` and `SqrtFastest`, which differ only in the
polynomial `poly` they call. -/
def sqrtBody (U : fixutil.Approx) (poly : Int → Int) (x : Int) : Int :=
  if x ≤ 0 then 0
  else
    let ONE : Int := 2 ^ 30
    let SQRT2 : Int := 1518500249
    let offset : Int := 15 - (Nlz (toU32 x) : Int)
    let n := U.ShiftRight x (offset - 14)
    let y := poly (isub32 n ONE)
    let adjust : Int := if and32 offset 1 ≠ 0 then SQRT2 else ONE
    let offset := offset >>> (1 : Nat)
    let yr := U.Qmul30 adjust y
    U.ShiftRight yr (14 - offset)

/-- Function `Sqrt(x int32) int32`. -/
def Sqrt (U : fixutil.Approx) (x : Int) : Int := sqrtBody U U.SqrtPoly3Lut8 x

/-- Function `SqrtFast(x int32) int32`. -/
def SqrtFast (U : fixutil.Approx) (x : Int) : Int := sqrtBody U U.SqrtPoly4 x

/-- Function `SqrtFastest(x int32) int32`. -/
def SqrtFastest (U : fixutil.Approx) (x : Int) : Int := sqrtBody U U.SqrtPoly3 x

/-- The common body of `RSqrt`, `RSqrtFast` and `RSqrtFastest`, which differ only in the
polynomial `poly` they call. -/
def rsqrtBody (U : fixutil.Approx) (poly : Int → Int) (x : Int) : Int :=
  if x ≤ 0 then 0
  else
    let ONE : Int := 2 ^ 30
    let HalfSqrt2 : Int := 759250125
    let offset : Int := 1 - (Nlz (toU32 x) : Int)
    let n := U.ShiftRight x offset
    let y := poly (isub32 n ONE)
    let adjust : Int := if and32 offset 1 ≠ 0 then HalfSqrt2 else ONE
    let offset := offset >>> (1 : Nat)
    let yr := U.Qmul30 adjust y
    U.ShiftRight yr (offset + 21)

/-- Function `RSqrt(x int32) int32`. -/
def RSqrt (U : fixutil.Approx) (x : Int) : Int := rsqrtBody U U.RSqrtPoly3Lut16 x

/-- Function `RSqrtFast(x int32) int32`. -/
def RSqrtFast (U : fixutil.Approx) (x : Int) : Int := rsqrtBody U U.RSqrtPoly5 x

/-- Function `RSqrtFastest(x int32) int32`. -/
def RSqrtFastest (U : fixutil.Approx) (x : Int) : Int := rsqrtBody U U.RSqrtPoly3 x

/-- The common body of `Exp2`, `Exp2Fast` and `Exp2Fastest`, which differ only in the
polynomial `poly` they call. -/
def exp2Body (U : fixutil.Approx) (poly : Int → Int) (x : Int) : Int :=
  if x ≥ 15 * One then MaxValue
  else if x ≤ -16 * One then 0
  else
    let k := ishl32 (and32 x FractionMask) 14
    let y := poly k
    let intPart := x >>> Shift
    U.ShiftRight y (14 - intPart)

/-- Function `Exp2(x int32) int32`. -/
def Exp2 (U : fixutil.Approx) (x : Int) : Int := exp2Body U U.Exp2Poly5 x

/-- Function `Exp2Fast(x int32) int32`. -/
def Exp2Fast (U : fixutil.Approx) (x : Int) : Int := exp2Body U U.Exp2Poly4 x

/-- Function `Exp2Fastest(x int32) int32`. -/
def Exp2Fastest (U : fixutil.Approx) (x : Int) : Int := exp2Body U U.Exp2Poly3 x

/-- Function `Exp(x int32) int32`. -/
def Exp (U : fixutil.Approx) (x : Int) : Int := Exp2 U (Mul x RcpLn2)

/-- Function `ExpFast(x int32) int32`. -/
def ExpFast (U : fixutil.Approx) (x : Int) : Int := Exp2Fast U (Mul x RcpLn2)

/-- Function `ExpFastest(x int32) int32`. -/
def ExpFastest (U : fixutil.Approx) (x : Int) : Int := Exp2Fastest U (Mul x RcpLn2)

/-- The common body of `Log`, `LogFast` and `LogFastest`, which differ only in the
polynomial `poly` they call. -/
def logBody (U : fixutil.Approx) (poly : Int → Int) (x : Int) : Int :=
  if x ≤ 0 then 0
  else
    let offset : Int := 15 - (Nlz (toU32 x) : Int)
    let n := U.ShiftRight x (offset - 14)
    let ONE : Int := 2 ^ 30
    let y := poly (isub32 n ONE)
    iadd32 (imul32 offset RcpLog2E) (y >>> (14 : Nat))

/-- Function `Log(x int32) int32`. -/
def Log (U : fixutil.Approx) (x : Int) : Int := logBody U U.LogPoly5Lut8 x

/-- Function `LogFast(x int32) int32`. -/
def LogFast (U : fixutil.Approx) (x : Int) : Int := logBody U U.LogPoly3Lut8 x

/-- Function `LogFastest(x int32) int32`. -/
def LogFastest (U : fixutil.Approx) (x : Int) : Int := logBody U U.LogPoly5 x

/-- The common body of `Log2`, `Log2Fast` and `Log2Fastest`, which differ only in the
polynomial `poly` they call. -/
def log2Body (U : fixutil.Approx) (poly : Int → Int) (x : Int) : Int :=
  if x ≤ 0 then 0
  else
    let offset : Int := 15 - (Nlz (toU32 x) : Int)
    let n := U.ShiftRight x (offset - 14)
    let ONE : Int := 2 ^ 30
    let y := poly (isub32 n ONE)
    iadd32 (ishl32 offset Shift) (y >>> (14 : Nat))

/-- Function `Log2(x int32) int32`. -/
def Log2 (U : fixutil.Approx) (x : Int) : Int := log2Body U U.Log2Poly4Lut16 x

/-- Function `Log2Fast(x int32) int32`. -/
def Log2Fast (U : fixutil.Approx) (x : Int) : Int := log2Body U U.Log2Poly3Lut16 x

/-- Function `Log2Fastest(x int32) int32`. -/
def Log2Fastest (U : fixutil.Approx) (x : Int) : Int := log2Body U U.Log2Poly5 x

/-- Function `Pow(x, exponent int32) int32`. -/
def Pow (U : fixutil.Approx) (x exponent : Int) : Int :=
  if exponent = 0 then One
  else if x ≤ 0 then 0
  else Exp U (Mul exponent (Log U x))

/-- Function `PowFast(x, exponent int32) int32`. -/
def PowFast (U : fixutil.Approx) (x exponent : Int) : Int :=
  if exponent = 0 then One
  else if x ≤ 0 then 0
  else ExpFast U (Mul exponent (LogFast U x))

/-- Function `PowFastest(x, exponent int32) int32`. -/
def PowFastest (U : fixutil.Approx) (x exponent : Int) : Int :=
  if exponent = 0 then One
  else if x ≤ 0 then 0
  else ExpFastest U (Mul exponent (LogFastest U x))

/-- The common body of `Atan2Div`, `Atan2DivFast` and `Atan2DivFastest`, which differ only in
the reciprocal polynomial `poly` they call. -/
def atan2DivBody (U : fixutil.Approx) (poly : Int → Int) (y x : Int) : Int :=
  let ONE : Int := 2 ^ 30
  let offset : Int := 1 - (Nlz (toU32 x) : Int)
  let n := U.ShiftRight x offset
  let oox := poly (isub32 n ONE)
  let yr := U.ShiftRight y offset
  U.Qmul30 yr oox

/-- Function `Atan2Div(y, x int32) int32`. -/
def Atan2Div (U : fixutil.Approx) (y x : Int) : Int := atan2DivBody U U.RcpPoly4Lut8 y x

/-- Function `Atan2DivFast(y, x int32) int32`. -/
def Atan2DivFast (U : fixutil.Approx) (y x : Int) : Int := atan2DivBody U U.RcpPoly6 y x

/-- Function `Atan2DivFastest(y, x int32) int32`. -/
def Atan2DivFastest (U : fixutil.Approx) (y x : Int) : Int := atan2DivBody U U.RcpPoly4 y x

/-- Function `Atan2(y, x int32) int32`.  In its first branch the angle is
`(negMask ^ (z >> 14)) - negMask`, unlike in the two faster tiers. -/
def Atan2 (U : fixutil.Approx) (y x : Int) : Int :=
  if x = 0 then
    if y > 0 then PiHalf
    else if y < 0 then -PiHalf
    else 0
  else
    let nx := Abs x
    let ny := Abs y
    let negMask := (xor32 x y) >>> (31 : Nat)
    if nx ≥ ny then
      let k := Atan2Div U ny nx
      let z := U.AtanPoly5Lut8 k
      let angle := isub32 (xor32 negMask (z >>> (14 : Nat))) negMask
      if x > 0 then angle
      else if y ≥ 0 then iadd32 angle Pi
      else isub32 angle Pi
    else
      let k := Atan2Div U nx ny
      let z := U.AtanPoly5Lut8 k
      let angle := xor32 negMask (z >>> (14 : Nat))
      if y > 0 then isub32 PiHalf angle else isub32 (-PiHalf) angle

/-- The common body of `Atan2Fast` and `Atan2Fastest`, which differ only in the division
helper `div` and the polynomial `poly` they call. -/
def atan2Body (div : Int → Int → Int) (poly : Int → Int) (y x : Int) : Int :=
  if x = 0 then
    if y > 0 then PiHalf
    else if y < 0 then -PiHalf
    else 0
  else
    let nx := Abs x
    let ny := Abs y
    let negMask := (xor32 x y) >>> (31 : Nat)
    if nx ≥ ny then
      let k := div ny nx
      let z := poly k
      let angle := xor32 negMask (z >>> (14 : Nat))
      if x > 0 then angle
      else if y ≥ 0 then iadd32 angle Pi
      else isub32 angle Pi
    else
      let k := div nx ny
      let z := poly k
      let angle := xor32 negMask (z >>> (14 : Nat))
      if y > 0 then isub32 PiHalf angle else isub32 (-PiHalf) angle

/-- Function `Atan2Fast(y, x int32) int32`. -/
def Atan2Fast (U : fixutil.Approx) (y x : Int) : Int :=
  atan2Body (Atan2DivFast U) U.AtanPoly3Lut8 y x

/-- Function `Atan2Fastest(y, x int32) int32`. -/
def Atan2Fastest (U : fixutil.Approx) (y x : Int) : Int :=
  atan2Body (Atan2DivFastest U) U.AtanPoly4 y x

/-- Function `Asin(x int32) int32`, computed through Kernel-64. -/
def Asin (U : fixutil.Approx) (x : Int) : Int :=
  if x < -One ∨ x > One then 0
  else
    let xx := imul64 (iadd32 One x) (isub32 One x)
    let y := fix64.Sqrt U xx
    wrap32 ((fix64.Atan2 U (ishl64 x 16) y) >>> (16 : Nat))

/-- Function `AsinFast(x int32) int32`, computed through Kernel-64. -/
def AsinFast (U : fixutil.Approx) (x : Int) : Int :=
  if x < -One ∨ x > One then 0
  else
    let xx := imul64 (iadd32 One x) (isub32 One x)
    let y := fix64.SqrtFast U xx
    wrap32 ((fix64.Atan2Fast U (ishl64 x 16) y) >>> (16 : Nat))

/-- Function `AsinFastest(x int32) int32`, computed through Kernel-64. -/
def AsinFastest (U : fixutil.Approx) (x : Int) : Int :=
  if x < -One ∨ x > One then 0
  else
    let xx := imul64 (iadd32 One x) (isub32 One x)
    let y := fix64.SqrtFastest U xx
    wrap32 ((fix64.Atan2Fastest U (ishl64 x 16) y) >>> (16 : Nat))

/-- Function `Acos(x int32) int32`, computed through Kernel-64. -/
def Acos (U : fixutil.Approx) (x : Int) : Int :=
  if x < -One ∨ x > One then 0
  else
    let xx := imul64 (iadd32 One x) (isub32 One x)
    let y := fix64.Sqrt U xx
    wrap32 ((fix64.Atan2 U y (ishl64 x 16)) >>> (16 : Nat))

/-- Function `AcosFast(x int32) int32`, computed through Kernel-64. -/
def AcosFast (U : fixutil.Approx) (x : Int) : Int :=
  if x < -One ∨ x > One then 0
  else
    let xx := imul64 (iadd32 One x) (isub32 One x)
    let y := fix64.SqrtFast U xx
    wrap32 ((fix64.Atan2Fast U y (ishl64 x 16)) >>> (16 : Nat))

/-- Function `AcosFastest(x int32) int32`, computed through Kernel-64. -/
def AcosFastest (U : fixutil.Approx) (x : Int) : Int :=
  if x < -One ∨ x > One then 0
  else
    let xx := imul64 (iadd32 One x) (isub32 One x)
    let y := fix64.SqrtFastest U xx
    wrap32 ((fix64.Atan2Fastest U y (ishl64 x 16)) >>> (16 : Nat))

end fix32

/-! ## Run-time failures of integer division -/

namespace GoInt

/-- Go `int64` division `x / y` as it runs: a division by zero is a run-time panic, rendered
as `none`; otherwise the truncated quotient, wrapped. -/
def checkedDiv64 (x y : Int) : Option Int :=
  if y = 0 then none else some (idiv64 x y)

/-- Go integer remainder `x % y` as it runs: a division by zero is a run-time panic, rendered
as `none`; otherwise the remainder of truncated division. -/
def checkedRem (x y : Int) : Option Int :=
  if y = 0 then none else some (Int.tmod x y)

end GoInt

/-! ## Kernel-64, continued: constants, absolute value, whole-number rounding, minimum and
maximum -/

namespace fix64

/-- Constant `IntegerMask = ^FractionMask`, the bitwise complement (`^x = -x - 1`). -/
def IntegerMask : Int := -FractionMask - 1

/-- Constant `Neg1 int64 = -1 << Shift`. -/
def Neg1 : Int := -1 * 2 ^ Shift

/-- Constant `Pi2`. -/
def Pi2 : Int := 26986075409

/-- Constant `E`. -/
def E : Int := 11674931555

/-- Function `Abs(v int64) int64`: `mask := v >> 63; (v + mask) ^ mask`. -/
def Abs (v : Int) : Int :=
  let mask := v >>> (63 : Nat)
  xor64 (iadd64 v mask) mask

/-- Function `Nabs(v int64) int64`: `-Abs(v)`. -/
def Nabs (v : Int) : Int := ineg64 (Abs v)

/-- Function `Ceil(v int64) int64`: `(v + FractionMask) & IntegerMask`. -/
def Ceil (v : Int) : Int := and64 (iadd64 v FractionMask) IntegerMask

/-- Function `Floor(v int64) int64`: `v & IntegerMask`. -/
def Floor (v : Int) : Int := and64 v IntegerMask

/-- Function `Round(v int64) int64`: `(v + Half) & IntegerMask`. -/
def Round (v : Int) : Int := and64 (iadd64 v Half) IntegerMask

/-- Function `Fract(v int64) int64`: `v & FractionMask`. -/
def Fract (v : Int) : Int := and64 v FractionMask

/-- Function `Min(a, b int64) int64`. -/
def Min (a b : Int) : Int := if a < b then a else b

/-- Function `Max(a, b int64) int64`. -/
def Max (a b : Int) : Int := if a > b then a else b

end fix64

/-! ## Kernel-32, continued: constants, absolute value, whole-number rounding, minimum and
maximum -/

namespace fix32

/-- Constant `IntegerMask = ^FractionMask`, the bitwise complement (`^x = -x - 1`). -/
def IntegerMask : Int := -FractionMask - 1

/-- Constant `Neg1 int32 = -1 << Shift`. -/
def Neg1 : Int := -1 * 2 ^ Shift

/-- Constant `Pi2 = int32(26986075409 >> 16)`. -/
def Pi2 : Int := wrap32 ((26986075409 : Int) >>> (16 : Nat))

/-- Constant `E = int32(11674931555 >> 16)`. -/
def E : Int := wrap32 ((11674931555 : Int) >>> (16 : Nat))

/-- Function `Nabs(v int32) int32`: `-Abs(v)`. -/
def Nabs (v : Int) : Int := ineg32 (Abs v)

/-- Function `Ceil(v int32) int32`: `(v + FractionMask) & IntegerMask`. -/
def Ceil (v : Int) : Int := and32 (iadd32 v FractionMask) IntegerMask

/-- Function `Floor(v int32) int32`: `v & IntegerMask`. -/
def Floor (v : Int) : Int := and32 v IntegerMask

/-- Function `Round(v int32) int32`: `(v + Half) & IntegerMask`. -/
def Round (v : Int) : Int := and32 (iadd32 v Half) IntegerMask

/-- Function `Fract(v int32) int32`: `v & FractionMask`. -/
def Fract (v : Int) : Int := and32 v FractionMask

/-- Function `Min(a, b int32) int32`. -/
def Min (a b : Int) : Int := if a < b then a else b

/-- Function `Max(a, b int32) int32`. -/
def Max (a b : Int) : Int := if a > b then a else b

end fix32

/-! ## Package `fp`: the value types `F32` and `F64` (`f32.go`, `f64.go`) -/

/-- Type `F32`: a signed 16.16 fixed-point value, `struct { Raw int32 }`. -/
structure F32 where
  /-- The raw `int32` value. -/
  Raw : Int
deriving DecidableEq

/-- Type `F64`: a signed 32.32 fixed-point value, `struct { Raw int64 }`. -/
structure F64 where
  /-- The raw `int64` value. -/
  Raw : Int
deriving DecidableEq

/-- Function `F32FromRaw(raw int32) F32`. -/
def F32FromRaw (raw : Int) : F32 := { Raw := raw }

/-- Function `F64FromRaw(raw int64) F64`. -/
def F64FromRaw (raw : Int) : F64 := { Raw := raw }

/-- Function `F32FromF64(v F64) F32`: `F32FromRaw(int32(v.Raw >> 16))`. -/
def F32FromF64 (v : F64) : F32 := F32FromRaw (wrap32 (v.Raw >>> (16 : Nat)))

/-- Function `F64FromF32(v F32) F64`: `F64FromRaw(int64(v.Raw) << 16)`. -/
def F64FromF32 (v : F32) : F64 := F64FromRaw (ishl64 v.Raw 16)

/-- Function `F32Ratio(a, b int32) F32`: `F32FromRaw(int32((int64(a) << 16) / int64(b)))`;
`none` is the run-time panic of the division. -/
def F32Ratio (a b : Int) : Option F32 :=
  (checkedDiv64 (ishl64 a 16) b).map fun q => F32FromRaw (wrap32 q)

/-- Function `F64Ratio(a, b int32) F64`: `F64FromRaw((int64(a) << 32) / int64(b))`;
`none` is the run-time panic of the division. -/
def F64Ratio (a b : Int) : Option F64 :=
  (checkedDiv64 (ishl64 a 32) b).map fun q => F64FromRaw q

/-- Function `F32Min(first F32, rest ...F32) F32`:
`ans := first; for _, item := range rest { if item.Raw < ans.Raw { ans = item } }`. -/
def F32Min (first : F32) (rest : List F32) : F32 :=
  rest.foldl (fun ans item => if item.Raw < ans.Raw then item else ans) first

/-- Function `F32Max(first F32, rest ...F32) F32`:
`ans := first; for _, item := range rest { if item.Raw > ans.Raw { ans = item } }`. -/
def F32Max (first : F32) (rest : List F32) : F32 :=
  rest.foldl (fun ans item => if item.Raw > ans.Raw then item else ans) first

/-- Function `F64Min(first F64, rest ...F64) F64`. -/
def F64Min (first : F64) (rest : List F64) : F64 :=
  rest.foldl (fun ans item => if item.Raw < ans.Raw then item else ans) first

/-- Function `F64Max(first F64, rest ...F64) F64`. -/
def F64Max (first : F64) (rest : List F64) : F64 :=
  rest.foldl (fun ans item => if item.Raw > ans.Raw then item else ans) first

/-- Method `(f F64) F32() F32`, whose body is `panic("not implements")`: it returns no value
(`none`) for every receiver. -/
def F64.F32 (_f : F64) : Option F32 := none

/-- Method `(f F32) Mod(v2 F32) F32`: `F32FromRaw(fix32.Mod(f.Raw, v2.Raw))`. -/
def F32.Mod (f v2 : F32) : F32 := F32FromRaw (fix32.Mod f.Raw v2.Raw)

/-- Method `(f F64) Mod(v2 F64) F64`: `F64FromRaw(fix64.Mod(f.Raw, v2.Raw))`. -/
def F64.Mod (f v2 : F64) : F64 := F64FromRaw (fix64.Mod f.Raw v2.Raw)

/-! ## Package `fp`: vectors (`f32_vec2.go`, `f32_vec3.go`, `f64_vec3.go`,
`fixmath/f64_vec2.go`, `fixmath/f64/vec3/vec3.go`) -/

/-- Type `F32Vec2`: `struct { RawX int32; RawY int32 }`. -/
structure F32Vec2 where
  /-- The raw first component. -/
  RawX : Int
  /-- The raw second component. -/
  RawY : Int
deriving DecidableEq

/-- Type `F32Vec3`: `struct { RawX, RawY, RawZ int32 }`. -/
structure F32Vec3 where
  /-- The raw first component. -/
  RawX : Int
  /-- The raw second component. -/
  RawY : Int
  /-- The raw third component. -/
  RawZ : Int
deriving DecidableEq

/-- Type `F64Vec2`: `struct { RawX int64; RawY int64 }`. -/
structure F64Vec2 where
  /-- The raw first component. -/
  RawX : Int
  /-- The raw second component. -/
  RawY : Int
deriving DecidableEq

/-- Type `F64Vec3`: `struct { RawX, RawY, RawZ int64 }`. -/
structure F64Vec3 where
  /-- The raw first component. -/
  RawX : Int
  /-- The raw second component. -/
  RawY : Int
  /-- The raw third component. -/
  RawZ : Int
deriving DecidableEq

/-- Function `F32Vec2FromRaw(rawX, rawY int32) F32Vec2`. -/
def F32Vec2FromRaw (rawX rawY : Int) : F32Vec2 := { RawX := rawX, RawY := rawY }

/-- Function `F32Vec3FromRaw(rawX, rawY, RawZ int32) F32Vec3`. -/
def F32Vec3FromRaw (rawX rawY rawZ : Int) : F32Vec3 := { RawX := rawX, RawY := rawY, RawZ := rawZ }

/-- Function `Vec2FromRaw(rawX, rawY int64) F64Vec2`. -/
def Vec2FromRaw (rawX rawY : Int) : F64Vec2 := { RawX := rawX, RawY := rawY }

/-- Function `F64Vec3FromRaw(rawX, rawY, RawZ int64) F64Vec3`. -/
def F64Vec3FromRaw (rawX rawY rawZ : Int) : F64Vec3 := { RawX := rawX, RawY := rawY, RawZ := rawZ }

/-- Method `(v F32Vec2) Mod(b F32Vec2) F32Vec2`:
`F32Vec2FromRaw(v.RawX%b.RawX, v.RawY%b.RawY)`. -/
def F32Vec2.Mod (v b : F32Vec2) : Option F32Vec2 :=
  (checkedRem v.RawX b.RawX).bind fun x =>
  (checkedRem v.RawY b.RawY).bind fun y =>
  some (F32Vec2FromRaw x y)

/-- Method `(v F32Vec2) ModF32(b F32) F32Vec2`:
`F32Vec2FromRaw(v.RawX%b.Raw, v.RawY%b.Raw)`. -/
def F32Vec2.ModF32 (v : F32Vec2) (b : F32) : Option F32Vec2 :=
  (checkedRem v.RawX b.Raw).bind fun x =>
  (checkedRem v.RawY b.Raw).bind fun y =>
  some (F32Vec2FromRaw x y)

/-- Method `(v F32Vec3) Mod(b F32Vec3) F32Vec3`:
`F32Vec3FromRaw(v.RawX%b.RawX, v.RawY%b.RawY, v.RawZ%b.RawZ)`. -/
def F32Vec3.Mod (v b : F32Vec3) : Option F32Vec3 :=
  (checkedRem v.RawX b.RawX).bind fun x =>
  (checkedRem v.RawY b.RawY).bind fun y =>
  (checkedRem v.RawZ b.RawZ).bind fun z =>
  some (F32Vec3FromRaw x y z)

/-- Method `(v F32Vec3) ModF32(b F32) F32Vec3`:
`F32Vec3FromRaw(v.RawX%b.Raw, v.RawY%b.Raw, v.RawZ%b.Raw)`. -/
def F32Vec3.ModF32 (v : F32Vec3) (b : F32) : Option F32Vec3 :=
  (checkedRem v.RawX b.Raw).bind fun x =>
  (checkedRem v.RawY b.Raw).bind fun y =>
  (checkedRem v.RawZ b.Raw).bind fun z =>
  some (F32Vec3FromRaw x y z)

/-- Method `(f F32) ModVec2(v2 F32Vec2) F32Vec2`:
`F32Vec2FromRaw(f.Raw%v2.RawX, f.Raw%v2.RawY)`. -/
def F32.ModVec2 (f : F32) (v2 : F32Vec2) : Option F32Vec2 :=
  (checkedRem f.Raw v2.RawX).bind fun x =>
  (checkedRem f.Raw v2.RawY).bind fun y =>
  some (F32Vec2FromRaw x y)

/-- Method `(f F64) ModVec2(v2 F64Vec2) F64Vec2`:
`Vec2FromRaw(f.Raw%v2.RawX, f.Raw%v2.RawY)`. -/
def F64.ModVec2 (f : F64) (v2 : F64Vec2) : Option F64Vec2 :=
  (checkedRem f.Raw v2.RawX).bind fun x =>
  (checkedRem f.Raw v2.RawY).bind fun y =>
  some (Vec2FromRaw x y)

/-- Function `F32Vec3Min(v0, v1 F32Vec3) F32Vec3`. -/
def F32Vec3Min (v0 v1 : F32Vec3) : F32Vec3 :=
  F32Vec3FromRaw (fix32.Min v0.RawX v1.RawX) (fix32.Min v0.RawY v1.RawY)
    (fix32.Min v0.RawZ v1.RawZ)

/-- Function `F32Vec3Max(v0, v1 F32Vec3) F32Vec3`; the source passes the third components to
`fix32.Min`. -/
def F32Vec3Max (v0 v1 : F32Vec3) : F32Vec3 :=
  F32Vec3FromRaw (fix32.Max v0.RawX v1.RawX) (fix32.Max v0.RawY v1.RawY)
    (fix32.Min v0.RawZ v1.RawZ)

/-- Function `F64Vec3Max(v0, v1 F64Vec3) F64Vec3`; the source passes the third components to
`fix64.Min`. -/
def F64Vec3Max (v0 v1 : F64Vec3) : F64Vec3 :=
  F64Vec3FromRaw (fix64.Max v0.RawX v1.RawX) (fix64.Max v0.RawY v1.RawY)
    (fix64.Min v0.RawZ v1.RawZ)

namespace vec3

/-- Type `vec3.Vec3` of `fixmath/f64/vec3`: `struct { RawX, RawY, RawZ int64 }`. -/
structure Vec3 where
  /-- The raw first component. -/
  RawX : Int
  /-- The raw second component. -/
  RawY : Int
  /-- The raw third component. -/
  RawZ : Int
deriving DecidableEq

/-- Function `vec3.FromRaw(rawX, rawY, RawZ int64) Vec3`. -/
def FromRaw (rawX rawY rawZ : Int) : Vec3 := { RawX := rawX, RawY := rawY, RawZ := rawZ }

/-- Function `vec3.Max(v0, v1 Vec3) Vec3`; the source passes the third components to
`fix64.Min`. -/
def Max (v0 v1 : Vec3) : Vec3 :=
  FromRaw (fix64.Max v0.RawX v1.RawX) (fix64.Max v0.RawY v1.RawY) (fix64.Min v0.RawZ v1.RawZ)

end vec3

/-! ## Kernel-64, continued: mantissa normalisation, the sine fold and the instrumented
long division -/

namespace fix64

/-- The mantissa normalisation that opens `Sqrt`, up to the value `n` handed to the
polynomial as `n - ONE`:
`offset := 31 - nlz(uint64(x)); if offset >= 0 { n = int32(x >> offset) } else
{ n = int32(x << -offset) }; n >>= 2`.  The same lines open `SqrtFast`, `SqrtFastest`, the
`RSqrt`, `Log` and `Log2` tiers and `atan2Div`. -/
def normMantissa (x : Int) : Int :=
  let offset : Int := 31 - (nlz (toU64 x) : Int)
  let n : Int :=
    if offset ≥ 0 then wrap32 (x >>> offset.toNat) else wrap32 (ishl64 x (ineg32 offset).toNat)
  n >>> (2 : Nat)

/-- The quadrant fold that opens `unitSin(z int32)`:
`if (z ^ (z << 1)) < 0 { z = int32((1 << 31) - int64(z)) }`. -/
def unitSinMirror (z : Int) : Int :=
  if xor32 z (ishl32 z 1) < 0 then wrap32 (2 ^ 31 - z) else z

/-- Function `unitSin(z int32) int32`. -/
def unitSin (U : fixutil.Approx) (z : Int) : Int :=
  let z := unitSinMirror z
  let zz := U.Qmul30 z z
  U.Qmul30 (U.SinPoly4 zz) z

/-- The number of times the quotient-digit correction loop of `DivPrecise` (see `qLoop`)
takes its `q = q - 1` branch before it exits. -/
def qLoopCount (vn1 vn0 un : Nat) (q rHat : Nat) : Nat :=
  if rHat < 0x100000000 then
    if hc : q ≥ 0x100000000 ∨ mul64 q vn0 > add64 (mul64 0x100000000 rHat) un then
      qLoopCount vn1 vn0 un (sub64 q 1) (add64 rHat vn1) + 1
    else 0
  else 0
termination_by q
decreasing_by
  have hq : 0 < q := by
    rcases hc with hc | hc
    · omega
    · rcases Nat.eq_zero_or_pos q with h0 | h0
      · subst h0
        simp [mul64] at hc
      · exact h0
  unfold sub64
  omega

/-- Function `DivPrecise(argA, argB int64) int64` as it runs, instrumented.  `none` is the
run-time panic of an integer division by zero (both quotient-digit divisions divide by
`vn1`); otherwise the result carries the returned value and the number of decrements each of
the two correction loops performed. -/
def DivPreciseChecked (argA argB : Int) : Option (Int × Nat × Nat) :=
  let signDif := Int.xor argA argB
  let b : Nat := 0x100000000
  let absArgA : Nat := if argA < 0 then toU64 (wrap64 (-argA)) else toU64 argA
  let u1 := absArgA >>> 32
  let u0 := shl64 absArgA 32
  let v : Nat := if argB < 0 then toU64 (wrap64 (-argB)) else toU64 argB
  if u1 ≥ v then some (0x7fffffffffffffff, 0, 0)
  else
    let s := nlz v
    let v := shl64 v s
    let vn1 := v >>> 32
    let vn0 := v &&& 0xffffffff
    let un32 := (shl64 u1 s) ||| ((u0 >>> (64 - s)) &&& toU64 ((-(s : Int)) >>> (63 : Nat)))
    let un10 := shl64 u0 s
    let un1 := un10 >>> 32
    let un0 := un10 &&& 0xffffffff
    if vn1 = 0 then none
    else
      let q1 := un32 / vn1
      let rHat := sub64 un32 (mul64 q1 vn1)
      let c1 := qLoopCount vn1 vn0 un1 q1 rHat
      let q1 := (qLoop vn1 vn0 un1 q1 rHat).1
      let un21 := sub64 (add64 (mul64 un32 b) un1) (mul64 q1 v)
      let q0 := un21 / vn1
      let rHat := sub64 un21 (mul64 q0 vn1)
      let c0 := qLoopCount vn1 vn0 un0 q0 rHat
      let q0 := (qLoop vn1 vn0 un0 q0 rHat).1
      let ret := add64 (mul64 q1 b) q0
      some (if signDif < 0 then wrap64 (-(toI64 ret)) else toI64 ret, c1, c0)

end fix64

/-! ## Kernel-32, continued: the sine fold -/

namespace fix32

/-- The quadrant fold that opens `UnitSin(z int32)`:
`if (z ^ (z << 1)) < 0 { z = int32((1 << 31) - int64(z)) }`. -/
def unitSinMirror (z : Int) : Int :=
  if xor32 z (ishl32 z 1) < 0 then wrap32 (2 ^ 31 - z) else z

/-- Function `UnitSin(z int32) int32`. -/
def UnitSin (U : fixutil.Approx) (z : Int) : Int :=
  let z := unitSinMirror z
  let zz := U.Qmul30 z z
  U.Qmul30 (U.SinPoly4 zz) z

end fix32

/-! ## Package `fp`, continued: `F32.Lerp` (`f32.go`) -/

/-- Method `(f F32) Lerp(b, t F32) F32`:
`tb := t.Raw; ta := fix32.One - tb; F32FromRaw(fix32.Mul(f.Raw, ta) + fix32.Mul(b.Raw, tb))`. -/
def F32.Lerp (f b t : F32) : F32 :=
  let tb := t.Raw
  let ta := isub32 fix32.One tb
  F32FromRaw (iadd32 (fix32.Mul f.Raw ta) (fix32.Mul b.Raw tb))

/-! ## Packages `fixmath/f64` and `fixmath/f64/quat` -/

namespace f64

/-- Type `f64.F64` of `fixmath/f64`: `struct { Raw int64 }`. -/
structure F64 where
  /-- The raw `int64` value. -/
  Raw : Int
deriving DecidableEq

/-- Function `f64.FromRaw(raw int64) F64`. -/
def FromRaw (raw : Int) : F64 := { Raw := raw }

/-- Method `(f F64) Add(v2 F64) F64`: `FromRaw(fix64.Add(f.Raw, v2.Raw))`. -/
def F64.Add (f v2 : F64) : F64 := FromRaw (fix64.Add f.Raw v2.Raw)

/-- Method `(f F64) Sub(v2 F64) F64`: `FromRaw(fix64.Sub(f.Raw, v2.Raw))`. -/
def F64.Sub (f v2 : F64) : F64 := FromRaw (fix64.Sub f.Raw v2.Raw)

/-- Method `(f F64) Mul(v2 F64) F64`: `FromRaw(fix64.Mul(f.Raw, v2.Raw))`. -/
def F64.Mul (f v2 : F64) : F64 := FromRaw (fix64.Mul f.Raw v2.Raw)

end f64

namespace quat

/-- Type `quat.Quat`: `struct { RawX, RawY, RawZ, RawW int64 }`. -/
structure Quat where
  /-- The raw first component. -/
  RawX : Int
  /-- The raw second component. -/
  RawY : Int
  /-- The raw third component. -/
  RawZ : Int
  /-- The raw fourth (scalar) component. -/
  RawW : Int
deriving DecidableEq

/-- Function `quat.FromRaw(x, y, z, w int64) Quat`. -/
def FromRaw (x y z w : Int) : Quat := { RawX := x, RawY := y, RawZ := z, RawW := w }

/-- Function `quat.FromF64(x, y, z, w f64.F64) Quat`. -/
def FromF64 (x y z w : f64.F64) : Quat :=
  { RawX := x.Raw, RawY := y.Raw, RawZ := z.Raw, RawW := w.Raw }

/-- Variable `Identity = FromRaw(fix64.Zero, fix64.Zero, fix64.Zero, fix64.One)`. -/
def Identity : Quat := FromRaw 0 0 0 fix64.One

/-- Method `(q Quat) X() f64.F64`. -/
def Quat.X (q : Quat) : f64.F64 := f64.FromRaw q.RawX

/-- Method `(q Quat) Y() f64.F64`. -/
def Quat.Y (q : Quat) : f64.F64 := f64.FromRaw q.RawY

/-- Method `(q Quat) Z() f64.F64`. -/
def Quat.Z (q : Quat) : f64.F64 := f64.FromRaw q.RawZ

/-- Method `(q Quat) W() f64.F64`. -/
def Quat.W (q : Quat) : f64.F64 := f64.FromRaw q.RawW

/-- Method `(q Quat) Multiply(b Quat) Quat`, the Hamilton product. -/
def Quat.Multiply (q b : Quat) : Quat :=
  let q1x := q.X
  let q1y := q.Y
  let q1z := q.Z
  let q1w := q.W
  let q2x := b.X
  let q2y := b.Y
  let q2z := b.Z
  let q2w := b.W
  let cx := (q1y.Mul q2z).Sub (q1z.Mul q2y)
  let cy := (q1z.Mul q2x).Sub (q1x.Mul q2z)
  let cz := (q1x.Mul q2y).Sub (q1y.Mul q2x)
  let dot := ((q1x.Mul q2x).Add (q1y.Mul q2y)).Add (q1z.Mul q2z)
  FromF64
    (((q1x.Mul q2w).Add (q2x.Mul q1w)).Add cx)
    (((q1y.Mul q2w).Add (q2y.Mul q1w)).Add cy)
    (((q1z.Mul q2w).Add (q2z.Mul q1w)).Add cz)
    ((q1w.Mul q2w).Sub dot)

end quat

/-! ## Loop invariants of `SqrtPrecise` -/

/-- The invariant of the `fix32.SqrtPrecise` loop, for a radicand `A = a * 2^32`: the
remainder identity, the bracket of the root, divisibility of the partial root, and room
below `2^31`. -/
def sqrtInv32 (A r b q : Nat) : Prop :=
  r * (4 * b) + q * q = A ∧ r < 2 * q + 4 * b ∧ 4 * b ∣ q ∧ q + 4 * b ≤ 2 ^ 31

/-- The invariant of the `fix64.SqrtPrecise` loop, for a radicand `A = a * 2^64`: the
remainder identity, the bracket of the root, divisibility of the partial root, and room
below `2^63`. -/
def sqrtInv64 (A r b q : Nat) : Prop :=
  r * (4 * b) + q * q = A ∧ r < 2 * q + 4 * b ∧ 4 * b ∣ q ∧ q + 4 * b ≤ 2 ^ 63

/-! ## Theorems -/

/-! ### Leading-zero counters -/

/-- One conditional step of a leading-zero counter on values below `M`: with `x = v * 2^n`,
shifting left by `k` when `x` is at most `B` keeps the shape and raises the lower bound. -/
theorem nlz_step (M B K L L' v n x k x' n' : Nat) (hx : x = v * 2 ^ n) (hlt : x < M)
    (hge : L ≤ x) (hK : K = 2 ^ k) (hBK : (B + 1) * K = M) (hL : L' ≤ L * K)
    (hL' : L' ≤ B + 1) (hx' : x' = if x ≤ B then x * K % M else x)
    (hn' : n' = if x ≤ B then n + k else n) :
    x' = v * 2 ^ n' ∧ x' < M ∧ L' ≤ x' := by
  by_cases c : x ≤ B
  · rw [if_pos c] at hx' hn'
    have h1 : x * K < M := by
      rw [← hBK]
      exact Nat.mul_lt_mul_of_lt_of_le (by omega) (le_refl K) (by rw [hK]; exact Nat.two_pow_pos k)
    have h2 : L * K ≤ x * K := Nat.mul_le_mul_right K hge
    rw [Nat.mod_eq_of_lt h1] at hx'
    refine ⟨?_, by omega, by omega⟩
    rw [hx', hn', Nat.pow_add, ← Nat.mul_assoc, ← hx, hK]
  · rw [if_neg c] at hx' hn'
    rw [hx', hn']
    exact ⟨hx, hlt, by omega⟩

namespace fix64

/-- Normalisation by `nlz`: shifting a nonzero 64-bit value left by its count sets the top
bit without overflow. -/
theorem nlz_norm (v : Nat) (hv : v < 2 ^ 64) (h0 : v ≠ 0) :
    nlz v ≤ 63 ∧ 2 ^ 63 ≤ v * 2 ^ nlz v ∧ v * 2 ^ nlz v < 2 ^ 64 := by
  suffices h : ∀ r, nlz v = r → r ≤ 63 ∧ 2 ^ 63 ≤ v * 2 ^ r ∧ v * 2 ^ r < 2 ^ 64 from h _ rfl
  intro r hr
  unfold nlz at hr
  lift_lets at hr
  extract_lets n0 n1 v1 n2 v2 n3 v3 n4 v4 n5 v5 n6 at hr
  have hn0 : n0 = 0 := rfl
  have hn1 : n1 = if v ≤ 0xFFFFFFFF then n0 + 32 else n0 := rfl
  have hv1 : v1 = if v ≤ 0xFFFFFFFF then v * 2 ^ 32 % 2 ^ 64 else v := by
    simp only [v1, shl64, Nat.shiftLeft_eq]
  have hn2 : n2 = if v1 ≤ 0xFFFFFFFFFFFF then n1 + 16 else n1 := rfl
  have hv2 : v2 = if v1 ≤ 0xFFFFFFFFFFFF then v1 * 2 ^ 16 % 2 ^ 64 else v1 := by
    simp only [v2, shl64, Nat.shiftLeft_eq]
  have hn3 : n3 = if v2 ≤ 0xFFFFFFFFFFFFFF then n2 + 8 else n2 := rfl
  have hv3 : v3 = if v2 ≤ 0xFFFFFFFFFFFFFF then v2 * 2 ^ 8 % 2 ^ 64 else v2 := by
    simp only [v3, shl64, Nat.shiftLeft_eq]
  have hn4 : n4 = if v3 ≤ 0xFFFFFFFFFFFFFFF then n3 + 4 else n3 := rfl
  have hv4 : v4 = if v3 ≤ 0xFFFFFFFFFFFFFFF then v3 * 2 ^ 4 % 2 ^ 64 else v3 := by
    simp only [v4, shl64, Nat.shiftLeft_eq]
  have hn5 : n5 = if v4 ≤ 0x3FFFFFFFFFFFFFFF then n4 + 2 else n4 := rfl
  have hv5 : v5 = if v4 ≤ 0x3FFFFFFFFFFFFFFF then v4 * 2 ^ 2 % 2 ^ 64 else v4 := by
    simp only [v5, shl64, Nat.shiftLeft_eq]
  have hn6 : n6 = if v5 ≤ 0x7FFFFFFFFFFFFFFF then n5 + 1 else n5 := rfl
  clear_value n0 n1 v1 n2 v2 n3 v3 n4 v4 n5 v5 n6
  obtain ⟨e1, lt1, ge1⟩ := nlz_step (2 ^ 64) 0xFFFFFFFF (2 ^ 32) 1 (2 ^ 32) v n0 v 32 v1 n1
    (by rw [hn0]; simp) hv (by omega) rfl (by norm_num) (by norm_num) (by norm_num) hv1 hn1
  obtain ⟨e2, lt2, ge2⟩ := nlz_step (2 ^ 64) 0xFFFFFFFFFFFF (2 ^ 16) (2 ^ 32) (2 ^ 48) v n1
    v1 16 v2 n2 e1 lt1 ge1 rfl (by norm_num) (by norm_num) (by norm_num) hv2 hn2
  obtain ⟨e3, lt3, ge3⟩ := nlz_step (2 ^ 64) 0xFFFFFFFFFFFFFF (2 ^ 8) (2 ^ 48) (2 ^ 56) v n2
    v2 8 v3 n3 e2 lt2 ge2 rfl (by norm_num) (by norm_num) (by norm_num) hv3 hn3
  obtain ⟨e4, lt4, ge4⟩ := nlz_step (2 ^ 64) 0xFFFFFFFFFFFFFFF (2 ^ 4) (2 ^ 56) (2 ^ 60) v n3
    v3 4 v4 n4 e3 lt3 ge3 rfl (by norm_num) (by norm_num) (by norm_num) hv4 hn4
  obtain ⟨e5, lt5, ge5⟩ := nlz_step (2 ^ 64) 0x3FFFFFFFFFFFFFFF (2 ^ 2) (2 ^ 60) (2 ^ 62) v n4
    v4 2 v5 n5 e4 lt4 ge4 rfl (by norm_num) (by norm_num) (by norm_num) hv5 hn5
  have b5 : n5 ≤ 62 := by
    rw [hn5, hn4, hn3, hn2, hn1, hn0]
    split_ifs <;> omega
  have hv5z : v5 ≠ 0 := by omega
  rw [if_neg hv5z] at hr
  subst hr
  by_cases c : v5 ≤ 0x7FFFFFFFFFFFFFFF
  · rw [if_pos c] at hn6
    have e : v * 2 ^ (n5 + 1) = v5 * 2 := by rw [Nat.pow_succ, ← Nat.mul_assoc, ← e5]
    rw [hn6, e]
    omega
  · rw [if_neg c] at hn6
    rw [hn6, ← e5]
    omega

end fix64

/-- Normalisation by `fix32.Nlz`: shifting a nonzero 32-bit value left by its count sets
the top bit without overflow. -/
theorem Nlz32_norm (v : Nat) (hv : v < 2 ^ 32) (h0 : v ≠ 0) :
    fix32.Nlz v ≤ 31 ∧ 2 ^ 31 ≤ v * 2 ^ fix32.Nlz v ∧ v * 2 ^ fix32.Nlz v < 2 ^ 32 := by
  suffices h : ∀ r, fix32.Nlz v = r → r ≤ 31 ∧ 2 ^ 31 ≤ v * 2 ^ r ∧ v * 2 ^ r < 2 ^ 32 from
    h _ rfl
  intro r hr
  unfold fix32.Nlz at hr
  lift_lets at hr
  extract_lets n0 n1 v1 n2 v2 n3 v3 n4 v4 n5 at hr
  have hn0 : n0 = 0 := rfl
  have hn1 : n1 = if v ≤ 0xFFFF then n0 + 16 else n0 := rfl
  have hv1 : v1 = if v ≤ 0xFFFF then v * 2 ^ 16 % 2 ^ 32 else v := by
    simp only [v1, shl32, Nat.shiftLeft_eq]
  have hn2 : n2 = if v1 ≤ 0xFFFFFF then n1 + 8 else n1 := rfl
  have hv2 : v2 = if v1 ≤ 0xFFFFFF then v1 * 2 ^ 8 % 2 ^ 32 else v1 := by
    simp only [v2, shl32, Nat.shiftLeft_eq]
  have hn3 : n3 = if v2 ≤ 0xFFFFFFF then n2 + 4 else n2 := rfl
  have hv3 : v3 = if v2 ≤ 0xFFFFFFF then v2 * 2 ^ 4 % 2 ^ 32 else v2 := by
    simp only [v3, shl32, Nat.shiftLeft_eq]
  have hn4 : n4 = if v3 ≤ 0x3FFFFFFF then n3 + 2 else n3 := rfl
  have hv4 : v4 = if v3 ≤ 0x3FFFFFFF then v3 * 2 ^ 2 % 2 ^ 32 else v3 := by
    simp only [v4, shl32, Nat.shiftLeft_eq]
  have hn5 : n5 = if v4 ≤ 0x7FFFFFFF then n4 + 1 else n4 := rfl
  clear_value n0 n1 v1 n2 v2 n3 v3 n4 v4 n5
  obtain ⟨e1, lt1, ge1⟩ := nlz_step (2 ^ 32) 0xFFFF (2 ^ 16) 1 (2 ^ 16) v n0 v 16 v1 n1
    (by rw [hn0]; simp) hv (by omega) rfl (by norm_num) (by norm_num) (by norm_num) hv1 hn1
  obtain ⟨e2, lt2, ge2⟩ := nlz_step (2 ^ 32) 0xFFFFFF (2 ^ 8) (2 ^ 16) (2 ^ 24) v n1
    v1 8 v2 n2 e1 lt1 ge1 rfl (by norm_num) (by norm_num) (by norm_num) hv2 hn2
  obtain ⟨e3, lt3, ge3⟩ := nlz_step (2 ^ 32) 0xFFFFFFF (2 ^ 4) (2 ^ 24) (2 ^ 28) v n2
    v2 4 v3 n3 e2 lt2 ge2 rfl (by norm_num) (by norm_num) (by norm_num) hv3 hn3
  obtain ⟨e4, lt4, ge4⟩ := nlz_step (2 ^ 32) 0x3FFFFFFF (2 ^ 2) (2 ^ 28) (2 ^ 30) v n3
    v3 2 v4 n4 e3 lt3 ge3 rfl (by norm_num) (by norm_num) (by norm_num) hv4 hn4
  have b4 : n4 ≤ 30 := by
    rw [hn4, hn3, hn2, hn1, hn0]
    split_ifs <;> omega
  have hv4z : v4 ≠ 0 := by omega
  rw [if_neg hv4z] at hr
  subst hr
  by_cases c : v4 ≤ 0x7FFFFFFF
  · rw [if_pos c] at hn5
    have e : v * 2 ^ (n4 + 1) = v4 * 2 := by rw [Nat.pow_succ, ← Nat.mul_assoc, ← e4]
    rw [hn5, e]
    omega
  · rw [if_neg c] at hn5
    rw [hn5, ← e4]
    omega

/-! ### The long division of `fix64.DivPrecise` -/

namespace fix64

/-- The true quotient digit is below the base when the high part is below the divisor. -/
theorem digit_lt_base (V u un : Nat) (hun : un < 2 ^ 32) (hu : u < V) :
    (u * 2 ^ 32 + un) / V < 2 ^ 32 := by
  rw [Nat.div_lt_iff_lt_mul (by omega)]
  have h : (u + 1) * 2 ^ 32 ≤ 2 ^ 32 * V := by
    rw [Nat.mul_comm]
    exact Nat.mul_le_mul_left _ hu
  omega

theorem qLoop_spec (vn1 vn0 un u Q : Nat) (hvn1 : 2 ^ 31 ≤ vn1) (hvn1' : vn1 < 2 ^ 32)
    (hvn0 : vn0 < 2 ^ 32) (hun : un < 2 ^ 32) (hu : u < vn1 * 2 ^ 32 + vn0)
    (hQ : Q = (u * 2 ^ 32 + un) / (vn1 * 2 ^ 32 + vn0)) :
    ∀ q r, q * vn1 + r = u → Q ≤ q → q ≤ 2 ^ 32 + 1 → (2 ^ 32 ≤ r → q ≤ 2 ^ 32) →
      (qLoop vn1 vn0 un q r).1 = Q := by
  have hQlt : Q < 2 ^ 32 := hQ ▸ digit_lt_base (vn1 * 2 ^ 32 + vn0) u un hun hu
  intro q
  induction q using Nat.strong_induction_on with
  | _ q ih =>
    intro r hqr hQq hq1 hq2
    have hVpos : 0 < vn1 * 2 ^ 32 + vn0 := by omega
    have e : q * (vn1 * 2 ^ 32 + vn0) = (q * vn1) * 2 ^ 32 + q * vn0 := by ring
    have e2 : u * 2 ^ 32 = (q * vn1) * 2 ^ 32 + r * 2 ^ 32 := by rw [← hqr]; ring
    have key : q * vn0 ≤ r * 2 ^ 32 + un → q ≤ Q := by
      intro h
      rw [hQ, Nat.le_div_iff_mul_le hVpos, e]
      omega
    have key2 : r * 2 ^ 32 + un < q * vn0 → Q < q := by
      intro h
      rw [hQ, Nat.div_lt_iff_lt_mul hVpos, e]
      omega
    rw [qLoop]
    by_cases hr : r < 0x100000000
    · rw [if_pos hr]
      by_cases hc : q ≥ 0x100000000 ∨ mul64 q vn0 > add64 (mul64 0x100000000 r) un
      · rw [dif_pos hc]
        have hlt : Q < q := by
          rcases hc with hc | hc
          · omega
          · by_cases hqb : q ≥ 0x100000000
            · omega
            · apply key2
              have hm := Nat.mul_lt_mul'' (show q < 2 ^ 32 by omega) hvn0
              unfold mul64 add64 at hc
              omega
        have hs : sub64 q 1 = q - 1 := by unfold sub64; omega
        have ha : add64 r vn1 = r + vn1 := by unfold add64; omega
        rw [hs, ha]
        apply ih (q - 1) (by omega) (r + vn1)
        · have : q * vn1 = (q - 1) * vn1 + vn1 := by
            conv_lhs => rw [show q = (q - 1) + 1 by omega]
            ring
          omega
        · omega
        · omega
        · intro _; omega
      · rw [dif_neg hc]
        push_neg at hc
        obtain ⟨hc1, hc2⟩ := hc
        have hm := Nat.mul_lt_mul'' (show q < 2 ^ 32 by omega) hvn0
        unfold mul64 add64 at hc2
        have := key (by omega)
        show q = _
        omega
    · rw [if_neg hr]
      have hqb := hq2 (by omega)
      have hm : q * vn0 ≤ 2 ^ 32 * vn0 := Nat.mul_le_mul_right _ hqb
      have := key (by omega)
      show q = _
      omega

/-- One quotient digit: the estimate `u / vn1` followed by the correction loop is the
exact digit `(u * 2^32 + un) / v` for a normalised divisor `v = vn1 * 2^32 + vn0`. -/
theorem digit_spec (vn1 vn0 un u : Nat) (hvn1 : 2 ^ 31 ≤ vn1) (hvn1' : vn1 < 2 ^ 32)
    (hvn0 : vn0 < 2 ^ 32) (hun : un < 2 ^ 32) (hu : u < vn1 * 2 ^ 32 + vn0) :
    (qLoop vn1 vn0 un (u / vn1) (sub64 u (mul64 (u / vn1) vn1))).1
      = (u * 2 ^ 32 + un) / (vn1 * 2 ^ 32 + vn0) := by
  have hpos : 0 < vn1 := by omega
  have hVpos : 0 < vn1 * 2 ^ 32 + vn0 := by omega
  have hdm : vn1 * (u / vn1) + u % vn1 = u := Nat.div_add_mod u vn1
  have hml : u % vn1 < vn1 := Nat.mod_lt _ hpos
  have hcomm : u / vn1 * vn1 = vn1 * (u / vn1) := Nat.mul_comm _ _
  have hr : sub64 u (mul64 (u / vn1) vn1) = u % vn1 := by
    unfold sub64 mul64
    omega
  rw [hr]
  obtain ⟨Q, hQ⟩ : ∃ Q, Q = (u * 2 ^ 32 + un) / (vn1 * 2 ^ 32 + vn0) := ⟨_, rfl⟩
  rw [← hQ]
  apply qLoop_spec vn1 vn0 un u Q hvn1 hvn1' hvn0 hun hu hQ
  · omega
  · rw [Nat.le_div_iff_mul_le hpos]
    have h1 : Q * (vn1 * 2 ^ 32 + vn0) ≤ u * 2 ^ 32 + un := by
      rw [hQ]; exact Nat.div_mul_le_self _ _
    have e : Q * (vn1 * 2 ^ 32 + vn0) = (Q * vn1) * 2 ^ 32 + Q * vn0 := by ring
    omega
  · by_contra hcon
    have h1 : (2 ^ 32 + 2) * vn1 ≤ u / vn1 * vn1 := Nat.mul_le_mul_right _ (by omega)
    omega
  · intro h; omega

/-- Two base-`2^32` digits assemble into the quotient of the three-digit dividend. -/
theorem two_digits (V N1 un0 : Nat) (hV : 0 < V) :
    N1 / V * 2 ^ 32 + (N1 % V * 2 ^ 32 + un0) / V = (N1 * 2 ^ 32 + un0) / V := by
  have h : N1 * 2 ^ 32 + un0 = V * (N1 / V * 2 ^ 32) + (N1 % V * 2 ^ 32 + un0) := by
    have := Nat.div_add_mod N1 V
    calc N1 * 2 ^ 32 + un0 = (V * (N1 / V) + N1 % V) * 2 ^ 32 + un0 := by rw [this]
      _ = V * (N1 / V * 2 ^ 32) + (N1 % V * 2 ^ 32 + un0) := by ring
  rw [h, Nat.mul_add_div hV]

/-- The low 64 bits of the normalised dividend. -/
theorem norm_lo (A s : Nat) : shl64 (shl64 A 32) s = (A * 2 ^ 32 * 2 ^ s) % 2 ^ 64 := by
  unfold shl64
  rw [Nat.shiftLeft_eq, Nat.shiftLeft_eq, Nat.mod_mul_mod]

/-- The high 64 bits of the normalised dividend. -/
theorem norm_hi (A s : Nat) (hs : s ≤ 63) (hu : A / 2 ^ 32 * 2 ^ s < 2 ^ 64) :
    (shl64 (A >>> 32) s ||| ((shl64 A 32 >>> (64 - s)) &&& toU64 ((-(s : Int)) >>> (63 : Nat))))
      = (A * 2 ^ 32 * 2 ^ s) / 2 ^ 64 := by
  have hdm : 2 ^ 32 * (A / 2 ^ 32) + A % 2 ^ 32 = A := Nat.div_add_mod A (2 ^ 32)
  have hu0 : shl64 A 32 = A % 2 ^ 32 * 2 ^ 32 := by
    unfold shl64
    rw [Nat.shiftLeft_eq]
    omega
  have hu1 : shl64 (A >>> 32) s = 2 ^ s * (A / 2 ^ 32) := by
    unfold shl64
    rw [Nat.shiftLeft_eq, Nat.shiftRight_eq_div_pow, Nat.mod_eq_of_lt hu, Nat.mul_comm]
  have hsplit : A * 2 ^ 32 * 2 ^ s = A % 2 ^ 32 * 2 ^ 32 * 2 ^ s + (A / 2 ^ 32 * 2 ^ s) * 2 ^ 64 := by
    conv_lhs => rw [← hdm]
    ring
  rw [hu0, hu1, hsplit, Nat.add_mul_div_right _ _ (by norm_num : 0 < 2 ^ 64)]
  rcases Nat.eq_zero_or_pos s with h0 | hpos
  · subst h0
    simp [toU64]
    omega
  · have hmask : toU64 ((-(s : Int)) >>> (63 : Nat)) = 2 ^ 64 - 1 := by
      have : (-(s : Int)) >>> (63 : Nat) = -1 := by
        rw [Int.shiftRight_eq_div_pow]
        push_cast
        omega
      rw [this]
      simp [toU64]
    rw [hmask, Nat.and_pow_two_sub_one_eq_mod, Nat.shiftRight_eq_div_pow]
    have hpw : 2 ^ (64 - s) * 2 ^ s = 2 ^ 64 := by
      rw [← Nat.pow_add, Nat.sub_add_cancel (by omega)]
    have hL : A % 2 ^ 32 * 2 ^ 32 * 2 ^ s / 2 ^ 64 = A % 2 ^ 32 * 2 ^ 32 / 2 ^ (64 - s) := by
      rw [← hpw, Nat.mul_div_mul_right _ _ (Nat.two_pow_pos s)]
    have hLlt : A % 2 ^ 32 * 2 ^ 32 / 2 ^ (64 - s) < 2 ^ s := by
      rw [Nat.div_lt_iff_lt_mul (Nat.two_pow_pos _), Nat.mul_comm (2 ^ s), hpw]
      omega
    have hLlt64 : A % 2 ^ 32 * 2 ^ 32 / 2 ^ (64 - s) < 2 ^ 64 :=
      lt_of_le_of_lt (Nat.div_le_self _ _) (by omega)
    rw [hL, Nat.mod_eq_of_lt hLlt64, ← Nat.mul_add_lt_is_or hLlt, Nat.mul_comm (2 ^ s)]
    omega

/-- The magnitude computed by `DivPrecise` for either operand is the absolute value. -/
theorem abs_u64 (a : Int) (ha : isInt64 a) :
    (if a < 0 then toU64 (wrap64 (-a)) else toU64 a) = a.natAbs := by
  unfold isInt64 at ha
  unfold toU64 wrap64
  split_ifs <;> omega

/-- The sign of the exclusive or of two integers. -/
theorem xor_neg_iff (a b : Int) : Int.xor a b < 0 ↔ ¬ (a < 0 ↔ b < 0) := by
  rcases a with a | a <;> rcases b with b | b <;>
    simp [Int.xor, Int.negSucc_lt_zero, Int.ofNat_nonneg] <;> omega

set_option maxHeartbeats 1000000 in
/-- The long division of `DivPrecise`: outside the overflow guard the unsigned result is
the quotient of `|a| * 2^32` by `|b|`, with the sign applied from `a ^ b`. -/
theorem DivPrecise_eq (a b : Int) (ha : isInt64 a) (hb : isInt64 b)
    (hlt : a.natAbs / 2 ^ 32 < b.natAbs) :
    a.natAbs * 2 ^ 32 / b.natAbs < 2 ^ 64 ∧
    DivPrecise a b =
      if Int.xor a b < 0 then wrap64 (-(toI64 (a.natAbs * 2 ^ 32 / b.natAbs)))
      else toI64 (a.natAbs * 2 ^ 32 / b.natAbs) := by
  suffices h : ∀ r, DivPrecise a b = r → a.natAbs * 2 ^ 32 / b.natAbs < 2 ^ 64 ∧ r =
      if Int.xor a b < 0 then wrap64 (-(toI64 (a.natAbs * 2 ^ 32 / b.natAbs)))
      else toI64 (a.natAbs * 2 ^ 32 / b.natAbs) from h _ rfl
  intro r hr
  unfold DivPrecise at hr
  lift_lets at hr
  extract_lets signDif bb absArgA u1 u0 v s v' vn1 vn0 un32 un10 un1 un0 q1 rHat q1' un21 q0
    rHat' q0' ret at hr
  have hA : absArgA = a.natAbs := abs_u64 a ha
  have hV : v = b.natAbs := abs_u64 b hb
  have hAle : a.natAbs ≤ 2 ^ 63 := by unfold isInt64 at ha; omega
  have hVle : b.natAbs ≤ 2 ^ 63 := by unfold isInt64 at hb; omega
  have hu1 : u1 = a.natAbs / 2 ^ 32 := by
    simp only [u1, hA, Nat.shiftRight_eq_div_pow]
  have hnot : ¬ (u1 ≥ v) := by omega
  rw [if_neg hnot] at hr
  obtain ⟨hs63, hn1, hn2⟩ := nlz_norm v (by omega) (by omega)
  have hs : nlz v = s := rfl
  rw [hs] at hs63 hn1 hn2
  have hP : 0 < 2 ^ s := Nat.two_pow_pos s
  have hv' : v' = v * 2 ^ s := by
    simp only [v', shl64, Nat.shiftLeft_eq]
    exact Nat.mod_eq_of_lt hn2
  have hT : (a.natAbs / 2 ^ 32 + 1) * 2 ^ s ≤ v * 2 ^ s := Nat.mul_le_mul_right _ (by omega)
  have hT' : (a.natAbs / 2 ^ 32 + 1) * 2 ^ s = a.natAbs / 2 ^ 32 * 2 ^ s + 2 ^ s := by ring
  have hun32 : un32 = a.natAbs * 2 ^ 32 * 2 ^ s / 2 ^ 64 := by
    simp only [un32, u1, u0, hA]
    exact norm_hi _ _ hs63 (by omega)
  have hun10 : un10 = a.natAbs * 2 ^ 32 * 2 ^ s % 2 ^ 64 := by
    simp only [un10, u0, hA]
    exact norm_lo _ _
  have hNdm := Nat.div_add_mod (a.natAbs * 2 ^ 32 * 2 ^ s) (2 ^ 64)
  have hAdm := Nat.div_add_mod a.natAbs (2 ^ 32)
  have hR : a.natAbs % 2 ^ 32 * 2 ^ s ≤ (2 ^ 32 - 1) * 2 ^ s :=
    Nat.mul_le_mul_right _ (by omega)
  have hN : a.natAbs * 2 ^ 32 * 2 ^ s
      = (2 ^ 32 * (a.natAbs / 2 ^ 32 * 2 ^ s) + a.natAbs % 2 ^ 32 * 2 ^ s) * 2 ^ 32 := by
    conv_lhs => rw [← hAdm]
    ring
  have hNlt : a.natAbs * 2 ^ 32 * 2 ^ s < v' * 2 ^ 64 := by omega
  have hun32lt : un32 < v' := by
    rw [hun32, Nat.div_lt_iff_lt_mul (by norm_num)]
    exact hNlt
  have hvn1 : vn1 = v' / 2 ^ 32 := by simp only [vn1, Nat.shiftRight_eq_div_pow]
  have hvn0 : vn0 = v' % 2 ^ 32 := by
    simp only [vn0]
    exact Nat.and_pow_two_sub_one_eq_mod v' 32
  have hun1 : un1 = un10 / 2 ^ 32 := by simp only [un1, Nat.shiftRight_eq_div_pow]
  have hun0 : un0 = un10 % 2 ^ 32 := by
    simp only [un0]
    exact Nat.and_pow_two_sub_one_eq_mod un10 32
  have hvsplit : v' = vn1 * 2 ^ 32 + vn0 := by omega
  have hq1 : q1' = (un32 * 2 ^ 32 + un1) / (vn1 * 2 ^ 32 + vn0) :=
    digit_spec vn1 vn0 un1 un32 (by omega) (by omega) (by omega) (by omega) (by omega)
  rw [← hvsplit] at hq1
  have hv'pos : 0 < v' := by omega
  have hdm1 := Nat.div_add_mod (un32 * 2 ^ 32 + un1) v'
  have hml1 := Nat.mod_lt (un32 * 2 ^ 32 + un1) hv'pos
  have hun21 : un21 = (un32 * 2 ^ 32 + un1) % v' := by
    have hc : q1' * v' = v' * ((un32 * 2 ^ 32 + un1) / v') := by rw [hq1, Nat.mul_comm]
    simp only [un21, bb, sub64, add64, mul64]
    omega
  have hq0 : q0' = (un21 * 2 ^ 32 + un0) / (vn1 * 2 ^ 32 + vn0) :=
    digit_spec vn1 vn0 un0 un21 (by omega) (by omega) (by omega) (by omega) (by omega)
  rw [← hvsplit, hun21] at hq0
  have htd := two_digits v' (un32 * 2 ^ 32 + un1) un0 hv'pos
  rw [← hq1, ← hq0] at htd
  have hNeq : (un32 * 2 ^ 32 + un1) * 2 ^ 32 + un0 = a.natAbs * 2 ^ 32 * 2 ^ s := by omega
  rw [hNeq] at htd
  have hquot : a.natAbs * 2 ^ 32 * 2 ^ s / v' = a.natAbs * 2 ^ 32 / b.natAbs := by
    rw [hv', hV, Nat.mul_div_mul_right _ _ hP]
  have hqlt : a.natAbs * 2 ^ 32 * 2 ^ s / v' < 2 ^ 64 := by
    rw [Nat.div_lt_iff_lt_mul hv'pos]
    omega
  have hret : ret = a.natAbs * 2 ^ 32 / b.natAbs := by
    rw [← hquot, ← htd]
    simp only [ret, bb, add64, mul64]
    omega
  rw [hret] at hr
  refine ⟨by rw [← hquot]; exact hqlt, ?_⟩
  rw [← hr]


/-- The overflow guard of `DivPrecise`: when the high digit of the dividend magnitude
reaches the divisor magnitude the result is the saturated maximum. -/
theorem DivPrecise_guard (a b : Int) (ha : isInt64 a) (hb : isInt64 b)
    (h : b.natAbs ≤ a.natAbs >>> 32) : DivPrecise a b = MaxValue := by
  unfold DivPrecise
  simp only [abs_u64 a ha, abs_u64 b hb]
  rw [if_pos h]
  rfl

/-- Truncated division in terms of signs and magnitudes. -/
theorem tdiv_sign_natAbs (x y : Int) :
    Int.tdiv x y = Int.sign x * Int.sign y * ((x.natAbs / y.natAbs : Nat) : Int) := by
  rcases x with x | x <;> rcases y with y | y
  · rcases Nat.eq_zero_or_pos x with hx | hx
    · subst hx; simp
    · rcases Nat.eq_zero_or_pos y with hy | hy
      · subst hy; simp
      · have h1 : Int.sign (Int.ofNat x) = 1 := Int.sign_eq_one_of_pos (Int.ofNat_pos.mpr hx)
        have h2 : Int.sign (Int.ofNat y) = 1 := Int.sign_eq_one_of_pos (Int.ofNat_pos.mpr hy)
        rw [h1, h2]
        simp [Int.tdiv]
  · rcases Nat.eq_zero_or_pos x with hx | hx
    · subst hx; simp
    · have h1 : Int.sign (Int.ofNat x) = 1 := Int.sign_eq_one_of_pos (Int.ofNat_pos.mpr hx)
      rw [h1]
      simp [Int.tdiv, Int.sign]
  · rcases Nat.eq_zero_or_pos y with hy | hy
    · subst hy; simp
    · have h2 : Int.sign (Int.ofNat y) = 1 := Int.sign_eq_one_of_pos (Int.ofNat_pos.mpr hy)
      rw [h2]
      simp [Int.tdiv, Int.sign]
  · simp [Int.tdiv, Int.sign]

/-- Division by `MinValue` is outside the overflow guard and yields the exact truncated
quotient of `a * 2^32` by `MinValue`. -/
theorem DivPrecise_min_divisor (a : Int) (ha : isInt64 a) :
    DivPrecise a MinValue = Int.tdiv (a * 2 ^ 32) MinValue := by
  have hb : isInt64 MinValue := by unfold isInt64 MinValue; omega
  have hA : a.natAbs ≤ 2 ^ 63 := by unfold isInt64 at ha; omega
  have hM : MinValue.natAbs = 2 ^ 63 := by decide
  have hlt : a.natAbs / 2 ^ 32 < MinValue.natAbs := by rw [hM]; omega
  obtain ⟨hq64, h⟩ := DivPrecise_eq a MinValue ha hb hlt
  rw [h, tdiv_sign_natAbs, Int.natAbs_mul, hM]
  clear h hq64 hlt hM hb
  have hq : a.natAbs * 2 ^ 32 / 2 ^ 63 = a.natAbs / 2 ^ 31 := by omega
  have hn : (2 ^ 32 : Int).natAbs = 2 ^ 32 := by decide
  have hs : Int.sign MinValue = -1 := by decide
  rw [hn, hq, hs]
  by_cases hneg : a < 0
  · have hx : ¬ Int.xor a MinValue < 0 := by
      rw [xor_neg_iff]
      have : MinValue < 0 := by decide
      tauto
    have hsa : Int.sign (a * 2 ^ 32) = -1 := Int.sign_eq_neg_one_of_neg (by omega)
    rw [if_neg hx, hsa]
    unfold toI64 wrap64
    omega
  · have hx : Int.xor a MinValue < 0 := by
      rw [xor_neg_iff]
      have : MinValue < 0 := by decide
      tauto
    rw [if_pos hx]
    rcases lt_or_eq_of_le (not_lt.mp hneg) with hpos | hzero
    · have hsa : Int.sign (a * 2 ^ 32) = 1 := Int.sign_eq_one_of_pos (by omega)
      rw [hsa]
      unfold toI64 wrap64
      omega
    · subst hzero
      simp [toI64, wrap64]

/-- Claim C1: for `int64` operands with `b != 0` and `(|a| >> 32) < |b|`, `DivPrecise(a, b)`
is the truncated fixed-point quotient: with `q = floor(|a| * 2^32 / |b|)`, which is below
`2^64`, the result is `q` reinterpreted as `int64` when the sign bits of `a` and `b` agree
and `-q` modulo `2^64` when they differ. -/
theorem DivPrecise_truncated_quotient (a b : Int) (ha : isInt64 a) (hb : isInt64 b)
    (hb0 : b ≠ 0) (hlt : a.natAbs >>> 32 < b.natAbs) :
    a.natAbs * 2 ^ 32 / b.natAbs < 2 ^ 64 ∧
    DivPrecise a b =
      if (a < 0 ↔ b < 0) then toI64 (a.natAbs * 2 ^ 32 / b.natAbs)
      else wrap64 (-((a.natAbs * 2 ^ 32 / b.natAbs : Nat) : Int)) := by
  rw [Nat.shiftRight_eq_div_pow] at hlt
  obtain ⟨hq, h⟩ := DivPrecise_eq a b ha hb hlt
  refine ⟨hq, ?_⟩
  rw [h]
  by_cases hs : (a < 0 ↔ b < 0)
  · rw [if_pos hs, if_neg (by rw [xor_neg_iff]; exact not_not.mpr hs)]
  · rw [if_neg hs, if_pos (by rw [xor_neg_iff]; exact hs)]
    unfold toI64 wrap64
    omega

/-- A positive and a negative instance of claim C1: `5.0 / 2.0 = 2.5` and
`-7.0 / 2.0 = -3.5` on raw 32.32 values. -/
theorem DivPrecise_truncated_quotient_witness :
    DivPrecise 21474836480 8589934592 = 10737418240 ∧
    DivPrecise (-30064771072) 8589934592 = -15032385536 := by
  constructor
  · rw [(DivPrecise_truncated_quotient 21474836480 8589934592 (by decide) (by decide)
      (by decide) (by decide)).2]
    decide
  · rw [(DivPrecise_truncated_quotient (-30064771072) 8589934592 (by decide) (by decide)
      (by decide) (by decide)).2]
    decide

/-- Counterexample to claim C2: `DivPrecise` does not return 0 for a zero divisor, nor for
the divisor `MinValue`. -/
theorem DivPrecise_zero_policy_fails :
    DivPrecise 1 0 = MaxValue ∧ DivPrecise 1 0 ≠ 0 ∧
    DivPrecise MinValue MinValue = One ∧ DivPrecise MinValue MinValue ≠ 0 := by
  have h1 : DivPrecise 1 0 = MaxValue := by decide
  have h2 : DivPrecise MinValue MinValue = One := by
    rw [DivPrecise_min_divisor MinValue (by decide)]
    decide
  refine ⟨h1, ?_, h2, ?_⟩
  · rw [h1]; decide
  · rw [h2]; decide

/-- Claim C2, amended: `DivPrecise` has no zero-result divisor policy.  For every `int64`
dividend `a`, `DivPrecise(a, 0)` is `MaxValue` (the overflow guard fires) and
`DivPrecise(a, MinValue)` is the exact truncated quotient of `a * 2^32` by `MinValue`. -/
theorem DivPrecise_zero_and_min_divisor (a : Int) (ha : isInt64 a) :
    DivPrecise a 0 = MaxValue ∧ DivPrecise a MinValue = Int.tdiv (a * 2 ^ 32) MinValue :=
  ⟨DivPrecise_guard a 0 ha (by decide) (by simp), DivPrecise_min_divisor a ha⟩

/-- An instance of the amended claim C2 at the dividend `3.0`. -/
theorem DivPrecise_zero_and_min_divisor_witness :
    isInt64 12884901888 ∧ DivPrecise 12884901888 0 = MaxValue ∧
    DivPrecise 12884901888 MinValue = Int.tdiv (12884901888 * 2 ^ 32) MinValue :=
  ⟨by decide, DivPrecise_zero_and_min_divisor 12884901888 (by decide)⟩

/-- Claim C3: whenever the high 32-bit digit of the dividend magnitude is at least the
divisor magnitude, `(|a| >> 32) >= |b|`, `DivPrecise(a, b)` returns `MaxValue`, whatever
the signs of `a` and `b`. -/
theorem DivPrecise_saturates (a b : Int) (ha : isInt64 a) (hb : isInt64 b)
    (h : a.natAbs >>> 32 ≥ b.natAbs) : DivPrecise a b = 0x7fffffffffffffff ∧
    DivPrecise a b = MaxValue :=
  ⟨DivPrecise_guard a b ha hb h, DivPrecise_guard a b ha hb h⟩

/-- Instances of claim C3 with a negative dividend and with a zero divisor. -/
theorem DivPrecise_saturates_witness :
    DivPrecise MinValue (-1) = MaxValue ∧ DivPrecise (-4294967296) 0 = MaxValue :=
  ⟨(DivPrecise_saturates MinValue (-1) (by decide) (by decide) (by decide)).2,
   (DivPrecise_saturates (-4294967296) 0 (by decide) (by decide) (by decide)).2⟩

end fix64

/-! ### Divisor guards of the other division tiers and of the reciprocals -/

/-- Claim C4: for every dividend `a`, each of `fix32.DivPrecise`, `fix32.Div`,
`fix32.DivFast`, `fix32.DivFastest`, `fix64.Div`, `fix64.DivFast` and `fix64.DivFastest`
returns 0 when the divisor is 0 or `MinValue`, and in both kernels `Rcp`, `RcpFast` and
`RcpFastest` return 0 when their argument is 0 or `MinValue`, whatever the `fixutil`
functions compute. -/
theorem zero_result_divisor_policy (U : fixutil.Approx) (a : Int) :
    (fix32.DivPrecise a 0 = 0 ∧ fix32.DivPrecise a fix32.MinValue = 0) ∧
    (fix32.Div a 0 = 0 ∧ fix32.Div a fix32.MinValue = 0) ∧
    (fix32.DivFast U a 0 = 0 ∧ fix32.DivFast U a fix32.MinValue = 0) ∧
    (fix32.DivFastest U a 0 = 0 ∧ fix32.DivFastest U a fix32.MinValue = 0) ∧
    (fix64.Div U a 0 = 0 ∧ fix64.Div U a fix64.MinValue = 0) ∧
    (fix64.DivFast U a 0 = 0 ∧ fix64.DivFast U a fix64.MinValue = 0) ∧
    (fix64.DivFastest U a 0 = 0 ∧ fix64.DivFastest U a fix64.MinValue = 0) ∧
    (fix32.Rcp U 0 = 0 ∧ fix32.Rcp U fix32.MinValue = 0) ∧
    (fix32.RcpFast U 0 = 0 ∧ fix32.RcpFast U fix32.MinValue = 0) ∧
    (fix32.RcpFastest U 0 = 0 ∧ fix32.RcpFastest U fix32.MinValue = 0) ∧
    (fix64.Rcp U 0 = 0 ∧ fix64.Rcp U fix64.MinValue = 0) ∧
    (fix64.RcpFast U 0 = 0 ∧ fix64.RcpFast U fix64.MinValue = 0) ∧
    (fix64.RcpFastest U 0 = 0 ∧ fix64.RcpFastest U fix64.MinValue = 0) := by
  refine ⟨⟨?_, ?_⟩, ⟨?_, ?_⟩, ⟨?_, ?_⟩, ⟨?_, ?_⟩, ⟨?_, ?_⟩, ⟨?_, ?_⟩, ⟨?_, ?_⟩, ⟨?_, ?_⟩,
    ⟨?_, ?_⟩, ⟨?_, ?_⟩, ⟨?_, ?_⟩, ⟨?_, ?_⟩, ⟨?_, ?_⟩⟩
  · unfold fix32.DivPrecise; exact if_pos (Or.inr rfl)
  · unfold fix32.DivPrecise; exact if_pos (Or.inl rfl)
  · unfold fix32.Div; exact if_pos (Or.inr rfl)
  · unfold fix32.Div; exact if_pos (Or.inl rfl)
  · unfold fix32.DivFast fix32.divBody; exact if_pos (Or.inr rfl)
  · unfold fix32.DivFast fix32.divBody; exact if_pos (Or.inl rfl)
  · unfold fix32.DivFastest fix32.divBody; exact if_pos (Or.inr rfl)
  · unfold fix32.DivFastest fix32.divBody; exact if_pos (Or.inl rfl)
  · unfold fix64.Div fix64.divBody; exact if_pos (Or.inr rfl)
  · unfold fix64.Div fix64.divBody; exact if_pos (Or.inl rfl)
  · unfold fix64.DivFast fix64.divBody; exact if_pos (Or.inr rfl)
  · unfold fix64.DivFast fix64.divBody; exact if_pos (Or.inl rfl)
  · unfold fix64.DivFastest fix64.divBody; exact if_pos (Or.inr rfl)
  · unfold fix64.DivFastest fix64.divBody; exact if_pos (Or.inl rfl)
  · unfold fix32.Rcp fix32.rcpBody; exact if_pos (Or.inr rfl)
  · unfold fix32.Rcp fix32.rcpBody; exact if_pos (Or.inl rfl)
  · unfold fix32.RcpFast fix32.rcpBody; exact if_pos (Or.inr rfl)
  · unfold fix32.RcpFast fix32.rcpBody; exact if_pos (Or.inl rfl)
  · unfold fix32.RcpFastest fix32.rcpBody; exact if_pos (Or.inr rfl)
  · unfold fix32.RcpFastest fix32.rcpBody; exact if_pos (Or.inl rfl)
  · unfold fix64.Rcp fix64.rcpBody; exact if_pos (Or.inr rfl)
  · unfold fix64.Rcp fix64.rcpBody; exact if_pos (Or.inl rfl)
  · unfold fix64.RcpFast fix64.rcpBody; exact if_pos (Or.inr rfl)
  · unfold fix64.RcpFast fix64.rcpBody; exact if_pos (Or.inl rfl)
  · unfold fix64.RcpFastest fix64.rcpBody; exact if_pos (Or.inr rfl)
  · unfold fix64.RcpFastest fix64.rcpBody; exact if_pos (Or.inl rfl)

/-! ### Exact division and multiplication -/

/-- Claim C5: for `int32` operands with `b != 0` and `b != MinValue`, `fix32.DivPrecise(a, b)`
is the exact quotient of `a * 2^16` by `b` truncated toward zero, computed without overflow
in 64 bits, reduced to its low 32 bits and reinterpreted as `int32`. -/
theorem fix32_DivPrecise_exact (a b : Int) (ha : isInt32 a) (hb0 : b ≠ 0)
    (hbm : b ≠ fix32.MinValue) :
    ishl64 a fix32.Shift = a * 2 ^ 16 ∧
    idiv64 (a * 2 ^ 16) b = Int.tdiv (a * 2 ^ 16) b ∧
    fix32.DivPrecise a b = wrap32 (Int.tdiv (a * 2 ^ 16) b) := by
  unfold isInt32 at ha
  have h1 : ishl64 a fix32.Shift = a * 2 ^ 16 := by
    unfold ishl64 fix32.Shift wrap64
    omega
  have h2 : idiv64 (a * 2 ^ 16) b = Int.tdiv (a * 2 ^ 16) b := by
    have hle : (Int.tdiv (a * 2 ^ 16) b).natAbs ≤ (a * 2 ^ 16).natAbs := by
      rw [Int.natAbs_tdiv]
      exact Nat.div_le_self _ _
    unfold idiv64 wrap64
    omega
  refine ⟨h1, h2, ?_⟩
  unfold fix32.DivPrecise
  rw [if_neg (by tauto)]
  simp only [h1, h2]

/-- An instance of claim C5: `-7.0 / 2.0 = -3.5` on raw 16.16 values. -/
theorem fix32_DivPrecise_exact_witness : fix32.DivPrecise (-458752) 131072 = -229376 := by
  rw [(fix32_DivPrecise_exact (-458752) 131072 (by decide) (by decide) (by decide)).2.2]
  decide

/-- The fraction mask extracts the residue modulo `2^32`. -/
theorem and64_FractionMask (a : Int) : and64 a fix64.FractionMask = a % 2 ^ 32 := by
  have h : toU64 fix64.FractionMask = 2 ^ 32 - 1 := by decide
  unfold and64
  rw [h, Nat.and_pow_two_sub_one_eq_mod]
  unfold toI64 wrap64 toU64
  omega

/-- The logical shift by 32 of a product of two 32-bit fractions is its exact quotient. -/
theorem lsr_fraction_product (p : Int) (h0 : 0 ≤ p) (h1 : p < 2 ^ 64) :
    fixutil.LogicalShiftRight (imul64 p 1) 32 = p / 2 ^ 32 := by
  unfold fixutil.LogicalShiftRight
  rw [if_pos (by decide)]
  have e : (32 : Int).toNat = 32 := by decide
  rw [e, Nat.shiftRight_eq_div_pow]
  unfold imul64 toI64 toU64 wrap64
  omega

/-- Claim C6: for all `int64` values `a` and `b`, `fix64.Mul(a, b)` is `floor(a * b / 2^32)`
over the unbounded integers wrapped to 64-bit two's complement, `LogicalShiftRight(v, 32)`
being the unsigned 64-bit right shift by 32. -/
theorem fix64_Mul_exact (a b : Int) :
    fix64.Mul a b = wrap64 (Int.fdiv (a * b) (2 ^ 32)) := by
  unfold fix64.Mul
  simp only [and64_FractionMask, Int.shiftRight_eq_div_pow]
  rw [Int.fdiv_eq_ediv _ (by norm_num)]
  have ha := Int.ediv_add_emod a 4294967296
  have hb := Int.ediv_add_emod b 4294967296
  have haf0 := Int.emod_nonneg a (show (4294967296 : Int) ≠ 0 by norm_num)
  have haf1 := Int.emod_lt_of_pos a (show (0 : Int) < 4294967296 by norm_num)
  have hbf0 := Int.emod_nonneg b (show (4294967296 : Int) ≠ 0 by norm_num)
  have hbf1 := Int.emod_lt_of_pos b (show (0 : Int) < 4294967296 by norm_num)
  push_cast
  generalize a / 4294967296 = ai at *
  generalize a % 4294967296 = af at *
  generalize b / 4294967296 = bi at *
  generalize b % 4294967296 = bf at *
  have hp0 : 0 ≤ af * bf := mul_nonneg haf0 hbf0
  have hp1 : af * bf < 2 ^ 64 := by nlinarith
  have hl := lsr_fraction_product (af * bf) hp0 hp1
  have e1 : imul64 (af * bf) 1 = imul64 af bf := by unfold imul64; rw [mul_one]
  rw [e1] at hl
  rw [hl]
  have hprod : a * b = af * bf + 4294967296 * (ai * b + af * bi) := by
    linear_combination (-b) * ha + (-af) * hb
  rw [hprod, Int.add_mul_ediv_left _ _ (by norm_num)]
  unfold iadd64 imul64 wrap64
  omega

/-- Claim C7: for all `int32` values `a` and `b`, `fix32.Mul(a, b)` is `floor(a * b / 2^16)`
over the unbounded integers wrapped to 32-bit two's complement: the 64-bit product does not
overflow and only the final narrowing wraps, as in `300.0 * 300.0`, whose raw result is
1603272704. -/
theorem fix32_Mul_exact (a b : Int) (ha : isInt32 a) (hb : isInt32 b) :
    imul64 a b = a * b ∧ fix32.Mul a b = wrap32 (Int.fdiv (a * b) (2 ^ 16)) ∧
    fix32.Mul (300 * 2 ^ 16) (300 * 2 ^ 16) = 1603272704 := by
  unfold isInt32 at ha hb
  have hna : a.natAbs ≤ 2 ^ 31 := by omega
  have hnb : b.natAbs ≤ 2 ^ 31 := by omega
  have hab : (a * b).natAbs ≤ 2 ^ 31 * 2 ^ 31 := by
    rw [Int.natAbs_mul]
    exact Nat.mul_le_mul hna hnb
  have h1 : imul64 a b = a * b := by
    unfold imul64 wrap64
    omega
  refine ⟨h1, ?_, by decide⟩
  unfold fix32.Mul
  rw [h1, Int.shiftRight_eq_div_pow, Int.fdiv_eq_ediv _ (by norm_num)]
  rfl

/-- An instance of claim C7: `1.5 * (-2.5) = -3.75` on raw 16.16 values. -/
theorem fix32_Mul_exact_witness : fix32.Mul 98304 (-163840) = -245760 := by
  rw [(fix32_Mul_exact 98304 (-163840) (by decide) (by decide)).2.1]
  decide

/-! ### The digit-by-digit square root -/

/-- One iteration of the `fix32.SqrtPrecise` loop. -/
theorem fix32_sqrtLoop_step (r b q : Nat) (h : b > 0x40) :
    fix32.sqrtLoop r b q =
      fix32.sqrtLoop (shl32 (if r ≥ add32 q b then sub32 r (add32 q b) else r) 1) (b >>> 1)
        (if r ≥ add32 q b then add32 (add32 q b) b else q) := by
  rw [fix32.sqrtLoop]
  simp only [h, dite_true]

/-- Exit of the `fix32.SqrtPrecise` loop. -/
theorem fix32_sqrtLoop_done (r b q : Nat) (h : ¬ b > 0x40) : fix32.sqrtLoop r b q = q := by
  rw [fix32.sqrtLoop]
  simp only [h, dite_false]

/-- One iteration of the `fix64.SqrtPrecise` loop. -/
theorem fix64_sqrtLoop_step (r b q : Nat) (h : b > 0x40) :
    fix64.sqrtLoop r b q =
      fix64.sqrtLoop (shl64 (if r ≥ add64 q b then sub64 r (add64 q b) else r) 1) (b >>> 1)
        (if r ≥ add64 q b then add64 (add64 q b) b else q) := by
  rw [fix64.sqrtLoop]
  simp only [h, dite_true]

/-- Exit of the `fix64.SqrtPrecise` loop. -/
theorem fix64_sqrtLoop_done (r b q : Nat) (h : ¬ b > 0x40) : fix64.sqrtLoop r b q = q := by
  rw [fix64.sqrtLoop]
  simp only [h, dite_false]

/-- The loop of `fix32.SqrtPrecise` on the raw value `0x40000200`. -/
theorem fix32_sqrtLoop_at_0x40000200 :
    fix32.sqrtLoop 1073742336 0x40000000 0 = 2147483648 := by
  iterate 24
    (rw [fix32_sqrtLoop_step _ _ _ (by norm_num)]
     norm_num [add32, sub32, shl32, Nat.shiftLeft_eq, Nat.shiftRight_eq_div_pow])
  rw [fix32_sqrtLoop_done _ _ _ (by norm_num)]

/-- The loop of `fix32.SqrtPrecise` on the raw value 1644172731. -/
theorem fix32_sqrtLoop_at_1644172731 :
    fix32.sqrtLoop 1644172731 0x40000000 0 = 2147489024 := by
  iterate 24
    (rw [fix32_sqrtLoop_step _ _ _ (by norm_num)]
     norm_num [add32, sub32, shl32, Nat.shiftLeft_eq, Nat.shiftRight_eq_div_pow])
  rw [fix32_sqrtLoop_done _ _ _ (by norm_num)]

/-- The loop of `fix64.SqrtPrecise` on the raw value `0x4000000000020000`. -/
theorem fix64_sqrtLoop_at_0x4000000000020000 :
    fix64.sqrtLoop 4611686018427518976 0x4000000000000000 0 = 9223372036854775808 := by
  iterate 56
    (rw [fix64_sqrtLoop_step _ _ _ (by norm_num)]
     norm_num [add64, sub64, shl64, Nat.shiftLeft_eq, Nat.shiftRight_eq_div_pow])
  rw [fix64_sqrtLoop_done _ _ _ (by norm_num)]

/-- Failing inputs for claim C8.  On the raw 16.16 value `0x40000200` the code returns
8388608 although 8388609 squared is still at most `a * 2^16`; on 1644172731 it returns
8388629 although the floor of the root is 10380390; on the raw 32.32 value
`0x4000000000020000` it returns 140737488355328 although 140737488355329 squared is still
at most `a * 2^32`.  In each case the shift `r <<= 1` has dropped the top bit of `r`. -/
theorem SqrtPrecise_not_floor :
    (fix32.SqrtPrecise 1073742336 = 8388608 ∧ (8388608 + 1) ^ 2 ≤ 1073742336 * 2 ^ 16) ∧
    (fix32.SqrtPrecise 1644172731 = 8388629 ∧ 10380390 ^ 2 ≤ 1644172731 * 2 ^ 16) ∧
    (fix64.SqrtPrecise 4611686018427518976 = 140737488355328 ∧
      (140737488355328 + 1) ^ 2 ≤ 4611686018427518976 * 2 ^ 32) := by
  have e1 : toU32 1073742336 = 1073742336 := by decide
  have e2 : toU32 1644172731 = 1644172731 := by decide
  have e3 : toU64 4611686018427518976 = 4611686018427518976 := by decide
  refine ⟨⟨?_, by norm_num⟩, ⟨?_, by norm_num⟩, ⟨?_, by norm_num⟩⟩
  · unfold fix32.SqrtPrecise
    rw [if_neg (by norm_num)]
    simp only [e1, fix32_sqrtLoop_at_0x40000200]
    decide
  · unfold fix32.SqrtPrecise
    rw [if_neg (by norm_num)]
    simp only [e2, fix32_sqrtLoop_at_1644172731]
    decide
  · unfold fix64.SqrtPrecise
    rw [if_neg (by norm_num)]
    simp only [e3, fix64_sqrtLoop_at_0x4000000000020000]
    decide

/-! ### The square root below the overflow threshold -/

/-- The invariant is preserved by the `fix32.SqrtPrecise` loop down to its exit at
`b = 2^6`, no operation wrapping on the way. -/
theorem fix32_sqrtLoop_inv (A : Nat) :
    ∀ j r q, 6 ≤ j → sqrtInv32 A r (2 ^ j) q →
      ∃ rf, sqrtInv32 A rf (2 ^ 6) (fix32.sqrtLoop r (2 ^ j) q) := by
  intro j
  induction j with
  | zero => intro r q h; omega
  | succ j ih =>
    intro r q hj hinv
    rcases Nat.eq_or_lt_of_le hj with h6 | h7
    · -- exit: `b = 64`
      have e : j + 1 = 6 := h6.symm
      rw [e] at hinv ⊢
      rw [fix32_sqrtLoop_done _ _ _ (by norm_num)]
      exact ⟨r, hinv⟩
    · have hj6 : 6 ≤ j := by omega
      obtain ⟨i1, i2, i3, i4⟩ := hinv
      have hb : 2 ^ (j + 1) = 2 * 2 ^ j := by rw [Nat.pow_succ, Nat.mul_comm]
      have hc64 : 64 ≤ 2 ^ j := by
        calc 64 = 2 ^ 6 := by norm_num
          _ ≤ 2 ^ j := Nat.pow_le_pow_right (by norm_num) hj6
      rw [hb] at i1 i2 i3 i4 ⊢
      generalize 2 ^ j = c at *
      rw [fix32_sqrtLoop_step _ _ _ (by omega)]
      have hshr : (2 * c) >>> 1 = c := by rw [Nat.shiftRight_eq_div_pow]; omega
      have ht : add32 q (2 * c) = q + 2 * c := by unfold add32; omega
      rw [hshr, ht]
      by_cases hacc : r ≥ q + 2 * c
      · simp only [hacc, if_true]
        obtain ⟨d, hd⟩ : ∃ d, r = q + 2 * c + d := ⟨r - (q + 2 * c), by omega⟩
        have hs : sub32 r (q + 2 * c) = d := by unfold sub32; omega
        have hq' : add32 (q + 2 * c) (2 * c) = q + 4 * c := by unfold add32; omega
        have hr' : shl32 d 1 = 2 * d := by unfold shl32; rw [Nat.shiftLeft_eq]; omega
        rw [hs, hq', hr']
        apply ih _ _ hj6
        refine ⟨?_, by omega, ?_, by omega⟩
        · rw [← i1, hd]; ring
        · obtain ⟨m, hm⟩ := i3
          exact ⟨2 * m + 1, by rw [hm]; ring⟩
      · simp only [hacc, if_false]
        have hr' : shl32 r 1 = 2 * r := by unfold shl32; rw [Nat.shiftLeft_eq]; omega
        rw [hr']
        apply ih _ _ hj6
        refine ⟨?_, by omega, ?_, by omega⟩
        · rw [← i1]; ring
        · obtain ⟨m, hm⟩ := i3
          exact ⟨2 * m, by rw [hm]; ring⟩

/-- Below `2^30` (16384.0) the loop of `fix32.SqrtPrecise` never overflows and the result is
the exact floor of the fixed-point square root. -/
theorem fix32_SqrtPrecise_floor_below (a : Int) (h0 : 0 < a) (h1 : a < 2 ^ 30) :
    0 ≤ fix32.SqrtPrecise a ∧ fix32.SqrtPrecise a ^ 2 ≤ a * 2 ^ 16 ∧
    a * 2 ^ 16 < (fix32.SqrtPrecise a + 1) ^ 2 := by
  obtain ⟨n, rfl⟩ : ∃ n : Nat, a = (n : Int) := ⟨a.toNat, by omega⟩
  have hn0 : 0 < n := by omega
  have hn1 : n < 2 ^ 30 := by omega
  have hU : toU32 (n : Int) = n := by unfold toU32; omega
  unfold fix32.SqrtPrecise
  rw [if_neg (by omega)]
  simp only [hU]
  rw [fix32_sqrtLoop_step _ _ _ (by norm_num)]
  have ht : add32 0 0x40000000 = 0x40000000 := by decide
  have hsh : (0x40000000 : Nat) >>> 1 = 2 ^ 29 := by decide
  have hrej : ¬ n ≥ 0x40000000 := by omega
  have hr : shl32 n 1 = 2 * n := by unfold shl32; rw [Nat.shiftLeft_eq]; omega
  rw [ht, hsh]
  simp only [hrej, if_false]
  rw [hr]
  obtain ⟨rf, i1, i2, i3, i4⟩ := fix32_sqrtLoop_inv (n * 2 ^ 32) 29 (2 * n) 0 (by norm_num)
    ⟨by ring, by omega, by simp, by norm_num⟩
  generalize fix32.sqrtLoop (2 * n) (2 ^ 29) 0 = qf at *
  obtain ⟨R, hR⟩ := i3
  have hR' : qf = 256 * R := by omega
  subst hR'
  have hshift : (256 * R) >>> 8 = R := by rw [Nat.shiftRight_eq_div_pow]; omega
  rw [hshift]
  have hI : toI32 R = (R : Int) := by unfold toI32 wrap32; omega
  rw [hI]
  have hsq : 256 * R * (256 * R) = 65536 * (R * R) := by ring
  rw [hsq] at i1
  have e1 : ((R : Int)) ^ 2 = ((R * R : Nat) : Int) := by push_cast; ring
  have e2 : ((R : Int) + 1) ^ 2 = ((R * R : Nat) : Int) + 2 * R + 1 := by push_cast; ring
  rw [e1, e2]
  refine ⟨by omega, by omega, by omega⟩

/-- The invariant is preserved by the `fix64.SqrtPrecise` loop down to its exit at
`b = 2^6`, no operation wrapping on the way. -/
theorem fix64_sqrtLoop_inv (A : Nat) :
    ∀ j r q, 6 ≤ j → sqrtInv64 A r (2 ^ j) q →
      ∃ rf, sqrtInv64 A rf (2 ^ 6) (fix64.sqrtLoop r (2 ^ j) q) := by
  intro j
  induction j with
  | zero => intro r q h; omega
  | succ j ih =>
    intro r q hj hinv
    rcases Nat.eq_or_lt_of_le hj with h6 | h7
    · have e : j + 1 = 6 := h6.symm
      rw [e] at hinv ⊢
      rw [fix64_sqrtLoop_done _ _ _ (by norm_num)]
      exact ⟨r, hinv⟩
    · have hj6 : 6 ≤ j := by omega
      obtain ⟨i1, i2, i3, i4⟩ := hinv
      have hb : 2 ^ (j + 1) = 2 * 2 ^ j := by rw [Nat.pow_succ, Nat.mul_comm]
      have hc64 : 64 ≤ 2 ^ j := by
        calc 64 = 2 ^ 6 := by norm_num
          _ ≤ 2 ^ j := Nat.pow_le_pow_right (by norm_num) hj6
      rw [hb] at i1 i2 i3 i4 ⊢
      generalize 2 ^ j = c at *
      rw [fix64_sqrtLoop_step _ _ _ (by omega)]
      have hshr : (2 * c) >>> 1 = c := by rw [Nat.shiftRight_eq_div_pow]; omega
      have ht : add64 q (2 * c) = q + 2 * c := by unfold add64; omega
      rw [hshr, ht]
      by_cases hacc : r ≥ q + 2 * c
      · simp only [hacc, if_true]
        obtain ⟨d, hd⟩ : ∃ d, r = q + 2 * c + d := ⟨r - (q + 2 * c), by omega⟩
        have hs : sub64 r (q + 2 * c) = d := by unfold sub64; omega
        have hq' : add64 (q + 2 * c) (2 * c) = q + 4 * c := by unfold add64; omega
        have hr' : shl64 d 1 = 2 * d := by unfold shl64; rw [Nat.shiftLeft_eq]; omega
        rw [hs, hq', hr']
        apply ih _ _ hj6
        refine ⟨?_, by omega, ?_, by omega⟩
        · rw [← i1, hd]; ring
        · obtain ⟨m, hm⟩ := i3
          exact ⟨2 * m + 1, by rw [hm]; ring⟩
      · simp only [hacc, if_false]
        have hr' : shl64 r 1 = 2 * r := by unfold shl64; rw [Nat.shiftLeft_eq]; omega
        rw [hr']
        apply ih _ _ hj6
        refine ⟨?_, by omega, ?_, by omega⟩
        · rw [← i1]; ring
        · obtain ⟨m, hm⟩ := i3
          exact ⟨2 * m, by rw [hm]; ring⟩

/-- The linear step from the exit invariant of the `fix64.SqrtPrecise` loop to the bracket
of the returned root. -/
theorem sqrt_bracket64 (n rf QQ qf RR R : Nat) (i1 : rf * 256 + QQ = n * 2 ^ 64)
    (i2 : rf < 2 * qf + 256) (k1 : 4294967296 * RR ≤ QQ)
    (k2 : QQ + 512 * qf + 65536 ≤ 4294967296 * RR + 8589934592 * R + 4294967296) :
    RR ≤ n * 2 ^ 32 ∧ n * 2 ^ 32 < RR + 2 * R + 1 := by
  constructor <;> omega

/-- Below `2^62` (1073741824.0) the loop of `fix64.SqrtPrecise` never overflows and the
result is the exact floor of the fixed-point square root. -/
theorem fix64_SqrtPrecise_floor_below (a : Int) (h0 : 0 < a) (h1 : a < 2 ^ 62) :
    0 ≤ fix64.SqrtPrecise a ∧ fix64.SqrtPrecise a ^ 2 ≤ a * 2 ^ 32 ∧
    a * 2 ^ 32 < (fix64.SqrtPrecise a + 1) ^ 2 := by
  obtain ⟨n, rfl⟩ : ∃ n : Nat, a = (n : Int) := ⟨a.toNat, by omega⟩
  have hn0 : 0 < n := by omega
  have hn1 : n < 2 ^ 62 := by omega
  have hU : toU64 (n : Int) = n := by unfold toU64; omega
  unfold fix64.SqrtPrecise
  rw [if_neg (by omega)]
  simp only [hU]
  rw [fix64_sqrtLoop_step _ _ _ (by norm_num)]
  have ht : add64 0 0x4000000000000000 = 0x4000000000000000 := by decide
  have hsh : (0x4000000000000000 : Nat) >>> 1 = 2 ^ 61 := by decide
  have hrej : ¬ n ≥ 0x4000000000000000 := by omega
  have hr : shl64 n 1 = 2 * n := by unfold shl64; rw [Nat.shiftLeft_eq]; omega
  rw [ht, hsh]
  simp only [hrej, if_false]
  rw [hr]
  obtain ⟨rf, i1, i2, i3, i4⟩ := fix64_sqrtLoop_inv (n * 2 ^ 64) 61 (2 * n) 0 (by norm_num)
    ⟨by ring, by omega, by simp, by norm_num⟩
  generalize fix64.sqrtLoop (2 * n) (2 ^ 61) 0 = qf at *
  rw [Nat.shiftRight_eq_div_pow]
  obtain ⟨R, hR⟩ : ∃ R, R = qf / 2 ^ 16 := ⟨_, rfl⟩
  rw [← hR]
  obtain ⟨m, hm⟩ := i3
  have hlo : 65536 * R ≤ qf := by omega
  have hhi : qf + 256 ≤ 65536 * (R + 1) := by omega
  have hI : toI64 R = (R : Int) := by unfold toI64 wrap64; omega
  rw [hI]
  have k1 : 65536 * R * (65536 * R) ≤ qf * qf := Nat.mul_le_mul hlo hlo
  have k2 : (qf + 256) * (qf + 256) ≤ 65536 * (R + 1) * (65536 * (R + 1)) :=
    Nat.mul_le_mul hhi hhi
  have r1 : 65536 * R * (65536 * R) = 4294967296 * (R * R) := by ring
  have r2 : (qf + 256) * (qf + 256) = qf * qf + 512 * qf + 65536 := by ring
  have r3 : 65536 * (R + 1) * (65536 * (R + 1))
      = 4294967296 * (R * R) + 8589934592 * R + 4294967296 := by ring
  rw [r1] at k1
  rw [r2, r3] at k2
  have i1n : rf * 256 + qf * qf = n * 2 ^ 64 := by rw [← i1]; norm_num
  have i2n : rf < 2 * qf + 256 := by norm_num at i2; exact i2
  obtain ⟨b1, b2⟩ := sqrt_bracket64 n rf (qf * qf) qf (R * R) R i1n i2n k1 k2
  have e1 : ((R : Int)) ^ 2 = ((R * R : Nat) : Int) := by push_cast; ring
  have e2 : ((R : Int) + 1) ^ 2 = ((R * R : Nat) : Int) + 2 * R + 1 := by push_cast; ring
  rw [e1, e2]
  clear i1 i2 i4 hm hlo hhi k1 k2 i1n i2n hR hI r1 r2 r3
  refine ⟨by omega, by omega, by omega⟩

/-! ### Exactness of the leading-zero counters -/

/-- From the normalised form to the bracketing of `v` between two powers of two, with
uniqueness of the count. -/
theorem count_of_norm (w v s : Nat) (hs : s ≤ w) (h1 : 2 ^ w ≤ v * 2 ^ s)
    (h2 : v * 2 ^ s < 2 ^ (w + 1)) :
    2 ^ (w - s) ≤ v ∧ v < 2 ^ (w + 1 - s) ∧
    ∀ n, n ≤ w → 2 ^ (w - n) ≤ v → v < 2 ^ (w + 1 - n) → n = s := by
  have hP : 0 < 2 ^ s := Nat.two_pow_pos s
  have e1 : 2 ^ (w - s) * 2 ^ s = 2 ^ w := by
    rw [← Nat.pow_add, Nat.sub_add_cancel hs]
  have e2 : 2 ^ (w + 1 - s) * 2 ^ s = 2 ^ (w + 1) := by
    rw [← Nat.pow_add, Nat.sub_add_cancel (by omega)]
  have hlo : 2 ^ (w - s) ≤ v := by
    rw [← e1] at h1
    exact Nat.le_of_mul_le_mul_right h1 hP
  have hhi : v < 2 ^ (w + 1 - s) := by
    rw [← e2] at h2
    exact Nat.lt_of_mul_lt_mul_right h2
  refine ⟨hlo, hhi, ?_⟩
  intro n hn hn1 hn2
  have k1 : w - n < w + 1 - s :=
    (Nat.pow_lt_pow_iff_right (by norm_num : 1 < 2)).mp (lt_of_le_of_lt hn1 hhi)
  have k2 : w - s < w + 1 - n :=
    (Nat.pow_lt_pow_iff_right (by norm_num : 1 < 2)).mp (lt_of_le_of_lt hlo hn2)
  omega

/-- Claim C9: the leading-zero counters are exact.  For a `uint32` value `v`,
`fix32.Nlz(v)` is 32 if `v = 0` and otherwise the unique `n` in `[0, 31]` with
`2^(31-n) <= v < 2^(32-n)`; for a `uint64` value `v`, `fix64.nlz(v)` is 64 if `v = 0` and
otherwise the unique `n` in `[0, 63]` with `2^(63-n) <= v < 2^(64-n)`. -/
theorem leading_zero_count_exact (v : Nat) :
    (v < 2 ^ 32 →
      (v = 0 → fix32.Nlz v = 32) ∧
      (v ≠ 0 → fix32.Nlz v ≤ 31 ∧ 2 ^ (31 - fix32.Nlz v) ≤ v ∧ v < 2 ^ (32 - fix32.Nlz v) ∧
        ∀ n, n ≤ 31 → 2 ^ (31 - n) ≤ v → v < 2 ^ (32 - n) → n = fix32.Nlz v)) ∧
    (v < 2 ^ 64 →
      (v = 0 → fix64.nlz v = 64) ∧
      (v ≠ 0 → fix64.nlz v ≤ 63 ∧ 2 ^ (63 - fix64.nlz v) ≤ v ∧ v < 2 ^ (64 - fix64.nlz v) ∧
        ∀ n, n ≤ 63 → 2 ^ (63 - n) ≤ v → v < 2 ^ (64 - n) → n = fix64.nlz v)) := by
  constructor
  · intro hv
    refine ⟨fun h => by subst h; decide, fun h0 => ?_⟩
    obtain ⟨hs, h1, h2⟩ := Nlz32_norm v hv h0
    obtain ⟨k1, k2, k3⟩ := count_of_norm 31 v (fix32.Nlz v) hs h1 h2
    exact ⟨hs, k1, k2, k3⟩
  · intro hv
    refine ⟨fun h => by subst h; decide, fun h0 => ?_⟩
    obtain ⟨hs, h1, h2⟩ := fix64.nlz_norm v hv h0
    obtain ⟨k1, k2, k3⟩ := count_of_norm 63 v (fix64.nlz v) hs h1 h2
    exact ⟨hs, k1, k2, k3⟩

/-- Instances of claim C9: the raw value 1.0 has 15 leading zeros as a `uint32` in 16.16 and
31 as a `uint64` in 32.32, and zero has the full width. -/
theorem leading_zero_count_exact_witness :
    (fix32.Nlz 65536 = 15 ∧ fix32.Nlz 0 = 32) ∧ (fix64.nlz 4294967296 = 31 ∧ fix64.nlz 0 = 64) := by
  have h32 := (leading_zero_count_exact 65536).1 (by norm_num)
  have h64 := (leading_zero_count_exact 4294967296).2 (by norm_num)
  have z32 := ((leading_zero_count_exact 0).1 (by norm_num)).1 rfl
  have z64 := ((leading_zero_count_exact 0).2 (by norm_num)).1 rfl
  refine ⟨⟨?_, z32⟩, ?_, z64⟩
  · exact ((h32.2 (by norm_num)).2.2.2 15 (by norm_num) (by norm_num) (by norm_num)).symm
  · exact ((h64.2 (by norm_num)).2.2.2 31 (by norm_num) (by norm_num) (by norm_num)).symm

/-! ### Modulo -/

/-- The magnitude of a truncated remainder. -/
theorem natAbs_tmod (a b : Int) : (Int.tmod a b).natAbs = a.natAbs % b.natAbs := by
  rcases a with a | a <;> rcases b with b | b <;> simp [Int.tmod] <;> norm_cast

/-- A truncated remainder of a non-positive dividend is non-positive. -/
theorem tmod_nonpos (a b : Int) (ha : a ≤ 0) : Int.tmod a b ≤ 0 := by
  have h := Int.tmod_nonneg b (show 0 ≤ -a by omega)
  have e : Int.tmod (-a) b = -(Int.tmod a b) := by
    rw [Int.tmod_def, Int.tmod_def, Int.neg_tdiv]
    ring
  omega

/-- Claim C10: in both kernels `Mod` is total.  `Mod(a, 0) = 0` for every `a`, and for
`b != 0` the result is the remainder of truncated division of the raw values:
`a = b * trunc(a / b) + Mod(a, b)`, `|Mod(a, b)| < |b|`, and the result is zero or has the
sign of `a`; in particular `Mod(MinValue, -1) = 0`. -/
theorem Mod_total (a b : Int) :
    (fix32.Mod a 0 = 0 ∧ fix64.Mod a 0 = 0) ∧
    (b ≠ 0 →
      (a = b * Int.tdiv a b + fix32.Mod a b ∧ (fix32.Mod a b).natAbs < b.natAbs ∧
        (fix32.Mod a b = 0 ∨ Int.sign (fix32.Mod a b) = Int.sign a)) ∧
      (a = b * Int.tdiv a b + fix64.Mod a b ∧ (fix64.Mod a b).natAbs < b.natAbs ∧
        (fix64.Mod a b = 0 ∨ Int.sign (fix64.Mod a b) = Int.sign a))) ∧
    (fix32.Mod fix32.MinValue (-1) = 0 ∧ fix64.Mod fix64.MinValue (-1) = 0) := by
  refine ⟨⟨by simp [fix32.Mod], by simp [fix64.Mod]⟩, ?_, ⟨by decide, by decide⟩⟩
  intro hb
  have hmod32 : fix32.Mod a b = Int.tmod a b := by unfold fix32.Mod; rw [if_neg hb]
  have hmod64 : fix64.Mod a b = Int.tmod a b := by unfold fix64.Mod; rw [if_neg hb]
  rw [hmod32, hmod64]
  have h1 : a = b * Int.tdiv a b + Int.tmod a b := (Int.tdiv_add_tmod a b).symm
  have h2 : (Int.tmod a b).natAbs < b.natAbs := by
    rw [natAbs_tmod]
    exact Nat.mod_lt _ (Int.natAbs_pos.mpr hb)
  have h3 : Int.tmod a b = 0 ∨ Int.sign (Int.tmod a b) = Int.sign a := by
    by_cases hz : Int.tmod a b = 0
    · exact Or.inl hz
    · right
      rcases lt_trichotomy a 0 with hneg | hzero | hpos
      · have := tmod_nonpos a b (le_of_lt hneg)
        rw [Int.sign_eq_neg_one_of_neg hneg, Int.sign_eq_neg_one_of_neg (by omega)]
      · subst hzero
        simp at hz
      · have := Int.tmod_nonneg b (le_of_lt hpos)
        rw [Int.sign_eq_one_of_pos hpos, Int.sign_eq_one_of_pos (by omega)]
  exact ⟨⟨h1, h2, h3⟩, h1, h2, h3⟩

/-- Instances of claim C10: `-7 % 2 = -1` and `7 % -2 = 1` on raw values. -/
theorem Mod_total_witness :
    (fix32.Mod (-7) 2 = -1 ∧ fix64.Mod 7 (-2) = 1) ∧
    ((-7 : Int) = 2 * Int.tdiv (-7) 2 + fix32.Mod (-7) 2) := by
  refine ⟨⟨by decide, by decide⟩, ?_⟩
  exact (((Mod_total (-7) 2).2.1 (by decide)).1).1


/-! ### Domain guards of the approximate tiers -/

/-- Claim C11: non-positive inputs map to zero.  For every `x <= 0`, in both kernels, each
of `SqrtPrecise`, `Sqrt`, `SqrtFast`, `SqrtFastest`, `RSqrt`, `RSqrtFast`, `RSqrtFastest`,
`Log`, `LogFast`, `LogFastest`, `Log2`, `Log2Fast` and `Log2Fastest` returns 0, whatever the
`fixutil` functions compute. -/
theorem nonpositive_maps_to_zero (U : fixutil.Approx) (x : Int) (hx : x ≤ 0) :
    (fix32.SqrtPrecise x = 0 ∧ fix32.Sqrt U x = 0 ∧ fix32.SqrtFast U x = 0 ∧ fix32.SqrtFastest U x = 0) ∧
    (fix32.RSqrt U x = 0 ∧ fix32.RSqrtFast U x = 0 ∧ fix32.RSqrtFastest U x = 0) ∧
    (fix32.Log U x = 0 ∧ fix32.LogFast U x = 0 ∧ fix32.LogFastest U x = 0) ∧
    (fix32.Log2 U x = 0 ∧ fix32.Log2Fast U x = 0 ∧ fix32.Log2Fastest U x = 0) ∧
    (fix64.SqrtPrecise x = 0 ∧ fix64.Sqrt U x = 0 ∧ fix64.SqrtFast U x = 0 ∧ fix64.SqrtFastest U x = 0) ∧
    (fix64.RSqrt U x = 0 ∧ fix64.RSqrtFast U x = 0 ∧ fix64.RSqrtFastest U x = 0) ∧
    (fix64.Log U x = 0 ∧ fix64.LogFast U x = 0 ∧ fix64.LogFastest U x = 0) ∧
    (fix64.Log2 U x = 0 ∧ fix64.Log2Fast U x = 0 ∧ fix64.Log2Fastest U x = 0) := by
  refine ⟨⟨?_, ?_, ?_, ?_⟩, ⟨?_, ?_, ?_⟩, ⟨?_, ?_, ?_⟩, ⟨?_, ?_, ?_⟩,
    ⟨?_, ?_, ?_, ?_⟩, ⟨?_, ?_, ?_⟩, ⟨?_, ?_, ?_⟩, ⟨?_, ?_, ?_⟩⟩
  · unfold fix32.SqrtPrecise; exact if_pos hx
  · unfold fix32.Sqrt fix32.sqrtBody; exact if_pos hx
  · unfold fix32.SqrtFast fix32.sqrtBody; exact if_pos hx
  · unfold fix32.SqrtFastest fix32.sqrtBody; exact if_pos hx
  · unfold fix32.RSqrt fix32.rsqrtBody; exact if_pos hx
  · unfold fix32.RSqrtFast fix32.rsqrtBody; exact if_pos hx
  · unfold fix32.RSqrtFastest fix32.rsqrtBody; exact if_pos hx
  · unfold fix32.Log fix32.logBody; exact if_pos hx
  · unfold fix32.LogFast fix32.logBody; exact if_pos hx
  · unfold fix32.LogFastest fix32.logBody; exact if_pos hx
  · unfold fix32.Log2 fix32.log2Body; exact if_pos hx
  · unfold fix32.Log2Fast fix32.log2Body; exact if_pos hx
  · unfold fix32.Log2Fastest fix32.log2Body; exact if_pos hx
  · unfold fix64.SqrtPrecise; exact if_pos hx
  · unfold fix64.Sqrt fix64.sqrtBody; exact if_pos hx
  · unfold fix64.SqrtFast fix64.sqrtBody; exact if_pos hx
  · unfold fix64.SqrtFastest fix64.sqrtBody; exact if_pos hx
  · unfold fix64.RSqrt fix64.rsqrtBody; exact if_pos hx
  · unfold fix64.RSqrtFast fix64.rsqrtBody; exact if_pos hx
  · unfold fix64.RSqrtFastest fix64.rsqrtBody; exact if_pos hx
  · unfold fix64.Log fix64.logBody; exact if_pos hx
  · unfold fix64.LogFast fix64.logBody; exact if_pos hx
  · unfold fix64.LogFastest fix64.logBody; exact if_pos hx
  · unfold fix64.Log2 fix64.log2Body; exact if_pos hx
  · unfold fix64.Log2Fast fix64.log2Body; exact if_pos hx
  · unfold fix64.Log2Fastest fix64.log2Body; exact if_pos hx

/-- Instances of claim C11 at the raw values `-1.0` and 0. -/
theorem nonpositive_maps_to_zero_witness :
    fix32.Sqrt fixutil.zeroApprox (-65536) = 0 ∧ fix64.Log2Fastest fixutil.zeroApprox 0 = 0 ∧
    fix64.SqrtPrecise (-4294967296) = 0 :=
  ⟨(nonpositive_maps_to_zero fixutil.zeroApprox (-65536) (by decide)).1.2.1,
   (nonpositive_maps_to_zero fixutil.zeroApprox 0 (by decide)).2.2.2.2.2.2.2.2.2,
   (nonpositive_maps_to_zero fixutil.zeroApprox (-4294967296) (by decide)).2.2.2.2.1.1⟩

/-- Claim C12: for every `x` with `x < -One` or `x > One`, in both kernels, each of `Asin`,
`AsinFast`, `AsinFastest`, `Acos`, `AcosFast` and `AcosFastest` returns 0. -/
theorem asin_acos_outside_domain (U : fixutil.Approx) (x : Int) :
    ((x < -fix32.One ∨ x > fix32.One) →
      fix32.Asin U x = 0 ∧ fix32.AsinFast U x = 0 ∧ fix32.AsinFastest U x = 0 ∧
      fix32.Acos U x = 0 ∧ fix32.AcosFast U x = 0 ∧ fix32.AcosFastest U x = 0) ∧
    ((x < -fix64.One ∨ x > fix64.One) →
      fix64.Asin U x = 0 ∧ fix64.AsinFast U x = 0 ∧ fix64.AsinFastest U x = 0 ∧
      fix64.Acos U x = 0 ∧ fix64.AcosFast U x = 0 ∧ fix64.AcosFastest U x = 0) := by
  constructor
  · intro hx
    refine ⟨?_, ?_, ?_, ?_, ?_, ?_⟩
    · unfold fix32.Asin; exact if_pos hx
    · unfold fix32.AsinFast; exact if_pos hx
    · unfold fix32.AsinFastest; exact if_pos hx
    · unfold fix32.Acos; exact if_pos hx
    · unfold fix32.AcosFast; exact if_pos hx
    · unfold fix32.AcosFastest; exact if_pos hx
  · intro hx
    refine ⟨?_, ?_, ?_, ?_, ?_, ?_⟩
    · unfold fix64.Asin; exact if_pos hx
    · unfold fix64.AsinFast; exact if_pos hx
    · unfold fix64.AsinFastest; exact if_pos hx
    · unfold fix64.Acos; exact if_pos hx
    · unfold fix64.AcosFast; exact if_pos hx
    · unfold fix64.AcosFastest; exact if_pos hx

/-- Instances of claim C12 at the raw values `1.5` (Kernel-32) and `-2.0` (Kernel-64). -/
theorem asin_acos_outside_domain_witness :
    fix32.Asin fixutil.zeroApprox 98304 = 0 ∧ fix64.AcosFastest fixutil.zeroApprox (-8589934592) = 0 :=
  ⟨((asin_acos_outside_domain fixutil.zeroApprox 98304).1 (by decide)).1,
   ((asin_acos_outside_domain fixutil.zeroApprox (-8589934592)).2 (by decide)).2.2.2.2.2⟩

/-- Claim C13: in both kernels and all three tiers, `Pow(x, 0) = One` for every `x`,
including `x = 0` and negative `x`, and for every exponent `e != 0` and every `x <= 0`,
`Pow(x, e) = 0`. -/
theorem pow_zero_exponent_and_domain (U : fixutil.Approx) (x e : Int) :
    (fix32.Pow U x 0 = fix32.One ∧ (e ≠ 0 → x ≤ 0 → fix32.Pow U x e = 0)) ∧
    (fix32.PowFast U x 0 = fix32.One ∧ (e ≠ 0 → x ≤ 0 → fix32.PowFast U x e = 0)) ∧
    (fix32.PowFastest U x 0 = fix32.One ∧ (e ≠ 0 → x ≤ 0 → fix32.PowFastest U x e = 0)) ∧
    (fix64.Pow U x 0 = fix64.One ∧ (e ≠ 0 → x ≤ 0 → fix64.Pow U x e = 0)) ∧
    (fix64.PowFast U x 0 = fix64.One ∧ (e ≠ 0 → x ≤ 0 → fix64.PowFast U x e = 0)) ∧
    (fix64.PowFastest U x 0 = fix64.One ∧ (e ≠ 0 → x ≤ 0 → fix64.PowFastest U x e = 0)) := by
  refine ⟨⟨?_, ?_⟩, ⟨?_, ?_⟩, ⟨?_, ?_⟩, ⟨?_, ?_⟩, ⟨?_, ?_⟩, ⟨?_, ?_⟩⟩
  · unfold fix32.Pow; exact if_pos rfl
  · intro he hx
    unfold fix32.Pow
    rw [if_neg he, if_pos hx]
  · unfold fix32.PowFast; exact if_pos rfl
  · intro he hx
    unfold fix32.PowFast
    rw [if_neg he, if_pos hx]
  · unfold fix32.PowFastest; exact if_pos rfl
  · intro he hx
    unfold fix32.PowFastest
    rw [if_neg he, if_pos hx]
  · unfold fix64.Pow; exact if_pos rfl
  · intro he hx
    unfold fix64.Pow
    rw [if_neg he, if_pos hx]
  · unfold fix64.PowFast; exact if_pos rfl
  · intro he hx
    unfold fix64.PowFast
    rw [if_neg he, if_pos hx]
  · unfold fix64.PowFastest; exact if_pos rfl
  · intro he hx
    unfold fix64.PowFastest
    rw [if_neg he, if_pos hx]

/-- Instances of claim C13: `0^0 = 1`, and `(-2.0)^3.0 = 0`. -/
theorem pow_zero_exponent_and_domain_witness :
    fix32.Pow fixutil.zeroApprox 0 0 = fix32.One ∧
    fix64.PowFast fixutil.zeroApprox (-8589934592) 12884901888 = 0 :=
  ⟨(pow_zero_exponent_and_domain fixutil.zeroApprox 0 0).1.1,
   (pow_zero_exponent_and_domain fixutil.zeroApprox (-8589934592) 12884901888).2.2.2.2.1.2
     (by decide) (by decide)⟩

/-- Claim C14: `Exp2`, `Exp2Fast` and `Exp2Fastest` clamp out-of-range exponents.  In
Kernel-32 the result is `MaxValue` for every `x >= 15*One` and 0 for every `x <= -16*One`;
in Kernel-64 the result is `MaxValue` for every `x >= 32*One` and 0 for every
`x <= -32*One`. -/
theorem exp2_clamps (U : fixutil.Approx) (x : Int) :
    (x ≥ 15 * fix32.One →
      fix32.Exp2 U x = fix32.MaxValue ∧ fix32.Exp2Fast U x = fix32.MaxValue ∧ fix32.Exp2Fastest U x = fix32.MaxValue) ∧
    (x ≤ -16 * fix32.One →
      fix32.Exp2 U x = 0 ∧ fix32.Exp2Fast U x = 0 ∧ fix32.Exp2Fastest U x = 0) ∧
    (x ≥ 32 * fix64.One →
      fix64.Exp2 U x = fix64.MaxValue ∧ fix64.Exp2Fast U x = fix64.MaxValue ∧ fix64.Exp2Fastest U x = fix64.MaxValue) ∧
    (x ≤ -32 * fix64.One →
      fix64.Exp2 U x = 0 ∧ fix64.Exp2Fast U x = 0 ∧ fix64.Exp2Fastest U x = 0) := by
  refine ⟨?_, ?_, ?_, ?_⟩
  · intro hx
    refine ⟨?_, ?_, ?_⟩
    · unfold fix32.Exp2 fix32.exp2Body; exact if_pos hx
    · unfold fix32.Exp2Fast fix32.exp2Body; exact if_pos hx
    · unfold fix32.Exp2Fastest fix32.exp2Body; exact if_pos hx
  · intro hx
    have hn : ¬ x ≥ 15 * fix32.One := by unfold fix32.One at hx ⊢; omega
    refine ⟨?_, ?_, ?_⟩
    · unfold fix32.Exp2 fix32.exp2Body; rw [if_neg hn, if_pos hx]
    · unfold fix32.Exp2Fast fix32.exp2Body; rw [if_neg hn, if_pos hx]
    · unfold fix32.Exp2Fastest fix32.exp2Body; rw [if_neg hn, if_pos hx]
  · intro hx
    refine ⟨?_, ?_, ?_⟩
    · unfold fix64.Exp2 fix64.exp2Body; exact if_pos hx
    · unfold fix64.Exp2Fast fix64.exp2Body; exact if_pos hx
    · unfold fix64.Exp2Fastest fix64.exp2Body; exact if_pos hx
  · intro hx
    have hn : ¬ x ≥ 32 * fix64.One := by unfold fix64.One at hx ⊢; omega
    refine ⟨?_, ?_, ?_⟩
    · unfold fix64.Exp2 fix64.exp2Body; rw [if_neg hn, if_pos hx]
    · unfold fix64.Exp2Fast fix64.exp2Body; rw [if_neg hn, if_pos hx]
    · unfold fix64.Exp2Fastest fix64.exp2Body; rw [if_neg hn, if_pos hx]

/-- Instances of claim C14 at the bounds themselves: `15.0` and `-16.0` in Kernel-32,
`32.0` and `-32.0` in Kernel-64. -/
theorem exp2_clamps_witness :
    (fix32.Exp2 fixutil.zeroApprox 983040 = fix32.MaxValue ∧
      fix32.Exp2Fast fixutil.zeroApprox (-1048576) = 0) ∧
    (fix64.Exp2Fastest fixutil.zeroApprox 137438953472 = fix64.MaxValue ∧
      fix64.Exp2 fixutil.zeroApprox (-137438953472) = 0) :=
  ⟨⟨((exp2_clamps fixutil.zeroApprox 983040).1 (by decide)).1,
    ((exp2_clamps fixutil.zeroApprox (-1048576)).2.1 (by decide)).2.1⟩,
   ⟨((exp2_clamps fixutil.zeroApprox 137438953472).2.2.1 (by decide)).2.2,
    ((exp2_clamps fixutil.zeroApprox (-137438953472)).2.2.2 (by decide)).1⟩⟩

/-- Claim C15: in both kernels and all three tiers, `Atan2(y, 0) = PiHalf` for every
`y > 0`, `Atan2(y, 0) = -PiHalf` for every `y < 0`, and `Atan2(0, 0) = 0`. -/
theorem atan2_on_the_y_axis (U : fixutil.Approx) (y : Int) :
    (y > 0 →
      (fix32.Atan2 U y 0 = fix32.PiHalf ∧ fix32.Atan2Fast U y 0 = fix32.PiHalf ∧ fix32.Atan2Fastest U y 0 = fix32.PiHalf) ∧
      (fix64.Atan2 U y 0 = fix64.PiHalf ∧ fix64.Atan2Fast U y 0 = fix64.PiHalf ∧ fix64.Atan2Fastest U y 0 = fix64.PiHalf)) ∧
    (y < 0 →
      (fix32.Atan2 U y 0 = -fix32.PiHalf ∧ fix32.Atan2Fast U y 0 = -fix32.PiHalf ∧ fix32.Atan2Fastest U y 0 = -fix32.PiHalf) ∧
      (fix64.Atan2 U y 0 = -fix64.PiHalf ∧ fix64.Atan2Fast U y 0 = -fix64.PiHalf ∧ fix64.Atan2Fastest U y 0 = -fix64.PiHalf)) ∧
    ((fix32.Atan2 U 0 0 = 0 ∧ fix32.Atan2Fast U 0 0 = 0 ∧ fix32.Atan2Fastest U 0 0 = 0) ∧
      (fix64.Atan2 U 0 0 = 0 ∧ fix64.Atan2Fast U 0 0 = 0 ∧ fix64.Atan2Fastest U 0 0 = 0)) := by
  refine ⟨?_, ?_, ?_⟩
  · intro hy
    refine ⟨⟨?_, ?_, ?_⟩, ⟨?_, ?_, ?_⟩⟩
    · unfold fix32.Atan2; rw [if_pos rfl, if_pos hy]
    · unfold fix32.Atan2Fast fix32.atan2Body; rw [if_pos rfl, if_pos hy]
    · unfold fix32.Atan2Fastest fix32.atan2Body; rw [if_pos rfl, if_pos hy]
    · unfold fix64.Atan2 fix64.atan2Body; rw [if_pos rfl, if_pos hy]
    · unfold fix64.Atan2Fast fix64.atan2Body; rw [if_pos rfl, if_pos hy]
    · unfold fix64.Atan2Fastest fix64.atan2Body; rw [if_pos rfl, if_pos hy]
  · intro hy
    have hn : ¬ y > 0 := by omega
    refine ⟨⟨?_, ?_, ?_⟩, ⟨?_, ?_, ?_⟩⟩
    · unfold fix32.Atan2; rw [if_pos rfl, if_neg hn, if_pos hy]
    · unfold fix32.Atan2Fast fix32.atan2Body; rw [if_pos rfl, if_neg hn, if_pos hy]
    · unfold fix32.Atan2Fastest fix32.atan2Body; rw [if_pos rfl, if_neg hn, if_pos hy]
    · unfold fix64.Atan2 fix64.atan2Body; rw [if_pos rfl, if_neg hn, if_pos hy]
    · unfold fix64.Atan2Fast fix64.atan2Body; rw [if_pos rfl, if_neg hn, if_pos hy]
    · unfold fix64.Atan2Fastest fix64.atan2Body; rw [if_pos rfl, if_neg hn, if_pos hy]
  · refine ⟨⟨?_, ?_, ?_⟩, ⟨?_, ?_, ?_⟩⟩
    · unfold fix32.Atan2; rw [if_pos rfl, if_neg (by decide), if_neg (by decide)]
    · unfold fix32.Atan2Fast fix32.atan2Body; rw [if_pos rfl, if_neg (by decide), if_neg (by decide)]
    · unfold fix32.Atan2Fastest fix32.atan2Body; rw [if_pos rfl, if_neg (by decide), if_neg (by decide)]
    · unfold fix64.Atan2 fix64.atan2Body; rw [if_pos rfl, if_neg (by decide), if_neg (by decide)]
    · unfold fix64.Atan2Fast fix64.atan2Body; rw [if_pos rfl, if_neg (by decide), if_neg (by decide)]
    · unfold fix64.Atan2Fastest fix64.atan2Body; rw [if_pos rfl, if_neg (by decide), if_neg (by decide)]

/-- Instances of claim C15 at `y = 1.0` and `y = -1.0`. -/
theorem atan2_on_the_y_axis_witness :
    fix32.Atan2 fixutil.zeroApprox 65536 0 = fix32.PiHalf ∧
    fix64.Atan2Fast fixutil.zeroApprox (-4294967296) 0 = -fix64.PiHalf :=
  ⟨((atan2_on_the_y_axis fixutil.zeroApprox 65536).1 (by decide)).1.1,
   ((atan2_on_the_y_axis fixutil.zeroApprox (-4294967296)).2.1 (by decide)).2.2.1⟩


/-! ### Linear interpolation -/

/-- Multiplication by zero in Kernel-64. -/
theorem fix64_Mul_zero (a : Int) : fix64.Mul a 0 = 0 := by
  unfold fix64.Mul
  have h1 : and64 (0 : Int) fix64.FractionMask = 0 := by decide
  have h2 : (0 : Int) >>> (32 : Nat) = 0 := by decide
  have h3 : ∀ x : Int, imul64 x 0 = 0 := by intro x; unfold imul64; rw [mul_zero]; decide
  have h4 : fixutil.LogicalShiftRight 0 32 = 0 := by decide
  simp only [h1, h2, h3, h4]
  decide

/-- Multiplication by `One` in Kernel-64 is the identity on `int64` values. -/
theorem fix64_Mul_One (b : Int) (hb : isInt64 b) : fix64.Mul b fix64.One = b := by
  unfold isInt64 at hb
  unfold fix64.Mul
  have h1 : and64 fix64.One fix64.FractionMask = 0 := by decide
  have h2 : fix64.One >>> (32 : Nat) = 1 := by decide
  have h3 : ∀ x : Int, imul64 x 0 = 0 := by intro x; unfold imul64; rw [mul_zero]; decide
  have h4 : fixutil.LogicalShiftRight 0 32 = 0 := by decide
  simp only [h1, h2, h3, h4, and64_FractionMask, Int.shiftRight_eq_div_pow]
  unfold iadd64 imul64 wrap64 fix64.One
  push_cast
  omega

/-- The end points of `fix64.Lerp`: at `t = 0` it returns `b`, at `t = One` it returns
`a`. -/
theorem fix64_Lerp_endpoints (a b : Int) (ha : isInt64 a) (hb : isInt64 b) :
    fix64.Lerp a b 0 = b ∧ fix64.Lerp a b fix64.One = a := by
  have e0 : isub64 fix64.One 0 = fix64.One := by decide
  have e1 : isub64 fix64.One fix64.One = 0 := by decide
  unfold fix64.Lerp
  rw [e0, e1, fix64_Mul_zero, fix64_Mul_zero, fix64_Mul_One a ha, fix64_Mul_One b hb]
  unfold isInt64 at ha hb
  unfold iadd64 wrap64
  constructor <;> omega

/-- The end points of `fix32.Lerp`: at `t = 0` it returns `a`, at `t = One` it returns
`b`. -/
theorem fix32_Lerp_endpoints (a b : Int) (ha : isInt32 a) (hb : isInt32 b) :
    fix32.Lerp a b 0 = a ∧ fix32.Lerp a b fix32.One = b := by
  have e0 : isub64 fix32.One 0 = 65536 := by decide
  have e1 : isub64 fix32.One fix32.One = 0 := by decide
  have e2 : fix32.One = 65536 := by decide
  unfold isInt32 at ha hb
  unfold fix32.Lerp
  simp only [e0, e1]
  rw [e2]
  simp only [fix32.Shift, Int.shiftRight_eq_div_pow]
  unfold iadd64 imul64 wrap64 wrap32
  push_cast
  constructor <;> omega

/-- Failing input for claim C16.  `fix64.Lerp(1.0, 2.0, 0)` is `2.0`, the value of `b`, and
`fix64.Lerp(1.0, 2.0, One)` is `1.0`, the value of `a`: the Kernel-64 function weights `a`
by `t` and `b` by `One - t`, the reverse of `a*(1-t) + b*t`, while `fix32.Lerp` returns
`1.0` and `2.0` there. -/
theorem fix64_Lerp_reversed :
    (fix64.Lerp fix64.One (2 * fix64.One) 0 = 2 * fix64.One ∧
      fix64.Lerp fix64.One (2 * fix64.One) fix64.One = fix64.One) ∧
    (fix32.Lerp fix32.One (2 * fix32.One) 0 = fix32.One ∧
      fix32.Lerp fix32.One (2 * fix32.One) fix32.One = 2 * fix32.One) :=
  ⟨fix64_Lerp_endpoints fix64.One (2 * fix64.One) (by decide) (by decide),
   fix32_Lerp_endpoints fix32.One (2 * fix32.One) (by decide) (by decide)⟩

/-! ### Conversions to integers -/

/-- The floor of a rational with denominator `65536`. -/
theorem floor_div_65536 (v : Int) : ⌊(v : ℚ) / 65536⌋ = v / 65536 := by
  have h := Rat.floor_intCast_div_natCast v 65536
  simpa using h

/-- The ceiling of a rational with denominator `65536`. -/
theorem ceil_div_65536 (v : Int) : ⌈(v : ℚ) / 65536⌉ = -((-v) / 65536) := by
  have h := floor_div_65536 (-v)
  have e : ((-v : Int) : ℚ) / 65536 = -((v : ℚ) / 65536) := by push_cast; ring
  rw [e, Int.floor_neg] at h
  omega

/-- Rounding to nearest as a floor with denominator `65536`. -/
theorem round_div_65536 (v : Int) : ⌊(v : ℚ) / 65536 + 1 / 2⌋ = (v + 32768) / 65536 := by
  have h := floor_div_65536 (v + 32768)
  have e : ((v + 32768 : Int) : ℚ) / 65536 = (v : ℚ) / 65536 + 1 / 2 := by push_cast; ring
  rw [e] at h
  exact h

/-- Failing input for claim C17.  At `v = MaxValue` the ceiling and the rounding of
`v / 65536` are both 32768, a value of `int32`, but `fix32.CeilToInt` and
`fix32.RoundToInt` return -32768: the `int32` additions `v + (One - 1)` and `v + Half`
overflow before the shift. -/
theorem fix32_to_int_wraps_at_MaxValue :
    (fix32.CeilToInt fix32.MaxValue = -32768 ∧ ⌈((fix32.MaxValue : Int) : ℚ) / 65536⌉ = 32768) ∧
    (fix32.RoundToInt fix32.MaxValue = -32768 ∧
      ⌊((fix32.MaxValue : Int) : ℚ) / 65536 + 1 / 2⌋ = 32768) := by
  refine ⟨⟨by decide, ?_⟩, ⟨by decide, ?_⟩⟩
  · rw [ceil_div_65536]; decide
  · rw [round_div_65536]; decide

/-- The Kernel-32 integer conversions below the overflow threshold: for every raw `int32`
value `v`, `fix32.FloorToInt(v)` is `floor(v / 65536)`; for every `v <= MaxValue - 65535`,
`fix32.CeilToInt(v)` is `ceil(v / 65536)`; and for every `v <= MaxValue - 32768`,
`fix32.RoundToInt(v)` is `floor(v / 65536 + 1/2)`. -/
theorem fix32_to_int_roundings (v : Int) (hv : isInt32 v) :
    fix32.FloorToInt v = ⌊(v : ℚ) / 65536⌋ ∧
    (v ≤ fix32.MaxValue - 65535 → fix32.CeilToInt v = ⌈(v : ℚ) / 65536⌉) ∧
    (v ≤ fix32.MaxValue - 32768 → fix32.RoundToInt v = ⌊(v : ℚ) / 65536 + 1 / 2⌋) := by
  unfold isInt32 at hv
  rw [floor_div_65536, ceil_div_65536, round_div_65536]
  have e1 : fix32.One - 1 = 65535 := by decide
  have e2 : fix32.Half = 32768 := by decide
  have e3 : fix32.MaxValue = 2147483647 := by decide
  unfold fix32.FloorToInt fix32.CeilToInt fix32.RoundToInt
  rw [e1, e2, e3]
  simp only [fix32.Shift, Int.shiftRight_eq_div_pow]
  unfold iadd32 wrap32
  push_cast
  refine ⟨by omega, fun h => by omega, fun h => by omega⟩

/-- The conversions at the raw values `-1.5` and `2.5`. -/
theorem fix32_to_int_roundings_witness :
    (fix32.FloorToInt (-98304) = ⌊((-98304 : Int) : ℚ) / 65536⌋ ∧
      fix32.CeilToInt (-98304) = ⌈((-98304 : Int) : ℚ) / 65536⌉) ∧
    fix32.RoundToInt 163840 = ⌊((163840 : Int) : ℚ) / 65536 + 1 / 2⌋ :=
  ⟨⟨(fix32_to_int_roundings (-98304) (by decide)).1,
    (fix32_to_int_roundings (-98304) (by decide)).2.1 (by decide)⟩,
   (fix32_to_int_roundings 163840 (by decide)).2.2 (by decide)⟩

/-! ### Integer construction, addition and conversion back -/

/-- Function `fix64.FromInt32` on an `int32` value is multiplication by `2^32`. -/
theorem fix64_FromInt32_eq (a : Int) (ha : isInt32 a) : fix64.FromInt32 a = a * 4294967296 := by
  unfold isInt32 at ha
  unfold fix64.FromInt32 ishl64 wrap64 fix64.Shift
  omega

/-- Function `fix32.FromInt32` on a value of `[-32768, 32767]` is multiplication by `2^16`. -/
theorem fix32_FromInt32_eq (a : Int) (h0 : -32768 ≤ a) (h1 : a ≤ 32767) :
    fix32.FromInt32 a = a * 65536 := by
  unfold fix32.FromInt32 ishl32 wrap32 fix32.Shift
  omega

/-- The three Kernel-64 conversions of the wrapped integer multiple `wrap64 (n * 2^32)`
return `n` wrapped to `int32`. -/
theorem fix64_to_int_of_multiple (n : Int) :
    fix64.RoundToInt (wrap64 (n * 4294967296)) = wrap32 n ∧
    fix64.FloorToInt (wrap64 (n * 4294967296)) = wrap32 n ∧
    fix64.CeilToInt (wrap64 (n * 4294967296)) = wrap32 n := by
  have e1 : fix64.One - 1 = 4294967295 := by decide
  have e2 : fix64.Half = 2147483648 := by decide
  unfold fix64.RoundToInt fix64.FloorToInt fix64.CeilToInt
  rw [e1, e2]
  simp only [fix64.Shift, Int.shiftRight_eq_div_pow]
  unfold iadd64 wrap64 wrap32
  push_cast
  refine ⟨by omega, by omega, by omega⟩

/-- The three Kernel-32 conversions of the integer multiple `n * 2^16`, for `n` in
`[-32768, 32767]`, return `n`. -/
theorem fix32_to_int_of_multiple (n : Int) (h0 : -32768 ≤ n) (h1 : n ≤ 32767) :
    fix32.RoundToInt (n * 65536) = n ∧
    fix32.FloorToInt (n * 65536) = n ∧
    fix32.CeilToInt (n * 65536) = n := by
  have e1 : fix32.One - 1 = 65535 := by decide
  have e2 : fix32.Half = 32768 := by decide
  unfold fix32.RoundToInt fix32.FloorToInt fix32.CeilToInt
  rw [e1, e2]
  simp only [fix32.Shift, Int.shiftRight_eq_div_pow]
  unfold iadd32 wrap32
  push_cast
  refine ⟨by omega, by omega, by omega⟩

/-- Claim C18: integer construction followed by add or subtract and conversion back is
exact.  In Kernel-64, for all `int32` values `a` and `b`, each of `RoundToInt`, `FloorToInt`
and `CeilToInt` applied to `Add(FromInt32(a), FromInt32(b))` returns `a + b` wrapped to
`int32`, applied to `Sub(FromInt32(a), FromInt32(b))` returns `a - b` wrapped to `int32`, and
applied to `FromInt32(a)` returns `a`.  In Kernel-32 the same equalities hold, without
wrapping, whenever `a`, `b` and the result lie in `[-32768, 32767]`. -/
theorem int_add_sub_roundtrip (a b : Int) (ha : isInt32 a) (hb : isInt32 b) :
    ((fix64.RoundToInt (fix64.Add (fix64.FromInt32 a) (fix64.FromInt32 b)) = wrap32 (a + b) ∧
        fix64.FloorToInt (fix64.Add (fix64.FromInt32 a) (fix64.FromInt32 b)) = wrap32 (a + b) ∧
        fix64.CeilToInt (fix64.Add (fix64.FromInt32 a) (fix64.FromInt32 b)) = wrap32 (a + b)) ∧
      (fix64.RoundToInt (fix64.Sub (fix64.FromInt32 a) (fix64.FromInt32 b)) = wrap32 (a - b) ∧
        fix64.FloorToInt (fix64.Sub (fix64.FromInt32 a) (fix64.FromInt32 b)) = wrap32 (a - b) ∧
        fix64.CeilToInt (fix64.Sub (fix64.FromInt32 a) (fix64.FromInt32 b)) = wrap32 (a - b)) ∧
      (fix64.RoundToInt (fix64.FromInt32 a) = a ∧
        fix64.FloorToInt (fix64.FromInt32 a) = a ∧
        fix64.CeilToInt (fix64.FromInt32 a) = a)) ∧
    (-32768 ≤ a → a ≤ 32767 → -32768 ≤ b → b ≤ 32767 →
      (-32768 ≤ a + b → a + b ≤ 32767 →
        fix32.RoundToInt (fix32.Add (fix32.FromInt32 a) (fix32.FromInt32 b)) = a + b ∧
        fix32.FloorToInt (fix32.Add (fix32.FromInt32 a) (fix32.FromInt32 b)) = a + b ∧
        fix32.CeilToInt (fix32.Add (fix32.FromInt32 a) (fix32.FromInt32 b)) = a + b) ∧
      (-32768 ≤ a - b → a - b ≤ 32767 →
        fix32.RoundToInt (fix32.Sub (fix32.FromInt32 a) (fix32.FromInt32 b)) = a - b ∧
        fix32.FloorToInt (fix32.Sub (fix32.FromInt32 a) (fix32.FromInt32 b)) = a - b ∧
        fix32.CeilToInt (fix32.Sub (fix32.FromInt32 a) (fix32.FromInt32 b)) = a - b) ∧
      (fix32.RoundToInt (fix32.FromInt32 a) = a ∧
        fix32.FloorToInt (fix32.FromInt32 a) = a ∧
        fix32.CeilToInt (fix32.FromInt32 a) = a)) := by
  constructor
  · rw [fix64_FromInt32_eq a ha, fix64_FromInt32_eq b hb]
    have hadd : fix64.Add (a * 4294967296) (b * 4294967296) = wrap64 ((a + b) * 4294967296) := by
      unfold fix64.Add iadd64; congr 1; ring
    have hsub : fix64.Sub (a * 4294967296) (b * 4294967296) = wrap64 ((a - b) * 4294967296) := by
      unfold fix64.Sub isub64; congr 1; ring
    have hid : a * 4294967296 = wrap64 (a * 4294967296) := by
      unfold isInt32 at ha; unfold wrap64; omega
    have hwa : wrap32 a = a := by
      unfold isInt32 at ha; unfold wrap32; omega
    refine ⟨?_, ?_, ?_⟩
    · rw [hadd]; exact fix64_to_int_of_multiple (a + b)
    · rw [hsub]; exact fix64_to_int_of_multiple (a - b)
    · have h := fix64_to_int_of_multiple a
      rw [← hid, hwa] at h
      exact h
  · intro a0 a1 b0 b1
    rw [fix32_FromInt32_eq a a0 a1, fix32_FromInt32_eq b b0 b1]
    refine ⟨?_, ?_, fix32_to_int_of_multiple a a0 a1⟩
    · intro s0 s1
      have hadd : fix32.Add (a * 65536) (b * 65536) = (a + b) * 65536 := by
        unfold fix32.Add iadd32 wrap32; omega
      rw [hadd]; exact fix32_to_int_of_multiple (a + b) s0 s1
    · intro s0 s1
      have hsub : fix32.Sub (a * 65536) (b * 65536) = (a - b) * 65536 := by
        unfold fix32.Sub isub32 wrap32; omega
      rw [hsub]; exact fix32_to_int_of_multiple (a - b) s0 s1

/-- Instance of claim C18 at the values of the repository's tests: in Kernel-64,
`2147483647 + (-2147483647)` rounds to `0`; in Kernel-32, `32767 + (-32768)` rounds
to `-1`. -/
theorem int_add_sub_roundtrip_witness :
    fix64.RoundToInt (fix64.Add (fix64.FromInt32 2147483647) (fix64.FromInt32 (-2147483647)))
      = wrap32 (2147483647 + -2147483647) ∧
    fix32.RoundToInt (fix32.Add (fix32.FromInt32 32767) (fix32.FromInt32 (-32768)))
      = 32767 + -32768 :=
  ⟨(int_add_sub_roundtrip 2147483647 (-2147483647) (by decide) (by decide)).1.1.1,
   ((int_add_sub_roundtrip 32767 (-32768) (by decide) (by decide)).2
      (by decide) (by decide) (by decide) (by decide)).1 (by decide) (by decide) |>.1⟩

/-! ### Sign -/

/-- Function `fix32.Sign` never returns `1`: it returns `0` at `0` and `-1` at every other
`int32` value, because `uint64(-v)` sign-extends and bit 31 of the shifted value is then
bit 62 of the extension. -/
theorem fix32_Sign_values (v : Int) (hv : isInt32 v) :
    fix32.Sign v = if v = 0 then 0 else -1 := by
  unfold isInt32 at hv
  unfold fix32.Sign
  by_cases h0 : v = 0
  · subst h0; decide
  rw [if_neg h0]
  rcases lt_or_gt_of_ne h0 with hneg | hpos
  · have h1 : v >>> (31 : Nat) = -1 := by
      rw [Int.shiftRight_eq_div_pow]; omega
    have h2 : toI32 (toU64 (ineg32 v) >>> 31) = 0 ∨ toI32 (toU64 (ineg32 v) >>> 31) = -1 := by
      rw [Nat.shiftRight_eq_div_pow]
      unfold toI32 toU64 ineg32 wrap32
      omega
    rw [h1]
    rcases h2 with h2 | h2 <;> rw [h2] <;> decide
  · have h1 : v >>> (31 : Nat) = 0 := by
      rw [Int.shiftRight_eq_div_pow]; omega
    have h2 : toI32 (toU64 (ineg32 v) >>> 31) = -1 := by
      rw [Nat.shiftRight_eq_div_pow]
      unfold toI32 toU64 ineg32 wrap32
      omega
    rw [h1, h2]; decide

/-- Failing input for claim C19.  `fix32.Sign` returns `-1`, not `1`, at the positive raw
values `1`, `One` (the number 1.0) and `MaxValue`. -/
theorem fix32_Sign_of_positive_is_negative :
    fix32.Sign 1 = -1 ∧ fix32.Sign fix32.One = -1 ∧ fix32.Sign fix32.MaxValue = -1 :=
  ⟨fix32_Sign_values 1 (by decide), fix32_Sign_values fix32.One (by decide),
   fix32_Sign_values fix32.MaxValue (by decide)⟩

/-- Claim C20: for every `int64` value `v`, `MinValue` included, `fix64.Sign(v)` is `-1` if
`v < 0`, `0` if `v = 0` and `1` if `v > 0`. -/
theorem fix64_Sign_is_sign (v : Int) (hv : isInt64 v) :
    fix64.Sign v = if v < 0 then -1 else if v = 0 then 0 else 1 := by
  unfold isInt64 at hv
  unfold fix64.Sign
  by_cases h0 : v = 0
  · subst h0; decide
  rcases lt_or_gt_of_ne h0 with hneg | hpos
  · rw [if_pos hneg]
    have h1 : v >>> (63 : Nat) = -1 := by
      rw [Int.shiftRight_eq_div_pow]; omega
    have h2 : toI64 (toU64 (ineg64 v) >>> 63) = 0 ∨ toI64 (toU64 (ineg64 v) >>> 63) = 1 := by
      rw [Nat.shiftRight_eq_div_pow]
      unfold toI64 toU64 ineg64 wrap64
      omega
    rw [h1]
    rcases h2 with h2 | h2 <;> rw [h2] <;> decide
  · rw [if_neg (by omega), if_neg h0]
    have h1 : v >>> (63 : Nat) = 0 := by
      rw [Int.shiftRight_eq_div_pow]; omega
    have h2 : toI64 (toU64 (ineg64 v) >>> 63) = 1 := by
      rw [Nat.shiftRight_eq_div_pow]
      unfold toI64 toU64 ineg64 wrap64
      omega
    rw [h1, h2]; decide

/-- Instances of claim C20 at `MinValue`, `-1`, `0`, `1` and `MaxValue`. -/
theorem fix64_Sign_is_sign_witness :
    fix64.Sign fix64.MinValue = -1 ∧ fix64.Sign (-1) = -1 ∧ fix64.Sign 0 = 0 ∧
    fix64.Sign 1 = 1 ∧ fix64.Sign fix64.MaxValue = 1 :=
  ⟨fix64_Sign_is_sign fix64.MinValue (by decide), fix64_Sign_is_sign (-1) (by decide),
   fix64_Sign_is_sign 0 (by decide), fix64_Sign_is_sign 1 (by decide),
   fix64_Sign_is_sign fix64.MaxValue (by decide)⟩

/-! ### Bit masks -/

/-- Exclusive or with the all-ones word of width `w` is subtraction from it. -/
theorem xor_all_ones (w n : Nat) (hn : n < 2 ^ w) : n ^^^ (2 ^ w - 1) = 2 ^ w - 1 - n := by
  have e : 2 ^ w - 1 - n = 2 ^ w - (n + 1) := by omega
  rw [e]
  apply Nat.eq_of_testBit_eq
  intro i
  rw [Nat.testBit_xor, Nat.testBit_two_pow_sub_one, Nat.testBit_two_pow_sub_succ hn]
  by_cases hi : i < w
  · simp [hi]
  · have hlt : n < 2 ^ i :=
      lt_of_lt_of_le hn (Nat.pow_le_pow_right (by norm_num) (Nat.le_of_not_lt hi))
    simp [hi, Nat.testBit_lt_two_pow hlt]

/-- Bitwise and with the mask of the bits `k .. w-1` clears the low `k` bits. -/
theorem and_high_mask (w k n : Nat) (hk : k ≤ w) (hn : n < 2 ^ w) :
    n &&& (2 ^ w - 2 ^ k) = n - n % 2 ^ k := by
  have e1 : 2 ^ w - 2 ^ k = 2 ^ k * (2 ^ (w - k) - 1) := by
    rw [Nat.mul_sub, ← Nat.pow_add, Nat.add_sub_cancel' hk, Nat.mul_one]
  have e2 : n - n % 2 ^ k = 2 ^ k * (n / 2 ^ k) := by
    have := Nat.div_add_mod n (2 ^ k)
    omega
  rw [e1, e2]
  apply Nat.eq_of_testBit_eq
  intro i
  rw [Nat.testBit_and, Nat.testBit_mul_pow_two, Nat.testBit_mul_pow_two,
    Nat.testBit_two_pow_sub_one, ← Nat.shiftRight_eq_div_pow, Nat.testBit_shiftRight]
  by_cases hi : k ≤ i
  · have e3 : k + (i - k) = i := by omega
    rw [e3]
    by_cases hw : i < w
    · have : i - k < w - k := by omega
      simp [hi, this]
    · have hlt : n < 2 ^ i :=
        lt_of_lt_of_le hn (Nat.pow_le_pow_right (by norm_num) (Nat.le_of_not_lt hw))
      simp [Nat.testBit_lt_two_pow hlt]
  · simp [hi]

/-- Exclusive or with zero on `int32` values. -/
theorem xor32_zero (x : Int) (hx : isInt32 x) : xor32 x 0 = x := by
  unfold isInt32 at hx
  have h0 : toU32 0 = 0 := by decide
  unfold xor32
  rw [h0, Nat.xor_zero]
  unfold toI32 toU32 wrap32
  omega

/-- Exclusive or with `-1` on `int32` values is the bitwise complement `-x - 1`. -/
theorem xor32_neg_one (x : Int) (hx : isInt32 x) : xor32 x (-1) = -x - 1 := by
  unfold isInt32 at hx
  have h1 : toU32 (-1) = 2 ^ 32 - 1 := by decide
  have hn : toU32 x < 2 ^ 32 := by unfold toU32; omega
  unfold xor32
  rw [h1, xor_all_ones 32 _ hn]
  unfold toI32 toU32 wrap32
  omega

/-- Exclusive or with zero on `int64` values. -/
theorem xor64_zero (x : Int) (hx : isInt64 x) : xor64 x 0 = x := by
  unfold isInt64 at hx
  have h0 : toU64 0 = 0 := by decide
  unfold xor64
  rw [h0, Nat.xor_zero]
  unfold toI64 toU64 wrap64
  omega

/-- Exclusive or with `-1` on `int64` values is the bitwise complement `-x - 1`. -/
theorem xor64_neg_one (x : Int) (hx : isInt64 x) : xor64 x (-1) = -x - 1 := by
  unfold isInt64 at hx
  have h1 : toU64 (-1) = 2 ^ 64 - 1 := by decide
  have hn : toU64 x < 2 ^ 64 := by unfold toU64; omega
  unfold xor64
  rw [h1, xor_all_ones 64 _ hn]
  unfold toI64 toU64 wrap64
  omega

/-- The fraction mask of Kernel-32 extracts the residue modulo `2^16`. -/
theorem and32_FractionMask (a : Int) : and32 a fix32.FractionMask = a % 2 ^ 16 := by
  have h : toU32 fix32.FractionMask = 2 ^ 16 - 1 := by decide
  unfold and32
  rw [h, Nat.and_pow_two_sub_one_eq_mod]
  unfold toI32 wrap32 toU32
  omega

/-- The integer mask of Kernel-32 clears the residue modulo `2^16`. -/
theorem and32_IntegerMask (a : Int) (ha : isInt32 a) :
    and32 a fix32.IntegerMask = a - a % 2 ^ 16 := by
  unfold isInt32 at ha
  have h : toU32 fix32.IntegerMask = 2 ^ 32 - 2 ^ 16 := by decide
  have hn : toU32 a < 2 ^ 32 := by unfold toU32; omega
  unfold and32
  rw [h, and_high_mask 32 16 _ (by norm_num) hn]
  unfold toI32 wrap32 toU32
  omega

/-- The integer mask of Kernel-64 clears the residue modulo `2^32`. -/
theorem and64_IntegerMask (a : Int) (ha : isInt64 a) :
    and64 a fix64.IntegerMask = a - a % 2 ^ 32 := by
  unfold isInt64 at ha
  have h : toU64 fix64.IntegerMask = 2 ^ 64 - 2 ^ 32 := by decide
  have hn : toU64 a < 2 ^ 64 := by unfold toU64; omega
  unfold and64
  rw [h, and_high_mask 64 32 _ (by norm_num) hn]
  unfold toI64 wrap64 toU64
  omega

/-! ### Absolute value -/

/-- Function `fix32.Abs` on an `int32` value other than `MinValue` is the absolute value. -/
theorem fix32_Abs_eq (v : Int) (hv : isInt32 v) (hm : v ≠ fix32.MinValue) :
    fix32.Abs v = |v| := by
  unfold isInt32 at hv
  have hmin : fix32.MinValue = -2147483648 := rfl
  rw [hmin] at hm
  have hA : fix32.Abs v = xor32 (iadd32 v (v >>> (31 : Nat))) (v >>> (31 : Nat)) := rfl
  rw [hA]
  rcases lt_or_le v 0 with hneg | hpos
  · have hs : v >>> (31 : Nat) = -1 := by rw [Int.shiftRight_eq_div_pow]; omega
    have hadd : iadd32 v (-1) = v - 1 := by unfold iadd32 wrap32; omega
    rw [hs, hadd, xor32_neg_one (v - 1) (by unfold isInt32; omega), abs_of_neg hneg]
    omega
  · have hs : v >>> (31 : Nat) = 0 := by rw [Int.shiftRight_eq_div_pow]; omega
    have hadd : iadd32 v 0 = v := by unfold iadd32 wrap32; omega
    rw [hs, hadd, xor32_zero v (by unfold isInt32; omega), abs_of_nonneg hpos]

/-- Function `fix64.Abs` on an `int64` value other than `MinValue` is the absolute value. -/
theorem fix64_Abs_eq (v : Int) (hv : isInt64 v) (hm : v ≠ fix64.MinValue) :
    fix64.Abs v = |v| := by
  unfold isInt64 at hv
  have hmin : fix64.MinValue = -9223372036854775808 := rfl
  rw [hmin] at hm
  have hA : fix64.Abs v = xor64 (iadd64 v (v >>> (63 : Nat))) (v >>> (63 : Nat)) := rfl
  rw [hA]
  rcases lt_or_le v 0 with hneg | hpos
  · have hs : v >>> (63 : Nat) = -1 := by rw [Int.shiftRight_eq_div_pow]; omega
    have hadd : iadd64 v (-1) = v - 1 := by unfold iadd64 wrap64; omega
    rw [hs, hadd, xor64_neg_one (v - 1) (by unfold isInt64; omega), abs_of_neg hneg]
    omega
  · have hs : v >>> (63 : Nat) = 0 := by rw [Int.shiftRight_eq_div_pow]; omega
    have hadd : iadd64 v 0 = v := by unfold iadd64 wrap64; omega
    rw [hs, hadd, xor64_zero v (by unfold isInt64; omega), abs_of_nonneg hpos]

/-- Claim C21: in both kernels, for every `v` other than `MinValue`, `Abs(v)` is the
non-negative absolute value `|v|` and `Nabs(v) = -|v|`; and `Abs(MinValue) = MinValue`,
which is still negative. -/
theorem abs_and_nabs (v : Int) :
    (isInt32 v → v ≠ fix32.MinValue →
      fix32.Abs v = |v| ∧ 0 ≤ fix32.Abs v ∧ fix32.Nabs v = -|v|) ∧
    (fix32.Abs fix32.MinValue = fix32.MinValue ∧ fix32.MinValue < 0) ∧
    (isInt64 v → v ≠ fix64.MinValue →
      fix64.Abs v = |v| ∧ 0 ≤ fix64.Abs v ∧ fix64.Nabs v = -|v|) ∧
    (fix64.Abs fix64.MinValue = fix64.MinValue ∧ fix64.MinValue < 0) := by
  refine ⟨?_, ⟨by decide, by decide⟩, ?_, ⟨by decide, by decide⟩⟩
  · intro hv hm
    have h := fix32_Abs_eq v hv hm
    refine ⟨h, by rw [h]; exact abs_nonneg v, ?_⟩
    unfold fix32.Nabs
    rw [h]
    unfold isInt32 at hv
    have hmin : fix32.MinValue = -2147483648 := rfl
    rw [hmin] at hm
    have hb : |v| ≤ 2147483647 := by
      rw [abs_le]; omega
    have hn := abs_nonneg v
    generalize |v| = w at hb hn ⊢
    unfold ineg32 wrap32
    omega
  · intro hv hm
    have h := fix64_Abs_eq v hv hm
    refine ⟨h, by rw [h]; exact abs_nonneg v, ?_⟩
    unfold fix64.Nabs
    rw [h]
    unfold isInt64 at hv
    have hmin : fix64.MinValue = -9223372036854775808 := rfl
    rw [hmin] at hm
    have hb : |v| ≤ 9223372036854775807 := by
      rw [abs_le]; omega
    have hn := abs_nonneg v
    generalize |v| = w at hb hn ⊢
    unfold ineg64 wrap64
    omega

/-- Instances of claim C21 at the raw values `-1.5` (Kernel-32) and `-2.0` (Kernel-64). -/
theorem abs_and_nabs_witness :
    (fix32.Abs (-98304) = |(-98304 : Int)| ∧ fix32.Nabs (-98304) = -|(-98304 : Int)|) ∧
    (fix64.Abs (-8589934592) = |(-8589934592 : Int)| ∧
      fix64.Nabs (-8589934592) = -|(-8589934592 : Int)|) :=
  ⟨⟨((abs_and_nabs (-98304)).1 (by decide) (by decide)).1,
    ((abs_and_nabs (-98304)).1 (by decide) (by decide)).2.2⟩,
   ⟨((abs_and_nabs (-8589934592)).2.2.1 (by decide) (by decide)).1,
    ((abs_and_nabs (-8589934592)).2.2.1 (by decide) (by decide)).2.2⟩⟩

/-! ### Floor and fractional part -/

/-- Claim C22: in both kernels, for every raw `v`: `Fract(v) = v - Floor(v)`,
`0 <= Fract(v) < One`, `Floor(v)` is a multiple of `One`, and
`Floor(v) <= v < Floor(v) + One`, so negative values floor toward minus infinity and
`Fract` is never negative.  The difference and the sum are exact: nothing wraps. -/
theorem floor_and_fract (v : Int) :
    (isInt32 v →
      fix32.Fract v = v - fix32.Floor v ∧ (0 ≤ fix32.Fract v ∧ fix32.Fract v < fix32.One) ∧
      fix32.One ∣ fix32.Floor v ∧ (fix32.Floor v ≤ v ∧ v < fix32.Floor v + fix32.One)) ∧
    (isInt64 v →
      fix64.Fract v = v - fix64.Floor v ∧ (0 ≤ fix64.Fract v ∧ fix64.Fract v < fix64.One) ∧
      fix64.One ∣ fix64.Floor v ∧ (fix64.Floor v ≤ v ∧ v < fix64.Floor v + fix64.One)) := by
  constructor
  · intro hv
    have hfl : fix32.Floor v = v - v % 2 ^ 16 := and32_IntegerMask v hv
    have hfr : fix32.Fract v = v % 2 ^ 16 := and32_FractionMask v
    have hone : fix32.One = 2 ^ 16 := rfl
    rw [hfl, hfr, hone]
    refine ⟨by omega, ⟨by omega, by omega⟩, ?_, ⟨by omega, by omega⟩⟩
    exact ⟨v / 2 ^ 16, by omega⟩
  · intro hv
    have hfl : fix64.Floor v = v - v % 2 ^ 32 := and64_IntegerMask v hv
    have hfr : fix64.Fract v = v % 2 ^ 32 := and64_FractionMask v
    have hone : fix64.One = 2 ^ 32 := rfl
    rw [hfl, hfr, hone]
    refine ⟨by omega, ⟨by omega, by omega⟩, ?_, ⟨by omega, by omega⟩⟩
    exact ⟨v / 2 ^ 32, by omega⟩

/-- Instances of claim C22 at the raw values `-1.5`: the floor is `-2.0` and the fractional
part is `0.5`. -/
theorem floor_and_fract_witness :
    (fix32.Fract (-98304) = -98304 - fix32.Floor (-98304) ∧
      fix32.Floor (-98304) ≤ -98304) ∧
    (fix64.Fract (-6442450944) = -6442450944 - fix64.Floor (-6442450944) ∧
      fix64.Floor (-6442450944) ≤ -6442450944) :=
  ⟨⟨((floor_and_fract (-98304)).1 (by decide)).1,
    ((floor_and_fract (-98304)).1 (by decide)).2.2.2.1⟩,
   ⟨((floor_and_fract (-6442450944)).2 (by decide)).1,
    ((floor_and_fract (-6442450944)).2 (by decide)).2.2.2.1⟩⟩

/-! ### Widening and narrowing between the two value types -/

/-- Claim C23: widening is exact and narrowing by shift undoes it.  For every `F32` value
`v`, `F64FromF32(v).Raw = v.Raw * 2^16` with no overflow, so `v.Raw / 2^16` and the widened
raw over `2^32` are the same number, and `F32FromF64(F64FromF32(v)) = v`. -/
theorem widen_then_narrow (v : F32) (hv : isInt32 v.Raw) :
    (F64FromF32 v).Raw = v.Raw * 2 ^ 16 ∧ isInt64 (v.Raw * 2 ^ 16) ∧
    ((v.Raw : ℚ) / 2 ^ 16 = (((F64FromF32 v).Raw : Int) : ℚ) / 2 ^ 32) ∧
    F32FromF64 (F64FromF32 v) = v := by
  obtain ⟨r⟩ := v
  unfold isInt32 at hv
  simp only at hv
  have h1 : (F64FromF32 { Raw := r }).Raw = r * 2 ^ 16 := by
    show ishl64 r 16 = r * 2 ^ 16
    unfold ishl64 wrap64
    omega
  refine ⟨h1, by show isInt64 (r * 2 ^ 16); unfold isInt64; omega, ?_, ?_⟩
  · rw [h1]
    push_cast
    field_simp
    ring
  · show F32FromRaw (wrap32 ((F64FromF32 { Raw := r }).Raw >>> (16 : Nat))) = { Raw := r }
    rw [h1, Int.shiftRight_eq_div_pow]
    unfold F32FromRaw wrap32
    congr 1
    omega

/-- Instances of claim C23 at the extreme raw values. -/
theorem widen_then_narrow_witness :
    F32FromF64 (F64FromF32 { Raw := fix32.MinValue }) = { Raw := fix32.MinValue } ∧
    (F64FromF32 { Raw := fix32.MaxValue }).Raw = fix32.MaxValue * 2 ^ 16 :=
  ⟨(widen_then_narrow { Raw := fix32.MinValue } (by decide)).2.2.2,
   (widen_then_narrow { Raw := fix32.MaxValue } (by decide)).1⟩

/-- Claim C24: the narrowing method `F64.F32()` is unimplemented: for every receiver it
panics and returns no `F32` value. -/
theorem narrowing_method_fails (f : F64) : F64.F32 f = none ∧ ¬ ∃ r : F32, F64.F32 f = some r := by
  refine ⟨rfl, ?_⟩
  rintro ⟨r, hr⟩
  exact Option.noConfusion hr

/-! ### The minimum divided by negative one -/

/-- Counterexample to claim C25: neither `fix32.DivPrecise(MinValue, Neg1)` nor
`fix64.DivPrecise(MinValue, Neg1)` is 0. -/
theorem DivPrecise_min_by_neg_one_nonzero :
    fix32.DivPrecise fix32.MinValue fix32.Neg1 ≠ 0 ∧
    fix64.DivPrecise fix64.MinValue fix64.Neg1 ≠ 0 := by
  constructor
  · decide
  · obtain ⟨_, h⟩ := fix64.DivPrecise_eq fix64.MinValue fix64.Neg1 (by decide) (by decide)
      (by decide)
    rw [h]
    decide

/-- Claim C25, amended: `DivPrecise(MinValue, Neg1) = MinValue` in both kernels.  The exact
quotient of `MinValue * 2^F` by `Neg1` is `MaxValue + 1`, one raw unit past the largest
value, and the result is that quotient wrapped. -/
theorem DivPrecise_min_by_neg_one :
    (Int.tdiv (fix32.MinValue * 2 ^ 16) fix32.Neg1 = fix32.MaxValue + 1 ∧
      fix32.DivPrecise fix32.MinValue fix32.Neg1 = wrap32 (fix32.MaxValue + 1) ∧
      fix32.DivPrecise fix32.MinValue fix32.Neg1 = fix32.MinValue) ∧
    (Int.tdiv (fix64.MinValue * 2 ^ 32) fix64.Neg1 = fix64.MaxValue + 1 ∧
      fix64.DivPrecise fix64.MinValue fix64.Neg1 = wrap64 (fix64.MaxValue + 1) ∧
      fix64.DivPrecise fix64.MinValue fix64.Neg1 = fix64.MinValue) := by
  refine ⟨⟨by decide, by decide, by decide⟩, ⟨by decide, ?_, ?_⟩⟩
  · obtain ⟨_, h⟩ := fix64.DivPrecise_eq fix64.MinValue fix64.Neg1 (by decide) (by decide)
      (by decide)
    rw [h]
    decide
  · obtain ⟨_, h⟩ := fix64.DivPrecise_eq fix64.MinValue fix64.Neg1 (by decide) (by decide)
      (by decide)
    rw [h]
    decide

/-! ### The ratio constructors -/

/-- Counterexample to claim C26: with `b = 0` the ratio constructors return no value (the
integer division panics); and `F64Ratio(-2147483648, -1)` has raw `-2^63`, whereas the
quotient of `a * 2^32` by `b` is `2^63`. -/
theorem Ratio_by_zero_fails :
    (F32Ratio 1 0 = none ∧ F64Ratio 1 0 = none) ∧
    (F64Ratio (-2147483648) (-1) = some { Raw := -9223372036854775808 } ∧
      Int.tdiv (-2147483648 * 2 ^ 32) (-1) = 9223372036854775808) := by
  decide

/-- The truncated quotient of an `int64` dividend stays in the `int64` range, except for
the minimum divided by `-1`. -/
theorem tdiv_in_range (x b : Int) (hx : isInt64 x) (hb : b ≠ 0)
    (hne : ¬ (x = -2 ^ 63 ∧ b = -1)) : isInt64 (Int.tdiv x b) := by
  unfold isInt64 at hx ⊢
  have hq : (Int.tdiv x b).natAbs = x.natAbs / b.natAbs := Int.natAbs_tdiv x b
  by_cases h1 : b = 1
  · subst h1; rw [Int.tdiv_one]; exact hx
  by_cases h2 : b = -1
  · subst h2
    have e : Int.tdiv x (-1) = -x := by rw [Int.tdiv_neg, Int.tdiv_one]
    rw [e]
    have : x ≠ -2 ^ 63 := fun h => hne ⟨h, rfl⟩
    omega
  · have hb2 : 2 ≤ b.natAbs := by omega
    have hle : x.natAbs / b.natAbs ≤ x.natAbs / 2 :=
      Nat.div_le_div_left hb2 (by norm_num)
    omega

/-- Claim C26, amended: for `int32` arguments with `b != 0` the ratio constructors return a
value, whose raw is the quotient of `a * 2^F` by `b` truncated toward zero, narrowed to
`int32` for `F32Ratio` (`F = 16`) and, for `F64Ratio` (`F = 32`), exact except at
`a = -2^31`, `b = -1`, where the quotient `2^63` wraps; with `b = 0` they return no value,
the division panics. -/
theorem Ratio_values (a b : Int) (ha : isInt32 a) :
    (b ≠ 0 →
      F32Ratio a b = some { Raw := wrap32 (Int.tdiv (a * 2 ^ 16) b) } ∧
      F64Ratio a b = some { Raw := wrap64 (Int.tdiv (a * 2 ^ 32) b) } ∧
      (¬ (a = -2 ^ 31 ∧ b = -1) → F64Ratio a b = some { Raw := Int.tdiv (a * 2 ^ 32) b })) ∧
    (b = 0 → F32Ratio a b = none ∧ F64Ratio a b = none) := by
  unfold isInt32 at ha
  have h16 : ishl64 a 16 = a * 2 ^ 16 := by unfold ishl64 wrap64; omega
  have h32 : ishl64 a 32 = a * 2 ^ 32 := by unfold ishl64 wrap64; omega
  constructor
  · intro hb
    have r16 : isInt64 (Int.tdiv (a * 2 ^ 16) b) :=
      tdiv_in_range _ b (by unfold isInt64; omega) hb (by omega)
    have w16 : wrap64 (Int.tdiv (a * 2 ^ 16) b) = Int.tdiv (a * 2 ^ 16) b := by
      unfold isInt64 at r16; unfold wrap64; omega
    refine ⟨?_, ?_, ?_⟩
    · unfold F32Ratio checkedDiv64
      rw [if_neg hb, h16]
      unfold idiv64 F32FromRaw
      rw [w16]
      rfl
    · unfold F64Ratio checkedDiv64
      rw [if_neg hb, h32]
      rfl
    · intro hne
      have r32 : isInt64 (Int.tdiv (a * 2 ^ 32) b) :=
        tdiv_in_range _ b (by unfold isInt64; omega) hb (by omega)
      have w32 : wrap64 (Int.tdiv (a * 2 ^ 32) b) = Int.tdiv (a * 2 ^ 32) b := by
        unfold isInt64 at r32; unfold wrap64; omega
      unfold F64Ratio checkedDiv64
      rw [if_neg hb, h32]
      unfold idiv64 F64FromRaw
      rw [w32]
      rfl
  · intro hb
    subst hb
    exact ⟨rfl, rfl⟩

/-- Instances of the amended claim C26: the ratio `1/3`, and a zero denominator. -/
theorem Ratio_values_witness :
    (F32Ratio 1 3 = some { Raw := 21845 } ∧ F64Ratio 1 3 = some { Raw := 1431655765 }) ∧
    F32Ratio 7 0 = none :=
  ⟨⟨((Ratio_values 1 3 (by decide)).1 (by decide)).1,
    ((Ratio_values 1 3 (by decide)).1 (by decide)).2.2 (by decide)⟩,
   ((Ratio_values 7 0 (by decide)).2 rfl).1⟩

/-! ### Vector modulo -/

/-- The run-time remainder by a nonzero divisor is the kernel `Mod`. -/
theorem checkedRem_fix32 (a b : Int) (hb : b ≠ 0) : checkedRem a b = some (fix32.Mod a b) := by
  unfold checkedRem fix32.Mod
  rw [if_neg hb, if_neg hb]

/-- The run-time remainder by a nonzero divisor is the kernel `Mod`. -/
theorem checkedRem_fix64 (a b : Int) (hb : b ≠ 0) : checkedRem a b = some (fix64.Mod a b) := by
  unfold checkedRem fix64.Mod
  rw [if_neg hb, if_neg hb]

/-- The run-time remainder by zero fails. -/
theorem checkedRem_zero (a : Int) : checkedRem a 0 = none := rfl

/-- Failing input for claim C27.  With a zero divisor component, `F32Vec2.Mod((1.0, 1.0),
(0, 1.0))` and `F64.ModVec2(1.0, (1.0, 0))` return no vector at all (the remainder panics),
while `fix32.Mod` and `fix64.Mod` of the same components are 0. -/
theorem vector_Mod_by_zero_fails :
    F32Vec2.Mod { RawX := 65536, RawY := 65536 } { RawX := 0, RawY := 65536 } = none ∧
    fix32.Mod 65536 0 = 0 ∧
    F64.ModVec2 { Raw := 4294967296 } { RawX := 4294967296, RawY := 0 } = none ∧
    fix64.Mod 4294967296 0 = 0 := by
  decide

/-- The vector modulo methods as they run: when every divisor component is nonzero, each
component of `F32Vec2.Mod(v, b)`, `F32Vec3.Mod`, the `ModF32` forms, `F32.ModVec2` and
`F64.ModVec2` equals `fix32.Mod` (resp. `fix64.Mod`) of the corresponding raw components;
when a divisor component is zero the remainder panics and no vector is returned. -/
theorem vector_Mod_componentwise (v2 b2 : F32Vec2) (v3 b3 : F32Vec3) (s : F32) (f : F64)
    (w : F64Vec2) :
    ((b2.RawX ≠ 0 → b2.RawY ≠ 0 →
        F32Vec2.Mod v2 b2 =
          some { RawX := fix32.Mod v2.RawX b2.RawX, RawY := fix32.Mod v2.RawY b2.RawY }) ∧
      (b3.RawX ≠ 0 → b3.RawY ≠ 0 → b3.RawZ ≠ 0 →
        F32Vec3.Mod v3 b3 =
          some { RawX := fix32.Mod v3.RawX b3.RawX, RawY := fix32.Mod v3.RawY b3.RawY,
                 RawZ := fix32.Mod v3.RawZ b3.RawZ }) ∧
      (s.Raw ≠ 0 →
        F32Vec2.ModF32 v2 s =
          some { RawX := fix32.Mod v2.RawX s.Raw, RawY := fix32.Mod v2.RawY s.Raw } ∧
        F32Vec3.ModF32 v3 s =
          some { RawX := fix32.Mod v3.RawX s.Raw, RawY := fix32.Mod v3.RawY s.Raw,
                 RawZ := fix32.Mod v3.RawZ s.Raw }) ∧
      (b2.RawX ≠ 0 → b2.RawY ≠ 0 →
        F32.ModVec2 s b2 =
          some { RawX := fix32.Mod s.Raw b2.RawX, RawY := fix32.Mod s.Raw b2.RawY }) ∧
      (w.RawX ≠ 0 → w.RawY ≠ 0 →
        F64.ModVec2 f w =
          some { RawX := fix64.Mod f.Raw w.RawX, RawY := fix64.Mod f.Raw w.RawY })) ∧
    (((b2.RawX = 0 ∨ b2.RawY = 0) → F32Vec2.Mod v2 b2 = none ∧ F32.ModVec2 s b2 = none) ∧
      ((b3.RawX = 0 ∨ b3.RawY = 0 ∨ b3.RawZ = 0) → F32Vec3.Mod v3 b3 = none) ∧
      (s.Raw = 0 → F32Vec2.ModF32 v2 s = none ∧ F32Vec3.ModF32 v3 s = none) ∧
      ((w.RawX = 0 ∨ w.RawY = 0) → F64.ModVec2 f w = none)) := by
  refine ⟨⟨?_, ?_, ?_, ?_, ?_⟩, ⟨?_, ?_, ?_, ?_⟩⟩
  · intro hx hy
    unfold F32Vec2.Mod
    rw [checkedRem_fix32 _ _ hx, checkedRem_fix32 _ _ hy]
    rfl
  · intro hx hy hz
    unfold F32Vec3.Mod
    rw [checkedRem_fix32 _ _ hx, checkedRem_fix32 _ _ hy, checkedRem_fix32 _ _ hz]
    rfl
  · intro hs
    constructor
    · unfold F32Vec2.ModF32
      rw [checkedRem_fix32 _ _ hs, checkedRem_fix32 _ _ hs]
      rfl
    · unfold F32Vec3.ModF32
      rw [checkedRem_fix32 _ _ hs, checkedRem_fix32 _ _ hs, checkedRem_fix32 _ _ hs]
      rfl
  · intro hx hy
    unfold F32.ModVec2
    rw [checkedRem_fix32 _ _ hx, checkedRem_fix32 _ _ hy]
    rfl
  · intro hx hy
    unfold F64.ModVec2
    rw [checkedRem_fix64 _ _ hx, checkedRem_fix64 _ _ hy]
    rfl
  · intro h
    unfold F32Vec2.Mod F32.ModVec2
    rcases h with h | h
    · rw [h]; simp [checkedRem_zero]
    · rw [h]; simp [checkedRem_zero]
  · intro h
    unfold F32Vec3.Mod
    rcases h with h | h | h
    · rw [h]; simp [checkedRem_zero]
    · rw [h]; simp [checkedRem_zero]
    · rw [h]; simp [checkedRem_zero]
  · intro h
    unfold F32Vec2.ModF32 F32Vec3.ModF32
    rw [h]; simp [checkedRem_zero]
  · intro h
    unfold F64.ModVec2
    rcases h with h | h
    · rw [h]; simp [checkedRem_zero]
    · rw [h]; simp [checkedRem_zero]

/-- The vector modulo at `(-7, 7) % (2, -2) = (-1, 1)` on raw values, and at a zero divisor
component. -/
theorem vector_Mod_componentwise_witness :
    F32Vec2.Mod { RawX := -7, RawY := 7 } { RawX := 2, RawY := -2 } =
      some { RawX := fix32.Mod (-7) 2, RawY := fix32.Mod 7 (-2) } ∧
    F32Vec3.Mod { RawX := 1, RawY := 2, RawZ := 3 } { RawX := 1, RawY := 0, RawZ := 1 } = none :=
  ⟨(vector_Mod_componentwise { RawX := -7, RawY := 7 } { RawX := 2, RawY := -2 }
      { RawX := 1, RawY := 2, RawZ := 3 } { RawX := 1, RawY := 0, RawZ := 1 } { Raw := 1 }
      { Raw := 1 } { RawX := 1, RawY := 1 }).1.1 (by decide) (by decide),
   (vector_Mod_componentwise { RawX := -7, RawY := 7 } { RawX := 2, RawY := -2 }
      { RawX := 1, RawY := 2, RawZ := 3 } { RawX := 1, RawY := 0, RawZ := 1 } { Raw := 1 }
      { Raw := 1 } { RawX := 1, RawY := 1 }).2.2.1 (Or.inr (Or.inl rfl))⟩

/-! ### Component-wise maximum of 3-vectors -/

/-- The components of the three 3-component `Max` helpers: the first two are the larger of
the inputs, the third is the smaller. -/
theorem Vec3Max_components (a0 a1 : F32Vec3) (b0 b1 : F64Vec3) (c0 c1 : vec3.Vec3) :
    ((F32Vec3Max a0 a1).RawX = max a0.RawX a1.RawX ∧
      (F32Vec3Max a0 a1).RawY = max a0.RawY a1.RawY ∧
      (F32Vec3Max a0 a1).RawZ = min a0.RawZ a1.RawZ) ∧
    ((F64Vec3Max b0 b1).RawX = max b0.RawX b1.RawX ∧
      (F64Vec3Max b0 b1).RawY = max b0.RawY b1.RawY ∧
      (F64Vec3Max b0 b1).RawZ = min b0.RawZ b1.RawZ) ∧
    ((vec3.Max c0 c1).RawX = max c0.RawX c1.RawX ∧
      (vec3.Max c0 c1).RawY = max c0.RawY c1.RawY ∧
      (vec3.Max c0 c1).RawZ = min c0.RawZ c1.RawZ) := by
  have hmax32 : ∀ a b : Int, fix32.Max a b = max a b := by
    intro a b; unfold fix32.Max; split_ifs <;> omega
  have hmin32 : ∀ a b : Int, fix32.Min a b = min a b := by
    intro a b; unfold fix32.Min; split_ifs <;> omega
  have hmax64 : ∀ a b : Int, fix64.Max a b = max a b := by
    intro a b; unfold fix64.Max; split_ifs <;> omega
  have hmin64 : ∀ a b : Int, fix64.Min a b = min a b := by
    intro a b; unfold fix64.Min; split_ifs <;> omega
  refine ⟨⟨?_, ?_, ?_⟩, ⟨?_, ?_, ?_⟩, ⟨?_, ?_, ?_⟩⟩
  · exact hmax32 _ _
  · exact hmax32 _ _
  · exact hmin32 _ _
  · exact hmax64 _ _
  · exact hmax64 _ _
  · exact hmin64 _ _
  · exact hmax64 _ _
  · exact hmax64 _ _
  · exact hmin64 _ _

/-- Failing input for claim C28.  For `v0 = (0, 0, 0)` and `v1 = (0, 0, 1.0)` the third
component of `F32Vec3Max(v0, v1)`, of `F64Vec3Max(v0, v1)` and of `vec3.Max(v0, v1)` is 0,
the smaller of the two inputs, not `1.0`. -/
theorem Vec3Max_third_component_is_min :
    (F32Vec3Max { RawX := 0, RawY := 0, RawZ := 0 } { RawX := 0, RawY := 0, RawZ := 65536 }).RawZ
      = 0 ∧
    (F64Vec3Max { RawX := 0, RawY := 0, RawZ := 0 }
      { RawX := 0, RawY := 0, RawZ := 4294967296 }).RawZ = 0 ∧
    (vec3.Max { RawX := 0, RawY := 0, RawZ := 0 }
      { RawX := 0, RawY := 0, RawZ := 4294967296 }).RawZ = 0 := by
  decide

/-! ### Minimum and maximum of an argument list -/

/-- The loop of `F32Min`: the result is the start value or a list element, and lies at or
below each of them. -/
theorem F32Min_loop (rest : List F32) (first : F32) :
    F32Min first rest ∈ first :: rest ∧ ∀ x ∈ first :: rest, (F32Min first rest).Raw ≤ x.Raw := by
  induction rest generalizing first with
  | nil => simp [F32Min]
  | cons item tl ih =>
    have e : F32Min first (item :: tl) =
        F32Min (if item.Raw < first.Raw then item else first) tl := rfl
    obtain ⟨acc, hacc⟩ : ∃ acc, acc = if item.Raw < first.Raw then item else first :=
      ⟨_, rfl⟩
    have ha : acc.Raw ≤ first.Raw ∧ acc.Raw ≤ item.Raw ∧ (acc = first ∨ acc = item) := by
      rw [hacc]
      split_ifs
      · exact ⟨by omega, by omega, Or.inr rfl⟩
      · exact ⟨by omega, by omega, Or.inl rfl⟩
    rw [e, ← hacc]
    obtain ⟨hm, hle⟩ := ih acc
    have h0 := hle acc (List.mem_cons_self _ _)
    constructor
    · rcases List.mem_cons.mp hm with h | h
      · rcases ha.2.2 with h1 | h1
        · rw [h, h1]; simp
        · rw [h, h1]; simp
      · simp [h]
    · intro x hx
      rcases List.mem_cons.mp hx with h | h
      · subst h; omega
      · rcases List.mem_cons.mp h with h | h
        · subst h; omega
        · exact hle x (List.mem_cons_of_mem _ h)

/-- The loop of `F32Max`: the result is the start value or a list element, and lies at or
above each of them. -/
theorem F32Max_loop (rest : List F32) (first : F32) :
    F32Max first rest ∈ first :: rest ∧ ∀ x ∈ first :: rest, x.Raw ≤ (F32Max first rest).Raw := by
  induction rest generalizing first with
  | nil => simp [F32Max]
  | cons item tl ih =>
    have e : F32Max first (item :: tl) =
        F32Max (if item.Raw > first.Raw then item else first) tl := rfl
    obtain ⟨acc, hacc⟩ : ∃ acc, acc = if item.Raw > first.Raw then item else first :=
      ⟨_, rfl⟩
    have ha : first.Raw ≤ acc.Raw ∧ item.Raw ≤ acc.Raw ∧ (acc = first ∨ acc = item) := by
      rw [hacc]
      split_ifs
      · exact ⟨by omega, by omega, Or.inr rfl⟩
      · exact ⟨by omega, by omega, Or.inl rfl⟩
    rw [e, ← hacc]
    obtain ⟨hm, hle⟩ := ih acc
    have h0 := hle acc (List.mem_cons_self _ _)
    constructor
    · rcases List.mem_cons.mp hm with h | h
      · rcases ha.2.2 with h1 | h1
        · rw [h, h1]; simp
        · rw [h, h1]; simp
      · simp [h]
    · intro x hx
      rcases List.mem_cons.mp hx with h | h
      · subst h; omega
      · rcases List.mem_cons.mp h with h | h
        · subst h; omega
        · exact hle x (List.mem_cons_of_mem _ h)

/-- The loop of `F64Min`: the result is the start value or a list element, and lies at or
below each of them. -/
theorem F64Min_loop (rest : List F64) (first : F64) :
    F64Min first rest ∈ first :: rest ∧ ∀ x ∈ first :: rest, (F64Min first rest).Raw ≤ x.Raw := by
  induction rest generalizing first with
  | nil => simp [F64Min]
  | cons item tl ih =>
    have e : F64Min first (item :: tl) =
        F64Min (if item.Raw < first.Raw then item else first) tl := rfl
    obtain ⟨acc, hacc⟩ : ∃ acc, acc = if item.Raw < first.Raw then item else first :=
      ⟨_, rfl⟩
    have ha : acc.Raw ≤ first.Raw ∧ acc.Raw ≤ item.Raw ∧ (acc = first ∨ acc = item) := by
      rw [hacc]
      split_ifs
      · exact ⟨by omega, by omega, Or.inr rfl⟩
      · exact ⟨by omega, by omega, Or.inl rfl⟩
    rw [e, ← hacc]
    obtain ⟨hm, hle⟩ := ih acc
    have h0 := hle acc (List.mem_cons_self _ _)
    constructor
    · rcases List.mem_cons.mp hm with h | h
      · rcases ha.2.2 with h1 | h1
        · rw [h, h1]; simp
        · rw [h, h1]; simp
      · simp [h]
    · intro x hx
      rcases List.mem_cons.mp hx with h | h
      · subst h; omega
      · rcases List.mem_cons.mp h with h | h
        · subst h; omega
        · exact hle x (List.mem_cons_of_mem _ h)

/-- The loop of `F64Max`: the result is the start value or a list element, and lies at or
above each of them. -/
theorem F64Max_loop (rest : List F64) (first : F64) :
    F64Max first rest ∈ first :: rest ∧ ∀ x ∈ first :: rest, x.Raw ≤ (F64Max first rest).Raw := by
  induction rest generalizing first with
  | nil => simp [F64Max]
  | cons item tl ih =>
    have e : F64Max first (item :: tl) =
        F64Max (if item.Raw > first.Raw then item else first) tl := rfl
    obtain ⟨acc, hacc⟩ : ∃ acc, acc = if item.Raw > first.Raw then item else first :=
      ⟨_, rfl⟩
    have ha : first.Raw ≤ acc.Raw ∧ item.Raw ≤ acc.Raw ∧ (acc = first ∨ acc = item) := by
      rw [hacc]
      split_ifs
      · exact ⟨by omega, by omega, Or.inr rfl⟩
      · exact ⟨by omega, by omega, Or.inl rfl⟩
    rw [e, ← hacc]
    obtain ⟨hm, hle⟩ := ih acc
    have h0 := hle acc (List.mem_cons_self _ _)
    constructor
    · rcases List.mem_cons.mp hm with h | h
      · rcases ha.2.2 with h1 | h1
        · rw [h, h1]; simp
        · rw [h, h1]; simp
      · simp [h]
    · intro x hx
      rcases List.mem_cons.mp hx with h | h
      · subst h; omega
      · rcases List.mem_cons.mp h with h | h
        · subst h; omega
        · exact hle x (List.mem_cons_of_mem _ h)

/-- Claim C29: for every first argument and every (possibly empty) list `rest`,
`F32Min(first, rest...)` returns one of the passed values whose raw is `<=` the raw of every
passed value, and `F32Max` returns one whose raw is `>=` every passed value; the same holds
for `F64Min` and `F64Max`. -/
theorem Min_Max_of_arguments (first32 : F32) (rest32 : List F32) (first64 : F64)
    (rest64 : List F64) :
    (F32Min first32 rest32 ∈ first32 :: rest32 ∧
      ∀ x ∈ first32 :: rest32, (F32Min first32 rest32).Raw ≤ x.Raw) ∧
    (F32Max first32 rest32 ∈ first32 :: rest32 ∧
      ∀ x ∈ first32 :: rest32, x.Raw ≤ (F32Max first32 rest32).Raw) ∧
    (F64Min first64 rest64 ∈ first64 :: rest64 ∧
      ∀ x ∈ first64 :: rest64, (F64Min first64 rest64).Raw ≤ x.Raw) ∧
    (F64Max first64 rest64 ∈ first64 :: rest64 ∧
      ∀ x ∈ first64 :: rest64, x.Raw ≤ (F64Max first64 rest64).Raw) :=
  ⟨F32Min_loop rest32 first32, F32Max_loop rest32 first32, F64Min_loop rest64 first64,
   F64Max_loop rest64 first64⟩

/-! ### Named constants -/

/-- Claim C30: the named constants carry the values they are named for.  In Kernel-64,
`One = 2^32`, `Half = 2^31`, `Neg1 = -One`, and `Pi`, `Pi2` and `PiHalf` differ from
`pi * 2^32`, `2 * pi * 2^32` and `(pi / 2) * 2^32` by less than one raw unit; in Kernel-32,
`One = 2^16` and `Pi`, `Pi2`, `PiHalf`, `E` are the Kernel-64 constants shifted right by 16
bits. -/
theorem named_constants :
    (fix64.One = 2 ^ 32 ∧ fix64.Half = 2 ^ 31 ∧ fix64.Neg1 = -fix64.One) ∧
    (|((fix64.Pi : Int) : ℝ) - Real.pi * 2 ^ 32| < 1 ∧
      |((fix64.Pi2 : Int) : ℝ) - 2 * Real.pi * 2 ^ 32| < 1 ∧
      |((fix64.PiHalf : Int) : ℝ) - Real.pi / 2 * 2 ^ 32| < 1) ∧
    (fix32.One = 2 ^ 16 ∧ fix32.Pi = fix64.Pi >>> (16 : Nat) ∧
      fix32.Pi2 = fix64.Pi2 >>> (16 : Nat) ∧ fix32.PiHalf = fix64.PiHalf >>> (16 : Nat) ∧
      fix32.E = fix64.E >>> (16 : Nat)) := by
  have h1 := Real.pi_gt_d20
  have h2 := Real.pi_lt_d20
  norm_num at h1 h2
  refine ⟨⟨rfl, rfl, by decide⟩, ⟨?_, ?_, ?_⟩, ⟨rfl, by decide, by decide, by decide, by decide⟩⟩
  · rw [abs_lt]
    simp only [fix64.Pi]
    push_cast
    constructor <;> linarith
  · rw [abs_lt]
    simp only [fix64.Pi2]
    push_cast
    constructor <;> linarith
  · rw [abs_lt]
    simp only [fix64.PiHalf]
    push_cast
    constructor <;> linarith

/-! ### Mantissa normalisation in Kernel-64 -/

/-- The polynomial of the `Sqrt` tiers is evaluated at `normMantissa x - ONE` only: two
polynomials that agree there give the same result. -/
theorem sqrtBody_poly_argument (U : fixutil.Approx) (p1 p2 : Int → Int) (x : Int)
    (h : p1 (isub32 (fix64.normMantissa x) (2 ^ 30)) = p2 (isub32 (fix64.normMantissa x) (2 ^ 30))) :
    fix64.sqrtBody U p1 x = fix64.sqrtBody U p2 x := by
  unfold fix64.sqrtBody
  unfold fix64.normMantissa at h
  simp only at h ⊢
  rw [h]

/-- The polynomial of the `Log` tiers is evaluated at `normMantissa x - ONE` only. -/
theorem logBody_poly_argument (p1 p2 : Int → Int) (x : Int)
    (h : p1 (isub32 (fix64.normMantissa x) (2 ^ 30)) = p2 (isub32 (fix64.normMantissa x) (2 ^ 30))) :
    fix64.logBody p1 x = fix64.logBody p2 x := by
  unfold fix64.logBody
  unfold fix64.normMantissa at h
  simp only at h ⊢
  rw [h]

/-- The normalised mantissa of Kernel-64 always lies in `[-2^29, 2^29)`: the value is
truncated to `int32` before the shift by 2, so it never reaches `2^30`. -/
theorem normMantissa_range (x : Int) :
    -2 ^ 29 ≤ fix64.normMantissa x ∧ fix64.normMantissa x < 2 ^ 29 := by
  unfold fix64.normMantissa
  simp only
  split_ifs
  · generalize x >>> (31 - (fix64.nlz (toU64 x) : Int)).toNat = r
    rw [Int.shiftRight_eq_div_pow]
    unfold wrap32
    omega
  · generalize ishl64 x (ineg32 (31 - (fix64.nlz (toU64 x) : Int))).toNat = r
    rw [Int.shiftRight_eq_div_pow]
    unfold wrap32
    omega

/-- Failing input for claim C31.  At `x = One` (the number 1.0) the normalised mantissa is 0,
not a value of `[2^30, 2^31)`: `nlz` is 31, `offset` is 0, `int32(x >> 0)` drops bit 32 and
leaves 0.  At `x = 1.5` it is `-2^29`. -/
theorem normMantissa_not_normalised :
    fix64.normMantissa fix64.One = 0 ∧ fix64.normMantissa 6442450944 = -2 ^ 29 ∧
    ¬ (2 ^ 30 ≤ fix64.normMantissa fix64.One ∧ fix64.normMantissa fix64.One < 2 ^ 31) := by
  decide

/-! ### The quadrant fold of the sine -/

/-- Bit 31 of a 32-bit pattern is its sign as `int32`. -/
theorem toI32_neg_iff (n : Nat) (hn : n < 2 ^ 32) : toI32 n < 0 ↔ n.testBit 31 = true := by
  rw [Nat.testBit_to_div_mod]
  unfold toI32 wrap32
  simp only [decide_eq_true_eq]
  omega

/-- Bit 31 of the pattern of an `int32` value is set exactly when the value is negative. -/
theorem toU32_testBit_31 (a : Int) (ha : isInt32 a) : (toU32 a).testBit 31 = true ↔ a < 0 := by
  unfold isInt32 at ha
  rw [Nat.testBit_to_div_mod]
  unfold toU32
  simp only [decide_eq_true_eq]
  omega

/-- The sign of the exclusive or of two `int32` values. -/
theorem xor32_neg_iff (a b : Int) (ha : isInt32 a) (hb : isInt32 b) :
    xor32 a b < 0 ↔ ¬ (a < 0 ↔ b < 0) := by
  have hna : toU32 a < 2 ^ 32 := by unfold toU32; omega
  have hnb : toU32 b < 2 ^ 32 := by unfold toU32; omega
  unfold xor32
  rw [toI32_neg_iff _ (Nat.xor_lt_two_pow hna hnb), Nat.testBit_xor]
  have h1 := toU32_testBit_31 a ha
  have h2 := toU32_testBit_31 b hb
  by_cases p : a < 0 <;> by_cases q : b < 0 <;> simp_all <;> omega

/-- The quadrant fold maps every `int32` value into `[-2^30, 2^30]`. -/
theorem unitSinMirror_range (z : Int) (hz : isInt32 z) :
    -2 ^ 30 ≤ fix32.unitSinMirror z ∧ fix32.unitSinMirror z ≤ 2 ^ 30 := by
  have hs : isInt32 (ishl32 z 1) := by unfold isInt32 ishl32 wrap32; omega
  have hx := xor32_neg_iff z (ishl32 z 1) hz hs
  unfold isInt32 at hz
  unfold fix32.unitSinMirror
  split_ifs with h
  · rw [hx] at h
    unfold ishl32 wrap32 at h
    unfold wrap32
    omega
  · rw [hx] at h
    unfold ishl32 wrap32 at h
    omega

/-- Claim C33: the quadrant-mirroring step of `UnitSin` folds every input into `[-1, 1]` in
s2.30.  For every `int32` `z`, the value `z'` used by the polynomial (`int32(2^31 - z)` when
`(z ^ (z << 1)) < 0`, i.e. when the top two bits of `z` differ, and `z` otherwise)
satisfies `-2^30 <= z' <= 2^30`, in `fix32.UnitSin` and in `fix64.unitSin`; and the
condition holds exactly when `z` lies outside `[-2^30, 2^30)`. -/
theorem unitSin_fold (z : Int) (hz : isInt32 z) :
    (-2 ^ 30 ≤ fix32.unitSinMirror z ∧ fix32.unitSinMirror z ≤ 2 ^ 30) ∧
    (-2 ^ 30 ≤ fix64.unitSinMirror z ∧ fix64.unitSinMirror z ≤ 2 ^ 30) ∧
    (xor32 z (ishl32 z 1) < 0 ↔ (z < -2 ^ 30 ∨ 2 ^ 30 ≤ z)) ∧
    (∀ U : fixutil.Approx,
      fix32.UnitSin U z =
        U.Qmul30 (U.SinPoly4 (U.Qmul30 (fix32.unitSinMirror z) (fix32.unitSinMirror z)))
          (fix32.unitSinMirror z) ∧
      fix64.unitSin U z =
        U.Qmul30 (U.SinPoly4 (U.Qmul30 (fix64.unitSinMirror z) (fix64.unitSinMirror z)))
          (fix64.unitSinMirror z)) := by
  have h64 : fix64.unitSinMirror z = fix32.unitSinMirror z := rfl
  rw [h64]
  refine ⟨unitSinMirror_range z hz, unitSinMirror_range z hz, ?_, fun U => ⟨rfl, rfl⟩⟩
  have hs : isInt32 (ishl32 z 1) := by unfold isInt32 ishl32 wrap32; omega
  rw [xor32_neg_iff z (ishl32 z 1) hz hs]
  unfold isInt32 at hz
  unfold ishl32 wrap32
  omega

/-- Instances of claim C33 at the quadrant boundaries `2^30` (mirrored to `2^30`) and
`-2^31` (mirrored to 0). -/
theorem unitSin_fold_witness :
    (fix32.unitSinMirror (2 ^ 30) ≤ 2 ^ 30 ∧ -2 ^ 30 ≤ fix32.unitSinMirror (-2 ^ 31)) ∧
    fix64.unitSinMirror (2 ^ 31 - 1) ≤ 2 ^ 30 :=
  ⟨⟨(unitSin_fold (2 ^ 30) (by decide)).1.2, (unitSin_fold (-2 ^ 31) (by decide)).1.1⟩,
   (unitSin_fold (2 ^ 31 - 1) (by decide)).2.1.2⟩

/-! ### The default division tier of Kernel-32 -/

/-- Claim C36: in Kernel-32 the default division tier is the precise one.
`fix32.Div(a, b) = fix32.DivPrecise(a, b)` for all `a` and `b`, and for an `int32` dividend
and a divisor other than 0 and `MinValue` it is the exact quotient of `a * 2^16` by `b`
truncated toward zero and narrowed to `int32`, not a polynomial approximation. -/
theorem fix32_Div_is_precise (a b : Int) :
    fix32.Div a b = fix32.DivPrecise a b ∧
    (isInt32 a → b ≠ 0 → b ≠ fix32.MinValue →
      fix32.Div a b = wrap32 (Int.tdiv (a * 2 ^ 16) b)) := by
  have h : fix32.Div a b = fix32.DivPrecise a b := rfl
  refine ⟨h, ?_⟩
  intro ha hb0 hbm
  unfold isInt32 at ha
  have h1 : ishl64 a 16 = a * 2 ^ 16 := by
    unfold ishl64 wrap64
    omega
  have h2 : idiv64 (a * 2 ^ 16) b = Int.tdiv (a * 2 ^ 16) b := by
    have hle : (Int.tdiv (a * 2 ^ 16) b).natAbs ≤ (a * 2 ^ 16).natAbs := by
      rw [Int.natAbs_tdiv]
      exact Nat.div_le_self _ _
    unfold idiv64 wrap64
    omega
  unfold fix32.Div
  rw [if_neg (by tauto), h1, h2]

/-- An instance of claim C36: `7 / 3` on raw values. -/
theorem fix32_Div_is_precise_witness :
    fix32.Div 7 3 = fix32.DivPrecise 7 3 ∧ fix32.Div 7 3 = wrap32 (Int.tdiv (7 * 2 ^ 16) 3) :=
  ⟨(fix32_Div_is_precise 7 3).1,
   (fix32_Div_is_precise 7 3).2 (by decide) (by decide) (by decide)⟩

/-! ### The exponential near its clamp -/

/-- Function `fix64.Exp2` in the last unit below its clamp: for `31*One <= x < 32*One` and
a fractional-part polynomial with values in `[2^30, 2^31)` the final left shift is by 31 and
wraps, so the result is negative. -/
theorem fix64_Exp2_below_clamp (poly : Int → Int)
    (hp : ∀ k, 2 ^ 30 ≤ poly k ∧ poly k < 2 ^ 31) (x : Int)
    (h0 : 31 * fix64.One ≤ x) (h1 : x < 32 * fix64.One) : fix64.exp2Body poly x < 0 := by
  have hone : fix64.One = 4294967296 := rfl
  rw [hone] at h0 h1
  have hi : wrap32 (x >>> fix64.Shift) = 31 := by
    unfold fix64.Shift
    rw [Int.shiftRight_eq_div_pow]
    unfold wrap32
    omega
  unfold fix64.exp2Body
  rw [if_neg (by rw [hone]; omega), if_neg (by rw [hone]; omega)]
  simp only [hi]
  rw [if_pos (by norm_num)]
  have e : (31 : Int).toNat = 31 := rfl
  rw [e]
  obtain ⟨p0, p1⟩ := hp (wrap32 (and64 x fix64.FractionMask >>> (2 : Nat)))
  generalize poly (wrap32 (and64 x fix64.FractionMask >>> (2 : Nat))) = p at p0 p1
  unfold ishl64 wrap64
  omega

/-- Failing input for claim C32.  For every fractional-part polynomial with values in
`[2^30, 2^31)`, `fix64.Exp2(x)` is negative for every `x` with `31*One <= x < 32*One`, for
instance at `x = 31*One` (the number 31.0): the clamp at `32*One` lets the exponent 31
through, and `y << 31` with `y` in `[2^32, 2^33)` overflows. -/
theorem fix64_Exp2_wraps_below_clamp (U : fixutil.Approx)
    (hp : ∀ k, 2 ^ 30 ≤ U.Exp2Poly5 k ∧ U.Exp2Poly5 k < 2 ^ 31) :
    fix64.Exp2 U (31 * fix64.One) < 0 ∧
    ∀ x, 31 * fix64.One ≤ x → x < 32 * fix64.One → fix64.Exp2 U x < 0 :=
  ⟨fix64_Exp2_below_clamp U.Exp2Poly5 hp _ (le_refl _) (by decide),
   fun x h0 h1 => fix64_Exp2_below_clamp U.Exp2Poly5 hp x h0 h1⟩

/-- The failing input of claim C32 with the polynomial that is constantly `2^30` (the
value 1.0): `Exp2(31.0)` is negative. -/
theorem fix64_Exp2_wraps_below_clamp_witness :
    fix64.Exp2 (fixutil.constApprox (2 ^ 30)) (31 * fix64.One) < 0 :=
  (fix64_Exp2_wraps_below_clamp (fixutil.constApprox (2 ^ 30))
    (fun _ => ⟨(by decide : (2 : Int) ^ 30 ≤ 2 ^ 30), (by decide : (2 : Int) ^ 30 < 2 ^ 31)⟩)).1

/-! ### The exponential of large arguments -/

/-- Function `fix32.Mul` as a floor: only the narrowing wraps. -/
theorem fix32_Mul_floor (a b : Int) (ha : isInt32 a) (hb : isInt32 b) :
    fix32.Mul a b = wrap32 (a * b / 2 ^ 16) := by
  unfold isInt32 at ha hb
  have hna : a.natAbs ≤ 2 ^ 31 := by omega
  have hnb : b.natAbs ≤ 2 ^ 31 := by omega
  have hab : (a * b).natAbs ≤ 2 ^ 31 * 2 ^ 31 := by
    rw [Int.natAbs_mul]
    exact Nat.mul_le_mul hna hnb
  have h1 : imul64 a b = a * b := by
    unfold imul64 wrap64
    omega
  unfold fix32.Mul
  rw [h1, Int.shiftRight_eq_div_pow]
  rfl

/-- Function `fix64.Mul` as a floor, wrapped to 64 bits. -/
theorem fix64_Mul_floor (a b : Int) : fix64.Mul a b = wrap64 (a * b / 2 ^ 32) := by
  unfold fix64.Mul
  simp only [and64_FractionMask, Int.shiftRight_eq_div_pow]
  have ha := Int.ediv_add_emod a 4294967296
  have hb := Int.ediv_add_emod b 4294967296
  have haf0 := Int.emod_nonneg a (show (4294967296 : Int) ≠ 0 by norm_num)
  have haf1 := Int.emod_lt_of_pos a (show (0 : Int) < 4294967296 by norm_num)
  have hbf0 := Int.emod_nonneg b (show (4294967296 : Int) ≠ 0 by norm_num)
  have hbf1 := Int.emod_lt_of_pos b (show (0 : Int) < 4294967296 by norm_num)
  push_cast
  generalize a / 4294967296 = ai at *
  generalize a % 4294967296 = af at *
  generalize b / 4294967296 = bi at *
  generalize b % 4294967296 = bf at *
  have hp0 : 0 ≤ af * bf := mul_nonneg haf0 hbf0
  have hp1 : af * bf < 2 ^ 64 := by nlinarith
  have hl := lsr_fraction_product (af * bf) hp0 hp1
  have e1 : imul64 (af * bf) 1 = imul64 af bf := by unfold imul64; rw [mul_one]
  rw [e1] at hl
  rw [hl]
  have hprod : a * b = af * bf + 4294967296 * (ai * b + af * bi) := by
    linear_combination (-b) * ha + (-af) * hb
  rw [hprod, Int.add_mul_ediv_left _ _ (by norm_num)]
  unfold iadd64 imul64 wrap64
  omega

/-- Function `fix32.Exp` on large arguments: `MaxValue` while the product `x * RcpLn2` fits
in `int32`, and 0 once it wraps. -/
theorem fix32_Exp_large (U : fixutil.Approx) (x : Int) (hx : isInt32 x)
    (h11 : 11 * fix32.One ≤ x) :
    (x ≤ 1488529512 → fix32.Exp U x = fix32.MaxValue) ∧
    (1488529512 < x → fix32.Exp U x = 0) := by
  have hone : fix32.One = 65536 := rfl
  have hr : fix32.RcpLn2 = 94548 := rfl
  have hm : fix32.Mul x fix32.RcpLn2 = wrap32 (x * 94548 / 65536) :=
    fix32_Mul_floor x fix32.RcpLn2 hx (by decide)
  rw [hone] at h11
  unfold isInt32 at hx
  unfold fix32.Exp fix32.Exp2 fix32.exp2Body
  rw [hm, hone]
  obtain ⟨m, hmd⟩ : ∃ m, m = x * 94548 / 65536 := ⟨_, rfl⟩
  rw [← hmd]
  constructor
  · intro hle
    have hm1 : 983040 ≤ m := by
      rw [hmd]; exact Int.le_ediv_of_mul_le (by norm_num) (by omega)
    have hm2 : m < 2147483648 := by
      rw [hmd]; exact Int.ediv_lt_of_lt_mul (by norm_num) (by omega)
    clear hmd
    rw [if_pos (by unfold wrap32; omega)]
  · intro hgt
    have hm1 : 2147483648 ≤ m := by
      rw [hmd]; exact Int.le_ediv_of_mul_le (by norm_num) (by omega)
    have hm2 : m < 4293918720 := by
      rw [hmd]; exact Int.ediv_lt_of_lt_mul (by norm_num) (by omega)
    clear hmd
    rw [if_neg (by unfold wrap32; omega), if_pos (by unfold wrap32; omega)]

/-- Function `fix64.Exp` on large arguments: `MaxValue` while the product `x * RcpLn2` fits
in `int64`, and 0 once it wraps. -/
theorem fix64_Exp_large (U : fixutil.Approx) (x : Int) (hx : isInt64 x)
    (h23 : 23 * fix64.One ≤ x) :
    (x ≤ 6393154323343662726 → fix64.Exp U x = fix64.MaxValue) ∧
    (6393154323343662726 < x → fix64.Exp U x = 0) := by
  have hone : fix64.One = 4294967296 := rfl
  have hr : fix64.RcpLn2 = 6196328018 := rfl
  have hm : fix64.Mul x fix64.RcpLn2 = wrap64 (x * 6196328018 / 4294967296) :=
    fix64_Mul_floor x fix64.RcpLn2
  rw [hone] at h23
  unfold isInt64 at hx
  unfold fix64.Exp fix64.Exp2 fix64.exp2Body
  rw [hm, hone]
  obtain ⟨m, hmd⟩ : ∃ m, m = x * 6196328018 / 4294967296 := ⟨_, rfl⟩
  rw [← hmd]
  constructor
  · intro hle
    have hm1 : 137438953472 ≤ m := by
      rw [hmd]; exact Int.le_ediv_of_mul_le (by norm_num) (by omega)
    have hm2 : m < 9223372036854775808 := by
      rw [hmd]; exact Int.ediv_lt_of_lt_mul (by norm_num) (by omega)
    clear hmd
    rw [if_pos (by unfold wrap64; omega)]
  · intro hgt
    have hm1 : 9223372036854775808 ≤ m := by
      rw [hmd]; exact Int.le_ediv_of_mul_le (by norm_num) (by omega)
    have hm2 : m < 18446743936270598144 := by
      rw [hmd]; exact Int.ediv_lt_of_lt_mul (by norm_num) (by omega)
    clear hmd
    rw [if_neg (by unfold wrap64; omega), if_pos (by unfold wrap64; omega)]

/-- Counterexample to claim C35: at `x = MaxValue`, which is above `11*One` (resp.
`23*One`), `fix32.Exp` and `fix64.Exp` return 0, not `MaxValue`. -/
theorem Exp_of_MaxValue_is_zero :
    (11 * fix32.One ≤ fix32.MaxValue ∧ fix32.Exp fixutil.zeroApprox fix32.MaxValue = 0) ∧
    (23 * fix64.One ≤ fix64.MaxValue ∧ fix64.Exp fixutil.zeroApprox fix64.MaxValue = 0) :=
  ⟨⟨by decide, (fix32_Exp_large fixutil.zeroApprox fix32.MaxValue (by decide) (by decide)).2
      (by decide)⟩,
   ⟨by decide, (fix64_Exp_large fixutil.zeroApprox fix64.MaxValue (by decide) (by decide)).2
      (by decide)⟩⟩

/-- Claim C35, amended: `Exp` inherits the saturation of `Exp2` as long as the product
`x * RcpLn2` does not wrap.  For every `int32` `x` with `11*One <= x <= 1488529512`,
`fix32.Exp(x) = MaxValue`, and for every larger `int32` `x` the product wraps to a negative
value and `fix32.Exp(x) = 0`; for every `int64` `x` with
`23*One <= x <= 6393154323343662726`, `fix64.Exp(x) = MaxValue`, and for every larger
`int64` `x`, `fix64.Exp(x) = 0`. -/
theorem Exp_saturates_until_the_product_wraps (U : fixutil.Approx) (x : Int) :
    (isInt32 x → 11 * fix32.One ≤ x →
      (x ≤ 1488529512 → fix32.Exp U x = fix32.MaxValue) ∧
      (1488529512 < x → fix32.Exp U x = 0)) ∧
    (isInt64 x → 23 * fix64.One ≤ x →
      (x ≤ 6393154323343662726 → fix64.Exp U x = fix64.MaxValue) ∧
      (6393154323343662726 < x → fix64.Exp U x = 0)) :=
  ⟨fun hx h => fix32_Exp_large U x hx h, fun hx h => fix64_Exp_large U x hx h⟩

/-- Instances of the amended claim C35 at `11.0` in Kernel-32 and `23.0` in Kernel-64. -/
theorem Exp_saturates_until_the_product_wraps_witness :
    fix32.Exp fixutil.zeroApprox (11 * fix32.One) = fix32.MaxValue ∧
    fix64.Exp fixutil.zeroApprox (23 * fix64.One) = fix64.MaxValue :=
  ⟨((Exp_saturates_until_the_product_wraps fixutil.zeroApprox (11 * fix32.One)).1
      (by decide) (by decide)).1 (by decide),
   ((Exp_saturates_until_the_product_wraps fixutil.zeroApprox (23 * fix64.One)).2
      (by decide) (by decide)).1 (by decide)⟩

/-! ### The two interpolation entry points of Kernel-32 -/

/-- Counterexample to claim C37: for raw values `f = b = 1` and `t = 1`, `f.Lerp(b, t)` has
raw 0 while `fix32.Lerp(1, 1, 1)` is 1; in particular interpolating between two equal values
does not return that value. -/
theorem F32_Lerp_differs_from_kernel :
    (F32.Lerp { Raw := 1 } { Raw := 1 } { Raw := 1 }).Raw = 0 ∧ fix32.Lerp 1 1 1 = 1 ∧
    F32.Lerp { Raw := 1 } { Raw := 1 } { Raw := 1 } ≠ { Raw := 1 } := by
  decide

/-- A bound on the product of an `int32` value with a 33-bit value. -/
theorem mul_bound (a c : Int) (ha : isInt32 a) (hc0 : -2 ^ 32 ≤ c) (hc1 : c ≤ 2 ^ 32) :
    -2 ^ 63 ≤ a * c ∧ a * c ≤ 2 ^ 63 := by
  unfold isInt32 at ha
  have hna : a.natAbs ≤ 2 ^ 31 := by omega
  have hnc : c.natAbs ≤ 2 ^ 32 := by omega
  have hac : (a * c).natAbs ≤ 2 ^ 31 * 2 ^ 32 := by
    rw [Int.natAbs_mul]
    exact Nat.mul_le_mul hna hnc
  omega

/-- Function `fix32.Lerp` as a floor: `int32(floor((a * (One - t) + b * t) / 2^16))`. -/
theorem fix32_Lerp_floor (a b t : Int) (ha : isInt32 a) (hb : isInt32 b) (ht : isInt32 t) :
    fix32.Lerp a b t = wrap32 ((a * (65536 - t) + b * t) / 65536) := by
  have hX := mul_bound a (65536 - t) ha (by unfold isInt32 at ht; omega)
    (by unfold isInt32 at ht; omega)
  have hY := mul_bound b t hb (by unfold isInt32 at ht; omega) (by unfold isInt32 at ht; omega)
  have hX' : (a * (65536 - t)).natAbs ≤ 2 ^ 31 * (2 ^ 31 + 2 ^ 16) := by
    unfold isInt32 at ha ht
    rw [Int.natAbs_mul]
    exact Nat.mul_le_mul (by omega) (by omega)
  have hY' : (b * t).natAbs ≤ 2 ^ 31 * 2 ^ 31 := by
    unfold isInt32 at hb ht
    rw [Int.natAbs_mul]
    exact Nat.mul_le_mul (by omega) (by omega)
  have hsub : isub64 fix32.One t = 65536 - t := by
    unfold isInt32 at ht
    unfold isub64 wrap64 fix32.One
    omega
  have e : fix32.Lerp a b t =
      wrap32 ((iadd64 (imul64 a (isub64 fix32.One t)) (imul64 b t)) >>> fix32.Shift) := rfl
  rw [e, hsub, Int.shiftRight_eq_div_pow]
  unfold fix32.Shift iadd64 imul64
  generalize a * (65536 - t) = X at *
  generalize b * t = Y at *
  have e16 : (((2 : Nat) ^ 16 : Nat) : Int) = 65536 := by norm_num
  rw [e16]
  unfold wrap64 wrap32
  omega

/-- Claim C37, amended: the two Kernel-32 interpolation entry points agree up to one raw
unit.  For all `int32` raws `f`, `b`, `t` with `t > MinValue + One` (so that `One - t` does
not wrap), `f.Lerp(b, t).Raw` is `fix32.Lerp(f.Raw, b.Raw, t.Raw)` or that value minus one
(wrapped): the method floors the two products separately, the kernel floors their sum.
Interpolating between two equal values with `0 <= t <= One` returns that value from
`fix32.Lerp`, and that value or one raw unit less from the method. -/
theorem F32_Lerp_within_one_unit (f b t : F32) (hf : isInt32 f.Raw) (hb : isInt32 b.Raw)
    (ht : isInt32 t.Raw) (hlo : fix32.MinValue + fix32.One < t.Raw) :
    ((F32.Lerp f b t).Raw = fix32.Lerp f.Raw b.Raw t.Raw ∨
      (F32.Lerp f b t).Raw = wrap32 (fix32.Lerp f.Raw b.Raw t.Raw - 1)) ∧
    (0 ≤ t.Raw → t.Raw ≤ fix32.One →
      fix32.Lerp f.Raw f.Raw t.Raw = f.Raw ∧
      ((F32.Lerp f f t).Raw = f.Raw ∨ (F32.Lerp f f t).Raw = wrap32 (f.Raw - 1))) := by
  obtain ⟨fr⟩ := f
  obtain ⟨br⟩ := b
  obtain ⟨tr⟩ := t
  simp only at hf hb ht hlo ⊢
  have hmin : fix32.MinValue = -2147483648 := rfl
  have hone : fix32.One = 65536 := rfl
  rw [hmin, hone] at hlo
  have hta : isub32 fix32.One tr = 65536 - tr := by
    unfold isInt32 at ht
    unfold isub32 wrap32 fix32.One
    omega
  have hta32 : isInt32 (65536 - tr) := by unfold isInt32 at ht ⊢; omega
  have key : ∀ a c : Int, isInt32 a → isInt32 c →
      ((F32.Lerp { Raw := a } { Raw := c } { Raw := tr }).Raw = fix32.Lerp a c tr ∨
       (F32.Lerp { Raw := a } { Raw := c } { Raw := tr }).Raw = wrap32 (fix32.Lerp a c tr - 1)) := by
    intro a c ha hc
    have e : (F32.Lerp { Raw := a } { Raw := c } { Raw := tr }).Raw =
        iadd32 (fix32.Mul a (isub32 fix32.One tr)) (fix32.Mul c tr) := rfl
    rw [e, hta, fix32_Mul_floor a _ ha hta32, fix32_Mul_floor c _ hc ht,
      fix32_Lerp_floor a c tr ha hc ht]
    norm_num
    generalize a * (65536 - tr) = X
    generalize c * tr = Y
    unfold iadd32 wrap32
    omega
  refine ⟨key fr br hf hb, ?_⟩
  intro h0 h1
  rw [hone] at h1
  have hk : fix32.Lerp fr fr tr = fr := by
    rw [fix32_Lerp_floor fr fr tr hf hf ht]
    have e : fr * (65536 - tr) + fr * tr = fr * 65536 := by ring
    rw [e, Int.mul_ediv_cancel _ (by norm_num)]
    unfold isInt32 at hf
    unfold wrap32
    omega
  refine ⟨hk, ?_⟩
  have h := key fr fr hf hf
  rw [hk] at h
  exact h

/-- Instances of the amended claim C37: at raw `f = b = 3`, `t = 0.5` the kernel returns 3
and the method 2; at `f = b = 1.0` both return `1.0`. -/
theorem F32_Lerp_within_one_unit_witness :
    ((F32.Lerp { Raw := 3 } { Raw := 3 } { Raw := 32768 }).Raw = 3 ∨
      (F32.Lerp { Raw := 3 } { Raw := 3 } { Raw := 32768 }).Raw = wrap32 (3 - 1)) ∧
    fix32.Lerp 65536 65536 32768 = 65536 :=
  ⟨((F32_Lerp_within_one_unit { Raw := 3 } { Raw := 3 } { Raw := 32768 } (by decide) (by decide)
      (by decide) (by decide)).2 (by decide) (by decide)).2,
   ((F32_Lerp_within_one_unit { Raw := 65536 } { Raw := 65536 } { Raw := 32768 } (by decide)
      (by decide) (by decide) (by decide)).2 (by decide) (by decide)).1⟩

/-! ### Symmetry of the arc tangent in Kernel-32 -/

/-- Exclusive or of the all-zero word with any value is that value's `int32` pattern. -/
theorem xor32_zero_left (w : Int) : xor32 0 w = wrap32 w := by
  have h0 : toU32 0 = 0 := by decide
  unfold xor32
  rw [h0, Nat.zero_xor]
  unfold toI32 toU32 wrap32
  omega

/-- Exclusive or of the all-ones word with any value is the bitwise complement of that
value's `int32` pattern. -/
theorem xor32_neg_one_left (w : Int) : xor32 (-1) w = -(wrap32 w) - 1 := by
  have h1 : toU32 (-1) = 2 ^ 32 - 1 := by decide
  have hn : toU32 w < 2 ^ 32 := by unfold toU32; omega
  unfold xor32
  rw [h1, Nat.xor_comm, xor_all_ones 32 _ hn]
  unfold toI32 toU32 wrap32
  omega

/-- The sign mask `(x ^ y) >> 31` of two `int32` values. -/
theorem negMask_eq (x y : Int) (hx : isInt32 x) (hy : isInt32 y) :
    xor32 x y >>> (31 : Nat) = if (x < 0 ↔ y < 0) then 0 else -1 := by
  have hs := xor32_neg_iff x y hx hy
  have hr : isInt32 (xor32 x y) := by
    unfold xor32 toI32 isInt32 wrap32
    omega
  unfold isInt32 at hr
  rw [Int.shiftRight_eq_div_pow]
  split_ifs with h
  · have : ¬ xor32 x y < 0 := fun hneg => (hs.mp hneg) h
    omega
  · have : xor32 x y < 0 := hs.mpr h
    omega

/-- The first branch of `fix32.Atan2` at `(y, x)` and `(-y, x)` for `0 < y <= x`, in terms
of the shifted polynomial value. -/
theorem fix32_Atan2_first_branch (U : fixutil.Approx) (x y : Int) (hx : isInt32 x)
    (hy : isInt32 y) (h0 : 0 < y) (h1 : y ≤ x) :
    fix32.Atan2 U y x = wrap32 (U.AtanPoly5Lut8 (fix32.Atan2Div U y x) >>> (14 : Nat)) ∧
    fix32.Atan2 U (-y) x =
      wrap32 (-(wrap32 (U.AtanPoly5Lut8 (fix32.Atan2Div U y x) >>> (14 : Nat)))) := by
  have hx0 : x ≠ 0 := by omega
  have hxp : x > 0 := by omega
  have hny : isInt32 (-y) := by unfold isInt32 at hy ⊢; omega
  have hminx : x ≠ fix32.MinValue := by unfold fix32.MinValue; omega
  have hminy : y ≠ fix32.MinValue := by unfold fix32.MinValue; omega
  have hminny : -y ≠ fix32.MinValue := by unfold isInt32 at hy; unfold fix32.MinValue; omega
  have ax : fix32.Abs x = x := by rw [fix32_Abs_eq x hx hminx, abs_of_pos hxp]
  have ay : fix32.Abs y = y := by rw [fix32_Abs_eq y hy hminy, abs_of_pos h0]
  have any : fix32.Abs (-y) = y := by rw [fix32_Abs_eq (-y) hny hminny, abs_neg, abs_of_pos h0]
  have m1 : xor32 x y >>> (31 : Nat) = 0 := by
    rw [negMask_eq x y hx hy, if_pos (by constructor <;> intro <;> omega)]
  have m2 : xor32 x (-y) >>> (31 : Nat) = -1 := by
    rw [negMask_eq x (-y) hx hny, if_neg (by intro h; have := h.mpr (by omega); omega)]
  constructor
  · unfold fix32.Atan2
    simp only [if_neg hx0, ax, ay, m1, ge_iff_le, if_pos h1, if_pos hxp, xor32_zero_left]
    unfold isub32 wrap32
    omega
  · unfold fix32.Atan2
    simp only [if_neg hx0, ax, any, m2, ge_iff_le, if_pos h1, if_pos hxp, xor32_neg_one_left]
    unfold isub32
    generalize wrap32 (U.AtanPoly5Lut8 (fix32.Atan2Div U y x) >>> (14 : Nat)) = W
    have e : -W - 1 - -1 = -W := by omega
    rw [e]

/-- The first branch of the common body of `fix32.Atan2Fast` and `fix32.Atan2Fastest` at
`(y, x)` and `(-y, x)` for `0 < y <= x`. -/
theorem fix32_atan2Body_first_branch (div : Int → Int → Int) (poly : Int → Int) (x y : Int)
    (hx : isInt32 x) (hy : isInt32 y) (h0 : 0 < y) (h1 : y ≤ x) :
    fix32.atan2Body div poly y x = wrap32 (poly (div y x) >>> (14 : Nat)) ∧
    fix32.atan2Body div poly (-y) x = -(wrap32 (poly (div y x) >>> (14 : Nat))) - 1 := by
  have hx0 : x ≠ 0 := by omega
  have hxp : x > 0 := by omega
  have hny : isInt32 (-y) := by unfold isInt32 at hy ⊢; omega
  have hminx : x ≠ fix32.MinValue := by unfold fix32.MinValue; omega
  have hminy : y ≠ fix32.MinValue := by unfold fix32.MinValue; omega
  have hminny : -y ≠ fix32.MinValue := by unfold isInt32 at hy; unfold fix32.MinValue; omega
  have ax : fix32.Abs x = x := by rw [fix32_Abs_eq x hx hminx, abs_of_pos hxp]
  have ay : fix32.Abs y = y := by rw [fix32_Abs_eq y hy hminy, abs_of_pos h0]
  have any : fix32.Abs (-y) = y := by rw [fix32_Abs_eq (-y) hny hminny, abs_neg, abs_of_pos h0]
  have m1 : xor32 x y >>> (31 : Nat) = 0 := by
    rw [negMask_eq x y hx hy, if_pos (by constructor <;> intro <;> omega)]
  have m2 : xor32 x (-y) >>> (31 : Nat) = -1 := by
    rw [negMask_eq x (-y) hx hny, if_neg (by intro h; have := h.mpr (by omega); omega)]
  constructor
  · unfold fix32.atan2Body
    simp only [if_neg hx0, ax, ay, m1, ge_iff_le, if_pos h1, if_pos hxp, xor32_zero_left]
  · unfold fix32.atan2Body
    simp only [if_neg hx0, ax, any, m2, ge_iff_le, if_pos h1, if_pos hxp, xor32_neg_one_left]

/-- Counterexample to claim C38: with the polynomial helpers returning 0, at `x = 1`,
`y = 1`, `Atan2Fast(1, 1) = 0` but `Atan2Fast(-1, 1) = -1`, and the same for
`Atan2Fastest`. -/
theorem Atan2Fast_not_odd :
    (fix32.Atan2Fast fixutil.zeroApprox 1 1 = 0 ∧ fix32.Atan2Fast fixutil.zeroApprox (-1) 1 = -1) ∧
    (fix32.Atan2Fastest fixutil.zeroApprox 1 1 = 0 ∧
      fix32.Atan2Fastest fixutil.zeroApprox (-1) 1 = -1) := by
  have h1 := fix32_atan2Body_first_branch (fix32.Atan2DivFast fixutil.zeroApprox)
    fixutil.zeroApprox.AtanPoly3Lut8 1 1 (by decide) (by decide) (by decide) (by decide)
  have h2 := fix32_atan2Body_first_branch (fix32.Atan2DivFastest fixutil.zeroApprox)
    fixutil.zeroApprox.AtanPoly4 1 1 (by decide) (by decide) (by decide) (by decide)
  exact ⟨⟨h1.1, h1.2⟩, ⟨h2.1, h2.2⟩⟩

/-- Claim C38, amended: for all `int32` `x > 0` and `y` with `0 < y <= x` and any
implementation of the `fixutil` helpers, the precise tier is odd in `y`,
`Atan2(-y, x) = -Atan2(y, x)` (the `int32` negation, which is the exact negation when the
polynomial value is an `int32`); the two faster tiers negate by bitwise complement and are
one raw unit lower: `Atan2Fast(-y, x) = -Atan2Fast(y, x) - 1` and
`Atan2Fastest(-y, x) = -Atan2Fastest(y, x) - 1`. -/
theorem Atan2_negated_y (U : fixutil.Approx) (x y : Int) (hx : isInt32 x) (hy : isInt32 y)
    (h0 : 0 < y) (h1 : y ≤ x) :
    (fix32.Atan2 U (-y) x = ineg32 (fix32.Atan2 U y x) ∧
      ((∀ k, isInt32 (U.AtanPoly5Lut8 k)) → fix32.Atan2 U (-y) x = -(fix32.Atan2 U y x))) ∧
    fix32.Atan2Fast U (-y) x = -(fix32.Atan2Fast U y x) - 1 ∧
    fix32.Atan2Fastest U (-y) x = -(fix32.Atan2Fastest U y x) - 1 := by
  obtain ⟨p1, p2⟩ := fix32_Atan2_first_branch U x y hx hy h0 h1
  obtain ⟨f1, f2⟩ := fix32_atan2Body_first_branch (fix32.Atan2DivFast U) U.AtanPoly3Lut8 x y
    hx hy h0 h1
  obtain ⟨g1, g2⟩ := fix32_atan2Body_first_branch (fix32.Atan2DivFastest U) U.AtanPoly4 x y
    hx hy h0 h1
  refine ⟨⟨?_, ?_⟩, ?_, ?_⟩
  · rw [p2, p1]
    rfl
  · intro hU
    have hz := hU (fix32.Atan2Div U y x)
    rw [p2, p1]
    generalize U.AtanPoly5Lut8 (fix32.Atan2Div U y x) = z at hz
    unfold isInt32 at hz
    rw [Int.shiftRight_eq_div_pow]
    unfold wrap32
    omega
  · unfold fix32.Atan2Fast
    rw [f2, f1]
  · unfold fix32.Atan2Fastest
    rw [g2, g1]

/-- Instances of the amended claim C38 at `y = 1.0`, `x = 2.0`, with the polynomial helpers
returning the constant 1000000. -/
theorem Atan2_negated_y_witness :
    fix32.Atan2 (fixutil.constApprox 1000000) (-65536) 131072 =
      -(fix32.Atan2 (fixutil.constApprox 1000000) 65536 131072) ∧
    fix32.Atan2Fast (fixutil.constApprox 1000000) (-65536) 131072 =
      -(fix32.Atan2Fast (fixutil.constApprox 1000000) 65536 131072) - 1 :=
  ⟨(Atan2_negated_y (fixutil.constApprox 1000000) 131072 65536 (by decide) (by decide)
      (by decide) (by decide)).1.2 (fun _ => (by decide : isInt32 1000000)),
   (Atan2_negated_y (fixutil.constApprox 1000000) 131072 65536 (by decide) (by decide)
      (by decide) (by decide)).2.1⟩

/-! ### The arc sine at the ends of its domain -/

/-- The values of the three Kernel-32 `Asin` tiers at `One` and at `-One`. -/
theorem fix32_Asin_ends (U : fixutil.Approx) :
    (fix32.Asin U fix32.One = 102943 ∧ fix32.Asin U (-fix32.One) = -102944) ∧
    (fix32.AsinFast U fix32.One = 102943 ∧ fix32.AsinFast U (-fix32.One) = -102944) ∧
    (fix32.AsinFastest U fix32.One = 102943 ∧ fix32.AsinFastest U (-fix32.One) = -102944) := by
  have hxx1 : imul64 (iadd32 fix32.One fix32.One) (isub32 fix32.One fix32.One) = 0 := by decide
  have hxx2 : imul64 (iadd32 fix32.One (-fix32.One)) (isub32 fix32.One (-fix32.One)) = 0 := by
    decide
  have hy1 : ishl64 fix32.One 16 = 4294967296 := by decide
  have hy2 : ishl64 (-fix32.One) 16 = -4294967296 := by decide
  have s1 : fix64.Sqrt U 0 = 0 := by unfold fix64.Sqrt fix64.sqrtBody; rw [if_pos (le_refl _)]
  have s2 : fix64.SqrtFast U 0 = 0 := by
    unfold fix64.SqrtFast fix64.sqrtBody; rw [if_pos (le_refl _)]
  have s3 : fix64.SqrtFastest U 0 = 0 := by
    unfold fix64.SqrtFastest fix64.sqrtBody; rw [if_pos (le_refl _)]
  have a1 : ∀ (div : Int → Int → Int) (poly : Int → Int),
      fix64.atan2Body div poly 4294967296 0 = fix64.PiHalf := by
    intro div poly
    unfold fix64.atan2Body
    rw [if_pos rfl, if_pos (by decide)]
  have a2 : ∀ (div : Int → Int → Int) (poly : Int → Int),
      fix64.atan2Body div poly (-4294967296) 0 = -fix64.PiHalf := by
    intro div poly
    unfold fix64.atan2Body
    rw [if_pos rfl, if_neg (by decide), if_pos (by decide)]
  have n1 : ¬ (fix32.One < -fix32.One ∨ fix32.One > fix32.One) := by decide
  have n2 : ¬ (-fix32.One < -fix32.One ∨ -fix32.One > fix32.One) := by decide
  have r1 : wrap32 (fix64.PiHalf >>> (16 : Nat)) = 102943 := by decide
  have r2 : wrap32 ((-fix64.PiHalf) >>> (16 : Nat)) = -102944 := by decide
  refine ⟨⟨?_, ?_⟩, ⟨?_, ?_⟩, ⟨?_, ?_⟩⟩
  · unfold fix32.Asin
    rw [if_neg n1]
    simp only [hxx1, s1, hy1]
    unfold fix64.Atan2
    rw [a1, r1]
  · unfold fix32.Asin
    rw [if_neg n2]
    simp only [hxx2, s1, hy2]
    unfold fix64.Atan2
    rw [a2, r2]
  · unfold fix32.AsinFast
    rw [if_neg n1]
    simp only [hxx1, s2, hy1]
    unfold fix64.Atan2Fast
    rw [a1, r1]
  · unfold fix32.AsinFast
    rw [if_neg n2]
    simp only [hxx2, s2, hy2]
    unfold fix64.Atan2Fast
    rw [a2, r2]
  · unfold fix32.AsinFastest
    rw [if_neg n1]
    simp only [hxx1, s3, hy1]
    unfold fix64.Atan2Fastest
    rw [a1, r1]
  · unfold fix32.AsinFastest
    rw [if_neg n2]
    simp only [hxx2, s3, hy2]
    unfold fix64.Atan2Fastest
    rw [a2, r2]

/-- Counterexample to claim C39: `fix32.Asin(-One)` is `-102944`, one raw unit below
`-PiHalf = -102943`, whatever the polynomial helpers return (here they return 0). -/
theorem Asin_of_neg_One_is_not_neg_PiHalf :
    fix32.Asin fixutil.zeroApprox (-fix32.One) = -102944 ∧ -fix32.PiHalf = -102943 ∧
    fix32.Asin fixutil.zeroApprox (-fix32.One) ≠ -fix32.PiHalf := by
  have h := (fix32_Asin_ends fixutil.zeroApprox).1.2
  refine ⟨h, rfl, ?_⟩
  rw [h]
  decide

/-- Claim C39, amended: in all three tiers and for any implementation of the polynomial
helpers, `fix32.Asin(One) = PiHalf`, and `fix32.Asin(-One) = -PiHalf - 1`: the promoted
64-bit results are `PiHalf` and `-PiHalf` of Kernel-64, and the arithmetic shift back by 16
bits rounds toward minus infinity, which gives `-102944` on the negative side. -/
theorem Asin_at_domain_ends (U : fixutil.Approx) :
    (fix32.Asin U fix32.One = fix32.PiHalf ∧ fix32.Asin U (-fix32.One) = -fix32.PiHalf - 1) ∧
    (fix32.AsinFast U fix32.One = fix32.PiHalf ∧
      fix32.AsinFast U (-fix32.One) = -fix32.PiHalf - 1) ∧
    (fix32.AsinFastest U fix32.One = fix32.PiHalf ∧
      fix32.AsinFastest U (-fix32.One) = -fix32.PiHalf - 1) :=
  fix32_Asin_ends U

/-! ### The identity quaternion -/

/-- Multiplication of zero by anything in Kernel-64. -/
theorem fix64_zero_Mul (b : Int) : fix64.Mul 0 b = 0 := by
  rw [fix64_Mul_floor]
  simp
  decide

/-- Multiplication of `One` by an `int64` value in Kernel-64 is the identity. -/
theorem fix64_One_Mul (b : Int) (hb : isInt64 b) : fix64.Mul fix64.One b = b := by
  unfold isInt64 at hb
  rw [fix64_Mul_floor]
  have e : fix64.One * b / 2 ^ 32 = b := by
    unfold fix64.One
    rw [Int.mul_ediv_cancel_left _ (by norm_num)]
  rw [e]
  unfold wrap64
  omega

/-- Claim C40: the identity quaternion is an exact two-sided identity of the Hamilton
product.  For every `Quat` `q` with `int64` raw components, `q.Multiply(Identity) = q` and
`Identity.Multiply(q) = q`, component for component, `fixutil.LogicalShiftRight(v, 32)`
being the unsigned 64-bit right shift by 32. -/
theorem quat_identity (q : quat.Quat) (hx : isInt64 q.RawX) (hy : isInt64 q.RawY)
    (hz : isInt64 q.RawZ) (hw : isInt64 q.RawW) :
    quat.Quat.Multiply q quat.Identity = q ∧ quat.Quat.Multiply quat.Identity q = q := by
  obtain ⟨x, y, z, w⟩ := q
  simp only at hx hy hz hw
  have a0 : ∀ v : Int, isInt64 v → iadd64 v 0 = v := by
    intro v hv; unfold isInt64 at hv; unfold iadd64 wrap64; omega
  have a0' : ∀ v : Int, isInt64 v → iadd64 0 v = v := by
    intro v hv; unfold isInt64 at hv; unfold iadd64 wrap64; omega
  have s0 : ∀ v : Int, isInt64 v → isub64 v 0 = v := by
    intro v hv; unfold isInt64 at hv; unfold isub64 wrap64; omega
  have z0 : isub64 0 0 = 0 := by decide
  have z1 : iadd64 0 0 = 0 := by decide
  constructor
  · simp only [quat.Quat.Multiply, quat.Quat.X, quat.Quat.Y, quat.Quat.Z, quat.Quat.W,
      quat.Identity, quat.FromRaw, quat.FromF64, f64.F64.Mul, f64.F64.Add, f64.F64.Sub,
      f64.FromRaw, fix64.Add, fix64.Sub, fix64_Mul_zero, fix64_zero_Mul,
      fix64_Mul_One x hx, fix64_Mul_One y hy, fix64_Mul_One z hz, fix64_Mul_One w hw,
      z0, z1, a0 x hx, a0 y hy, a0 z hz, s0 w hw]
  · simp only [quat.Quat.Multiply, quat.Quat.X, quat.Quat.Y, quat.Quat.Z, quat.Quat.W,
      quat.Identity, quat.FromRaw, quat.FromF64, f64.F64.Mul, f64.F64.Add, f64.F64.Sub,
      f64.FromRaw, fix64.Add, fix64.Sub, fix64_Mul_zero, fix64_zero_Mul,
      fix64_Mul_One x hx, fix64_Mul_One y hy, fix64_Mul_One z hz, fix64_One_Mul w hw,
      z0, z1, a0 x hx, a0 y hy, a0 z hz, a0' x hx, a0' y hy, a0' z hz, s0 w hw]

/-- Instances of claim C40 at a quaternion with extreme components. -/
theorem quat_identity_witness :
    quat.Quat.Multiply { RawX := 1, RawY := -2, RawZ := fix64.MaxValue, RawW := fix64.MinValue }
        quat.Identity
      = { RawX := 1, RawY := -2, RawZ := fix64.MaxValue, RawW := fix64.MinValue } ∧
    quat.Quat.Multiply quat.Identity
        { RawX := 1, RawY := -2, RawZ := fix64.MaxValue, RawW := fix64.MinValue }
      = { RawX := 1, RawY := -2, RawZ := fix64.MaxValue, RawW := fix64.MinValue } :=
  quat_identity { RawX := 1, RawY := -2, RawZ := fix64.MaxValue, RawW := fix64.MinValue }
    (by decide) (by decide) (by decide) (by decide)

/-! ### Totality of the long division and the length of its correction loops -/

namespace fix64

/-- The number of decrements of the correction loop, started above the true digit `Q` with
the loop invariant, is the distance to `Q`. -/
theorem qLoopCount_spec (vn1 vn0 un u Q : Nat) (hvn1 : 2 ^ 31 ≤ vn1) (hvn1' : vn1 < 2 ^ 32)
    (hvn0 : vn0 < 2 ^ 32) (hun : un < 2 ^ 32) (hu : u < vn1 * 2 ^ 32 + vn0)
    (hQ : Q = (u * 2 ^ 32 + un) / (vn1 * 2 ^ 32 + vn0)) :
    ∀ q r, q * vn1 + r = u → Q ≤ q → q ≤ 2 ^ 32 + 1 → (2 ^ 32 ≤ r → q ≤ 2 ^ 32) →
      qLoopCount vn1 vn0 un q r = q - Q := by
  have hQlt : Q < 2 ^ 32 := hQ ▸ digit_lt_base (vn1 * 2 ^ 32 + vn0) u un hun hu
  intro q
  induction q using Nat.strong_induction_on with
  | _ q ih =>
    intro r hqr hQq hq1 hq2
    have hVpos : 0 < vn1 * 2 ^ 32 + vn0 := by omega
    have e : q * (vn1 * 2 ^ 32 + vn0) = (q * vn1) * 2 ^ 32 + q * vn0 := by ring
    have e2 : u * 2 ^ 32 = (q * vn1) * 2 ^ 32 + r * 2 ^ 32 := by rw [← hqr]; ring
    have key : q * vn0 ≤ r * 2 ^ 32 + un → q ≤ Q := by
      intro h
      rw [hQ, Nat.le_div_iff_mul_le hVpos, e]
      omega
    have key2 : r * 2 ^ 32 + un < q * vn0 → Q < q := by
      intro h
      rw [hQ, Nat.div_lt_iff_lt_mul hVpos, e]
      omega
    rw [qLoopCount]
    by_cases hr : r < 0x100000000
    · rw [if_pos hr]
      by_cases hc : q ≥ 0x100000000 ∨ mul64 q vn0 > add64 (mul64 0x100000000 r) un
      · rw [dif_pos hc]
        have hlt : Q < q := by
          rcases hc with hc | hc
          · omega
          · by_cases hqb : q ≥ 0x100000000
            · omega
            · apply key2
              have hm := Nat.mul_lt_mul'' (show q < 2 ^ 32 by omega) hvn0
              unfold mul64 add64 at hc
              omega
        have hs : sub64 q 1 = q - 1 := by unfold sub64; omega
        have ha : add64 r vn1 = r + vn1 := by unfold add64; omega
        rw [hs, ha]
        have hrec : qLoopCount vn1 vn0 un (q - 1) (r + vn1) = q - 1 - Q := by
          apply ih (q - 1) (by omega) (r + vn1)
          · have : q * vn1 = (q - 1) * vn1 + vn1 := by
              conv_lhs => rw [show q = (q - 1) + 1 by omega]
              ring
            omega
          · omega
          · omega
          · intro _; omega
        rw [hrec]
        omega
      · rw [dif_neg hc]
        push_neg at hc
        obtain ⟨hc1, hc2⟩ := hc
        have hm := Nat.mul_lt_mul'' (show q < 2 ^ 32 by omega) hvn0
        unfold mul64 add64 at hc2
        have := key (by omega)
        omega
    · rw [if_neg hr]
      have hqb := hq2 (by omega)
      have hm : q * vn0 ≤ 2 ^ 32 * vn0 := Nat.mul_le_mul_right _ hqb
      have := key (by omega)
      omega

/-- The estimate `u / vn1` of a quotient digit exceeds the true digit by at most 2 when the
divisor is normalised (`vn1 >= 2^31`). -/
theorem estimate_le (vn1 vn0 un u : Nat) (hvn1 : 2 ^ 31 ≤ vn1) (hvn1' : vn1 < 2 ^ 32)
    (hvn0 : vn0 < 2 ^ 32) (hu : u < vn1 * 2 ^ 32 + vn0) :
    u / vn1 ≤ (u * 2 ^ 32 + un) / (vn1 * 2 ^ 32 + vn0) + 2 := by
  have hpos : 0 < vn1 := by omega
  have hVpos : 0 < vn1 * 2 ^ 32 + vn0 := by omega
  have hqv : u / vn1 * vn1 ≤ u := Nat.div_mul_le_self u vn1
  have hqle : u / vn1 ≤ 2 ^ 32 + 1 := by
    by_contra hcon
    have h1 : (2 ^ 32 + 2) * vn1 ≤ u / vn1 * vn1 := Nat.mul_le_mul_right _ (by omega)
    omega
  by_cases h2 : u / vn1 < 2
  · exact le_trans (le_of_lt h2) (Nat.le_add_left 2 _)
  · obtain ⟨q, hq⟩ : ∃ q, u / vn1 = q + 2 := ⟨u / vn1 - 2, by omega⟩
    rw [hq] at hqv hqle ⊢
    suffices h : q ≤ (u * 2 ^ 32 + un) / (vn1 * 2 ^ 32 + vn0) by omega
    rw [Nat.le_div_iff_mul_le hVpos]
    have e1 : q * (vn1 * 2 ^ 32 + vn0) = (q * vn1) * 2 ^ 32 + q * vn0 := by ring
    have e2 : (q + 2) * vn1 = q * vn1 + 2 * vn1 := by ring
    have h3 : q * vn0 ≤ q * 2 ^ 32 := Nat.mul_le_mul_left _ (by omega)
    rw [e1]
    rw [e2] at hqv
    omega

/-- One quotient digit takes at most two decrements of the correction loop. -/
theorem digit_count (vn1 vn0 un u : Nat) (hvn1 : 2 ^ 31 ≤ vn1) (hvn1' : vn1 < 2 ^ 32)
    (hvn0 : vn0 < 2 ^ 32) (hun : un < 2 ^ 32) (hu : u < vn1 * 2 ^ 32 + vn0) :
    qLoopCount vn1 vn0 un (u / vn1) (sub64 u (mul64 (u / vn1) vn1)) ≤ 2 := by
  have hpos : 0 < vn1 := by omega
  have hVpos : 0 < vn1 * 2 ^ 32 + vn0 := by omega
  have hdm : vn1 * (u / vn1) + u % vn1 = u := Nat.div_add_mod u vn1
  have hml : u % vn1 < vn1 := Nat.mod_lt _ hpos
  have hcomm : u / vn1 * vn1 = vn1 * (u / vn1) := Nat.mul_comm _ _
  have hr : sub64 u (mul64 (u / vn1) vn1) = u % vn1 := by
    unfold sub64 mul64
    omega
  rw [hr]
  obtain ⟨Q, hQ⟩ : ∃ Q, Q = (u * 2 ^ 32 + un) / (vn1 * 2 ^ 32 + vn0) := ⟨_, rfl⟩
  have hest := estimate_le vn1 vn0 un u hvn1 hvn1' hvn0 hu
  rw [← hQ] at hest
  have hcount : qLoopCount vn1 vn0 un (u / vn1) (u % vn1) = u / vn1 - Q := by
    apply qLoopCount_spec vn1 vn0 un u Q hvn1 hvn1' hvn0 hun hu hQ
    · omega
    · rw [Nat.le_div_iff_mul_le hpos]
      have h1 : Q * (vn1 * 2 ^ 32 + vn0) ≤ u * 2 ^ 32 + un := by
        rw [hQ]; exact Nat.div_mul_le_self _ _
      have e : Q * (vn1 * 2 ^ 32 + vn0) = (Q * vn1) * 2 ^ 32 + Q * vn0 := by ring
      omega
    · by_contra hcon
      have h1 : (2 ^ 32 + 2) * vn1 ≤ u / vn1 * vn1 := Nat.mul_le_mul_right _ (by omega)
      omega
    · intro h; omega
  rw [hcount]
  omega

/-- The normalised divisor of `DivPrecise` has its top bit set: its high digit is at least
`2^31`. -/
theorem norm_divisor_digit (v : Nat) (hv : v < 2 ^ 64) (h0 : v ≠ 0) :
    2 ^ 31 ≤ shl64 v (nlz v) >>> 32 ∧ shl64 v (nlz v) >>> 32 < 2 ^ 32 := by
  obtain ⟨_, hn1, hn2⟩ := nlz_norm v hv h0
  have e : shl64 v (nlz v) = v * 2 ^ nlz v := by
    simp only [shl64, Nat.shiftLeft_eq]
    exact Nat.mod_eq_of_lt hn2
  rw [e, Nat.shiftRight_eq_div_pow]
  omega

set_option maxHeartbeats 1000000 in
/-- The instrumented long division outside the overflow guard: no division by zero occurs,
the value is that of `DivPrecise`, and each correction loop decrements at most twice. -/
theorem DivPreciseChecked_eq (a b : Int) (ha : isInt64 a) (hb : isInt64 b)
    (hlt : a.natAbs / 2 ^ 32 < b.natAbs) :
    ∃ c1 c0, DivPreciseChecked a b = some (DivPrecise a b, c1, c0) ∧ c1 ≤ 2 ∧ c0 ≤ 2 := by
  obtain ⟨_, hD⟩ := DivPrecise_eq a b ha hb hlt
  rw [hD]
  suffices h : ∀ r, DivPreciseChecked a b = r → ∃ c1 c0, r = some
      (if Int.xor a b < 0 then wrap64 (-(toI64 (a.natAbs * 2 ^ 32 / b.natAbs)))
       else toI64 (a.natAbs * 2 ^ 32 / b.natAbs), c1, c0) ∧ c1 ≤ 2 ∧ c0 ≤ 2 from h _ rfl
  intro r hr
  unfold DivPreciseChecked at hr
  lift_lets at hr
  extract_lets signDif bb absArgA u1 u0 v s v' vn1 vn0 un32 un10 un1 un0 q1 rHat c1 q1' un21 q0
    rHat' c0 q0' ret at hr
  have hA : absArgA = a.natAbs := abs_u64 a ha
  have hV : v = b.natAbs := abs_u64 b hb
  have hAle : a.natAbs ≤ 2 ^ 63 := by unfold isInt64 at ha; omega
  have hVle : b.natAbs ≤ 2 ^ 63 := by unfold isInt64 at hb; omega
  have hu1 : u1 = a.natAbs / 2 ^ 32 := by
    simp only [u1, hA, Nat.shiftRight_eq_div_pow]
  have hnot : ¬ (u1 ≥ v) := by omega
  rw [if_neg hnot] at hr
  obtain ⟨hs63, hn1, hn2⟩ := nlz_norm v (by omega) (by omega)
  have hs : nlz v = s := rfl
  rw [hs] at hs63 hn1 hn2
  have hP : 0 < 2 ^ s := Nat.two_pow_pos s
  have hv' : v' = v * 2 ^ s := by
    simp only [v', shl64, Nat.shiftLeft_eq]
    exact Nat.mod_eq_of_lt hn2
  have hT : (a.natAbs / 2 ^ 32 + 1) * 2 ^ s ≤ v * 2 ^ s := Nat.mul_le_mul_right _ (by omega)
  have hT' : (a.natAbs / 2 ^ 32 + 1) * 2 ^ s = a.natAbs / 2 ^ 32 * 2 ^ s + 2 ^ s := by ring
  have hun32 : un32 = a.natAbs * 2 ^ 32 * 2 ^ s / 2 ^ 64 := by
    simp only [un32, u1, u0, hA]
    exact norm_hi _ _ hs63 (by omega)
  have hun10 : un10 = a.natAbs * 2 ^ 32 * 2 ^ s % 2 ^ 64 := by
    simp only [un10, u0, hA]
    exact norm_lo _ _
  have hNdm := Nat.div_add_mod (a.natAbs * 2 ^ 32 * 2 ^ s) (2 ^ 64)
  have hAdm := Nat.div_add_mod a.natAbs (2 ^ 32)
  have hR : a.natAbs % 2 ^ 32 * 2 ^ s ≤ (2 ^ 32 - 1) * 2 ^ s :=
    Nat.mul_le_mul_right _ (by omega)
  have hN : a.natAbs * 2 ^ 32 * 2 ^ s
      = (2 ^ 32 * (a.natAbs / 2 ^ 32 * 2 ^ s) + a.natAbs % 2 ^ 32 * 2 ^ s) * 2 ^ 32 := by
    conv_lhs => rw [← hAdm]
    ring
  have hNlt : a.natAbs * 2 ^ 32 * 2 ^ s < v' * 2 ^ 64 := by omega
  have hun32lt : un32 < v' := by
    rw [hun32, Nat.div_lt_iff_lt_mul (by norm_num)]
    exact hNlt
  have hvn1 : vn1 = v' / 2 ^ 32 := by simp only [vn1, Nat.shiftRight_eq_div_pow]
  have hvn0 : vn0 = v' % 2 ^ 32 := by
    simp only [vn0]
    exact Nat.and_pow_two_sub_one_eq_mod v' 32
  have hun1 : un1 = un10 / 2 ^ 32 := by simp only [un1, Nat.shiftRight_eq_div_pow]
  have hun0 : un0 = un10 % 2 ^ 32 := by
    simp only [un0]
    exact Nat.and_pow_two_sub_one_eq_mod un10 32
  have hvsplit : v' = vn1 * 2 ^ 32 + vn0 := by omega
  have hvn1ne : ¬ (vn1 = 0) := by omega
  rw [if_neg hvn1ne] at hr
  have hq1 : q1' = (un32 * 2 ^ 32 + un1) / (vn1 * 2 ^ 32 + vn0) :=
    digit_spec vn1 vn0 un1 un32 (by omega) (by omega) (by omega) (by omega) (by omega)
  have hc1 : c1 ≤ 2 :=
    digit_count vn1 vn0 un1 un32 (by omega) (by omega) (by omega) (by omega) (by omega)
  rw [← hvsplit] at hq1
  have hv'pos : 0 < v' := by omega
  have hdm1 := Nat.div_add_mod (un32 * 2 ^ 32 + un1) v'
  have hml1 := Nat.mod_lt (un32 * 2 ^ 32 + un1) hv'pos
  have hun21 : un21 = (un32 * 2 ^ 32 + un1) % v' := by
    have hc : q1' * v' = v' * ((un32 * 2 ^ 32 + un1) / v') := by rw [hq1, Nat.mul_comm]
    simp only [un21, bb, sub64, add64, mul64]
    omega
  have hq0 : q0' = (un21 * 2 ^ 32 + un0) / (vn1 * 2 ^ 32 + vn0) :=
    digit_spec vn1 vn0 un0 un21 (by omega) (by omega) (by omega) (by omega) (by omega)
  have hc0 : c0 ≤ 2 :=
    digit_count vn1 vn0 un0 un21 (by omega) (by omega) (by omega) (by omega) (by omega)
  rw [← hvsplit, hun21] at hq0
  have htd := two_digits v' (un32 * 2 ^ 32 + un1) un0 hv'pos
  rw [← hq1, ← hq0] at htd
  have hNeq : (un32 * 2 ^ 32 + un1) * 2 ^ 32 + un0 = a.natAbs * 2 ^ 32 * 2 ^ s := by omega
  rw [hNeq] at htd
  have hquot : a.natAbs * 2 ^ 32 * 2 ^ s / v' = a.natAbs * 2 ^ 32 / b.natAbs := by
    rw [hv', hV, Nat.mul_div_mul_right _ _ hP]
  have hqlt : a.natAbs * 2 ^ 32 * 2 ^ s / v' < 2 ^ 64 := by
    rw [Nat.div_lt_iff_lt_mul hv'pos]
    omega
  have hret : ret = a.natAbs * 2 ^ 32 / b.natAbs := by
    rw [← hquot, ← htd]
    simp only [ret, bb, add64, mul64]
    omega
  rw [hret] at hr
  exact ⟨c1, c0, hr.symm, hc1, hc0⟩

/-- Claim C34: `fix64.DivPrecise` is total.  For every pair of `int64` values `(a, b)`,
including `b = 0` and `b = MinValue`, the function as it runs returns the value of
`DivPrecise(a, b)` without dividing by zero, each of its two quotient-correction loops
performing at most two decrements; and whenever the overflow guard is passed the normalised
high divisor digit `vn1` is at least `2^31`. -/
theorem DivPrecise_total (a b : Int) (ha : isInt64 a) (hb : isInt64 b) :
    (∃ c1 c0, DivPreciseChecked a b = some (DivPrecise a b, c1, c0) ∧ c1 ≤ 2 ∧ c0 ≤ 2) ∧
    (a.natAbs >>> 32 < b.natAbs →
      2 ^ 31 ≤ shl64 b.natAbs (nlz b.natAbs) >>> 32) := by
  have hVle : b.natAbs ≤ 2 ^ 63 := by unfold isInt64 at hb; omega
  constructor
  · by_cases hg : b.natAbs ≤ a.natAbs >>> 32
    · refine ⟨0, 0, ?_, by omega, by omega⟩
      rw [DivPrecise_guard a b ha hb hg]
      unfold DivPreciseChecked
      simp only [abs_u64 a ha, abs_u64 b hb]
      rw [if_pos hg]
      rfl
    · rw [Nat.shiftRight_eq_div_pow] at hg
      exact DivPreciseChecked_eq a b ha hb (by omega)
  · intro hlt
    exact (norm_divisor_digit b.natAbs (by omega) (by omega)).1

/-- Instances of claim C34: a zero divisor, the divisor `MinValue`, and a division whose
second correction loop decrements once. -/
theorem DivPrecise_total_witness :
    (∃ c1 c0, DivPreciseChecked 7 0 = some (DivPrecise 7 0, c1, c0) ∧ c1 ≤ 2 ∧ c0 ≤ 2) ∧
    (∃ c1 c0, DivPreciseChecked MinValue MinValue = some (DivPrecise MinValue MinValue, c1, c0)
      ∧ c1 ≤ 2 ∧ c0 ≤ 2) ∧
    (∃ c1 c0, DivPreciseChecked MaxValue (-6442450943)
      = some (DivPrecise MaxValue (-6442450943), c1, c0) ∧ c1 ≤ 2 ∧ c0 ≤ 2) :=
  ⟨(DivPrecise_total 7 0 (by decide) (by decide)).1,
   (DivPrecise_total MinValue MinValue (by decide) (by decide)).1,
   (DivPrecise_total MaxValue (-6442450943) (by decide) (by decide)).1⟩

end fix64
